import Mathlib

/-!
# FactTracker (Marabou, `src/engine/FactTracker.cpp`)

A shallow embedding of the backtrackable fact store of the solver and of its
two provenance queries.

* Facts live in a `Memory` of cells; a `const Fact*` is a cell address (`Ptr`).
  `new` takes the next address, `delete` empties a cell, and reading an
  address that holds no object is a `fault`.
* The tracker is a record of its five members plus its own identity (`this`).
* Loops and recursion whose termination depends on the explanation graph take
  a fuel argument and answer `outOfFuel` when it is used up.
* `unsigned` keys and identifiers are natural numbers; the one place where a
  size is narrowed to `unsigned` (`getNumFacts`) reduces modulo `2 ^ 32`.
* `double` payloads are only stored and copied by this code; they are
  represented by integers.
-/

namespace Marabou

/-! ## Facts -/

/-- An address of a fact object (`const Fact*`). -/
abbrev Ptr := Nat

/-- The enum `Tightening::BoundType`. -/
inductive Tightening.BoundType where
  | LB
  | UB
deriving DecidableEq

/-- The enum `Equation::EquationType`. -/
inductive Equation.EquationType where
  | EQ
  | GE
  | LE
deriving DecidableEq

/-- Modelled from the spec: the members of the base class `Fact` (Fact.h and
Fact.cpp are not among the sources): the explanation list, the causing-split
metadata, the flag read by `isCausedBySplit`, and the owner back-reference
(`none` is the null pointer). -/
structure Fact where
  _explanations : List Ptr
  _causingConstraintID : Nat
  _causingSplitID : Nat
  _splitLevelCausing : Nat
  _causedBySplit : Bool
  _owner : Option Nat
deriving DecidableEq

/-- Modelled from the spec: the state of a freshly constructed `Fact`
(Fact.cpp is not among the sources): no explanation, zero split metadata,
not caused by a split, no owner. -/
def Fact.fresh : Fact :=
  { _explanations := [], _causingConstraintID := 0, _causingSplitID := 0,
    _splitLevelCausing := 0, _causedBySplit := false, _owner := none }

/-- Modelled from the spec: `Fact::setCausingSplitInfo` (Fact.cpp is not among
the sources) stores the three identifiers; the fact counts as caused by a
split from then on, also at level 0 (the level is what tells a seeded fact
from a branch-derived one). -/
def Fact.setCausingSplitInfo (f : Fact) (constraintID splitID splitLevelCausing : Nat) : Fact :=
  { f with _causingConstraintID := constraintID, _causingSplitID := splitID,
           _splitLevelCausing := splitLevelCausing, _causedBySplit := true }

/-- Modelled from the spec: `Fact::setOwner` (Fact.cpp is not among the
sources) stores the tracker identity. -/
def Fact.setOwner (f : Fact) (tracker : Nat) : Fact :=
  { f with _owner := some tracker }

/-- Modelled from the spec: `Fact::addExplanation` (Fact.cpp is not among the
sources) appends to the explanation list. -/
def Fact.addExplanation (f : Fact) (explanation : Ptr) : Fact :=
  { f with _explanations := f._explanations ++ [explanation] }

/-- The class `Tightening`: a `Fact` with a variable, a value and a kind. -/
structure Tightening extends Fact where
  _variable : Nat
  _value : Int
  _type : Tightening.BoundType
deriving DecidableEq

/-- The constructor `Tightening( variable, value, type )`. -/
def Tightening.new (var : Nat) (value : Int) (type : Tightening.BoundType) : Tightening :=
  { Fact.fresh with _variable := var, _value := value, _type := type }

/-- One addend of an equation: coefficient and variable. -/
structure Equation.Addend where
  _coefficient : Int
  _variable : Nat
deriving DecidableEq

/-- The class `Equation`: a `Fact` with addends, a scalar and a relation. -/
structure Equation extends Fact where
  _addends : List Equation.Addend
  _scalar : Int
  _type : Equation.EquationType
deriving DecidableEq

/-- The default constructor `Equation()`. -/
def Equation.new : Equation :=
  { Fact.fresh with _addends := [], _scalar := 0, _type := .EQ }

/-- The method `Equation::addAddend( coefficient, variable )`. -/
def Equation.addAddend (e : Equation) (coefficient : Int) (var : Nat) : Equation :=
  { e with _addends := e._addends ++ [⟨coefficient, var⟩] }

/-- The method `Equation::setScalar`. -/
def Equation.setScalar (e : Equation) (scalar : Int) : Equation :=
  { e with _scalar := scalar }

/-- An object behind a `const Fact*`: one of the two subclasses. -/
inductive FactObj where
  | tightening (t : Tightening)
  | equation (e : Equation)
deriving DecidableEq

/-- The `Fact` part of an object. -/
def FactObj.toFact : FactObj → Fact
  | .tightening t => t.toFact
  | .equation e => e.toFact

def FactObj.getExplanations (o : FactObj) : List Ptr := o.toFact._explanations
def FactObj.isCausedBySplit (o : FactObj) : Bool := o.toFact._causedBySplit
def FactObj.getSplitLevelCausing (o : FactObj) : Nat := o.toFact._splitLevelCausing
def FactObj.getCausingConstraintID (o : FactObj) : Nat := o.toFact._causingConstraintID
def FactObj.getCausingSplitID (o : FactObj) : Nat := o.toFact._causingSplitID
def FactObj.getOwner (o : FactObj) : Option Nat := o.toFact._owner

/-! ## Memory -/

/-- The heap of fact objects: cell `p` holds the object at address `p`, or
nothing once it was deleted. -/
structure Memory where
  cells : List (Option FactObj)
deriving DecidableEq

/-- Reading through a pointer. -/
def Memory.deref (mem : Memory) (p : Ptr) : Option FactObj :=
  (mem.cells.get? p).join

/-- The expression `new T(o)`: the object is stored at an address that holds
no object, here the first address never used; the theorems use of the choice
only that the address holds no object. -/
def Memory.alloc (mem : Memory) (o : FactObj) : Memory × Ptr :=
  (⟨mem.cells ++ [some o]⟩, mem.cells.length)

/-- The statement `delete p`. -/
def Memory.free (mem : Memory) (p : Ptr) : Memory :=
  ⟨mem.cells.set p none⟩

/-! ## Containers -/

/-- The ways a container access can fail. -/
inductive Failure where
  | STACK_IS_EMPTY
  | KEY_DOESNT_EXIST_IN_MAP
deriving DecidableEq

/-- Modelled from the spec: `Stack<T>` (Stack.h is not among the sources), a
LIFO sequence, the head of the list being the top. -/
abbrev Stack (α : Type) := List α

/-- Modelled from the spec: `Stack::top`; reading the top of an empty stack is
a fatal precondition violation. -/
def Stack.top {α : Type} (s : Stack α) : Except Failure α :=
  match s with
  | [] => .error .STACK_IS_EMPTY
  | x :: _ => .ok x

/-- Modelled from the spec: `Map<unsigned, V>` (Map.h is not among the
sources), a finite mapping in which a key is present or absent. -/
@[ext]
structure Map (V : Type) where
  find : Nat → Option V

/-- The empty map. -/
def Map.empty {V : Type} : Map V := ⟨fun _ => none⟩

/-- The method `Map::exists`. -/
def Map.existsKey {V : Type} (m : Map V) (k : Nat) : Bool := (m.find k).isSome

/-- The assignment `m[k] = v`. -/
def Map.set {V : Type} (m : Map V) (k : Nat) (v : V) : Map V :=
  ⟨fun j => if j = k then some v else m.find j⟩

/-- Modelled from the spec: `m[k]` on a constant map; reading an absent key is
a fatal precondition violation. -/
def Map.at {V : Type} (m : Map V) (k : Nat) : Except Failure V :=
  match m.find k with
  | none => .error .KEY_DOESNT_EXIST_IN_MAP
  | some v => .ok v

/-- The expression `m[k]` on a mutable map of stacks: an absent key is first
bound to an empty stack. -/
def Map.touch {α : Type} (m : Map (Stack α)) (k : Nat) : Map (Stack α) :=
  match m.find k with
  | none => m.set k []
  | some _ => m

/-- The stack under `k` after `Map.touch`. -/
def Map.stackAt {α : Type} (m : Map (Stack α)) (k : Nat) : Stack α :=
  (m.find k).getD []

/-! ## The tracker -/

/-- The enum `FactTracker::BoundType`. -/
inductive FactTracker.BoundType where
  | LB
  | UB
  | EQU
deriving DecidableEq

/-- The members of `FactTracker`, and `self`, the identity that `this`
denotes. -/
structure FactTracker where
  self : Nat
  _lowerBoundFact : Map (Stack Ptr)
  _upperBoundFact : Map (Stack Ptr)
  _equationFact : Map (Stack Ptr)
  _factsLearned : Stack (Nat × FactTracker.BoundType)
  _factsLearnedSet : Finset Ptr

namespace FactTracker

/-- A newly constructed tracker. -/
def new (self : Nat) : FactTracker :=
  { self := self, _lowerBoundFact := Map.empty, _upperBoundFact := Map.empty,
    _equationFact := Map.empty, _factsLearned := [], _factsLearnedSet := ∅ }

/-- `FactTracker::hasFact`. -/
def hasFact (t : FactTracker) (fact : FactObj) : Bool :=
  decide (some t.self = fact.getOwner)

/-- `FactTracker::hasFactAffectingBound`. -/
def hasFactAffectingBound (t : FactTracker) (var : Nat) (type : BoundType) : Bool :=
  if type = .LB then
    t._lowerBoundFact.existsKey var && !(t._lowerBoundFact.stackAt var).isEmpty
  else
    t._upperBoundFact.existsKey var && !(t._upperBoundFact.stackAt var).isEmpty

/-- `FactTracker::getFactAffectingBound`. -/
def getFactAffectingBound (t : FactTracker) (var : Nat) (type : BoundType) : Except Failure Ptr :=
  if type = .LB then
    match t._lowerBoundFact.at var with
    | .error e => .error e
    | .ok temp => Stack.top temp
  else
    match t._upperBoundFact.at var with
    | .error e => .error e
    | .ok temp => Stack.top temp

/-- `FactTracker::hasFactAffectingEquation`. -/
def hasFactAffectingEquation (t : FactTracker) (equNumber : Nat) : Bool :=
  t._equationFact.existsKey equNumber && !(t._equationFact.stackAt equNumber).isEmpty

/-- `FactTracker::getFactAffectingEquation`. -/
def getFactAffectingEquation (t : FactTracker) (equNumber : Nat) : Except Failure Ptr :=
  match t._equationFact.at equNumber with
  | .error e => .error e
  | .ok temp => Stack.top temp

/-- `FactTracker::getNumFacts`: the size of the undo log as an `unsigned`. -/
def getNumFacts (t : FactTracker) : Nat :=
  t._factsLearned.length % 2 ^ 32

/-- The statements `if ( !has ) m[k] = Stack(); m[k].push( newFact )` shared
by the three branches of the add operations. -/
def pushOn (m : Map (Stack Ptr)) (has : Bool) (k : Nat) (newFact : Ptr) : Map (Stack Ptr) :=
  let m1 := if !has then m.set k [] else m
  let m2 := m1.touch k
  m2.set k (newFact :: m2.stackAt k)

/-- `FactTracker::addBoundFact`. -/
def addBoundFact (t : FactTracker) (mem : Memory) (var : Nat) (bound : Tightening) :
    Memory × FactTracker :=
  let bound : Tightening := { bound with toFact := bound.toFact.setOwner t.self }
  let (mem1, newFact) := mem.alloc (.tightening bound)
  let t1 := { t with _factsLearnedSet := insert newFact t._factsLearnedSet }
  if bound._type = .LB then
    (mem1, { t1 with
      _lowerBoundFact :=
        pushOn t1._lowerBoundFact (t1.hasFactAffectingBound var .LB) var newFact
      _factsLearned := (var, BoundType.LB) :: t1._factsLearned })
  else
    (mem1, { t1 with
      _upperBoundFact :=
        pushOn t1._upperBoundFact (t1.hasFactAffectingBound var .UB) var newFact
      _factsLearned := (var, BoundType.UB) :: t1._factsLearned })

/-- `FactTracker::addEquationFact`. -/
def addEquationFact (t : FactTracker) (mem : Memory) (equNumber : Nat) (equ : Equation) :
    Memory × FactTracker :=
  let equ : Equation := { equ with toFact := equ.toFact.setOwner t.self }
  let (mem1, newFact) := mem.alloc (.equation equ)
  let t1 := { t with _factsLearnedSet := insert newFact t._factsLearnedSet }
  (mem1, { t1 with
    _equationFact :=
      pushOn t1._equationFact (t1.hasFactAffectingEquation equNumber) equNumber newFact
    _factsLearned := (equNumber, BoundType.EQU) :: t1._factsLearned })

/-- The outcome of `popFact`: the state after a normal return, or the failure
together with the state in which it was raised. -/
abbrev PopResult := Except (Failure × Memory × FactTracker) (Memory × FactTracker)

/-- `FactTracker::popFact`. -/
def popFact (t : FactTracker) (mem : Memory) : PopResult :=
  match t._factsLearned with
  | [] => .error (.STACK_IS_EMPTY, mem, t)
  | factInfo :: rest =>
    let t1 := { t with _factsLearned := rest }
    match factInfo.2 with
    | .LB =>
      let t2 := { t1 with _lowerBoundFact := t1._lowerBoundFact.touch factInfo.1 }
      match t2._lowerBoundFact.stackAt factInfo.1 with
      | [] => .error (.STACK_IS_EMPTY, mem, t2)
      | oldFact :: below =>
        .ok (mem.free oldFact,
          { t2 with _factsLearnedSet := t2._factsLearnedSet.erase oldFact
                    _lowerBoundFact := t2._lowerBoundFact.set factInfo.1 below })
    | .UB =>
      let t2 := { t1 with _upperBoundFact := t1._upperBoundFact.touch factInfo.1 }
      match t2._upperBoundFact.stackAt factInfo.1 with
      | [] => .error (.STACK_IS_EMPTY, mem, t2)
      | oldFact :: below =>
        .ok (mem.free oldFact,
          { t2 with _factsLearnedSet := t2._factsLearnedSet.erase oldFact
                    _upperBoundFact := t2._upperBoundFact.set factInfo.1 below })
    | .EQU =>
      let t2 := { t1 with _equationFact := t1._equationFact.touch factInfo.1 }
      match t2._equationFact.stackAt factInfo.1 with
      | [] => .error (.STACK_IS_EMPTY, mem, t2)
      | oldFact :: below =>
        .ok (mem.free oldFact,
          { t2 with _factsLearnedSet := t2._factsLearnedSet.erase oldFact
                    _equationFact := t2._equationFact.set factInfo.1 below })

end FactTracker

/-! ## Provenance queries -/

/-- The result of a traversal: its value, a read through a pointer that holds
no object, or fuel used up before the traversal ended. -/
inductive Run (α : Type) where
  | done (a : α)
  | fault
  | outOfFuel
deriving DecidableEq

/-- The order of `Pair<unsigned, unsigned>`: first component, then second. -/
def pairLe (a b : Nat × Nat) : Prop :=
  a.1 < b.1 ∨ (a.1 = b.1 ∧ a.2 ≤ b.2)

instance pairLe.decidable : DecidableRel pairLe := fun a b => by
  unfold pairLe
  exact inferInstance

/-- Modelled from the spec: `Set<Pair<unsigned, unsigned>>::insert` (Set.h is
not among the sources): the set is kept as the ascending duplicate-free list
that iterating over it yields. -/
def pairSetInsert (p : Nat × Nat) (result : List (Nat × Nat)) : List (Nat × Nat) :=
  if p ∈ result then result else result.orderedInsert pairLe p

/-- The `while` loop of `getConstraintsAndSplitsCausingFacts`: one iteration
per unit of fuel; `remaining` is the queue, its head the front. -/
def causingLoop (mem : Memory) :
    Nat → Finset Ptr → List (Nat × Nat) → List Ptr → Run (List (Nat × Nat))
  | _, _, result, [] => .done result
  | 0, _, _, _ :: _ => .outOfFuel
  | fuel + 1, seen, result, fact :: remaining =>
    if fact ∈ seen then causingLoop mem fuel seen result remaining
    else
      match mem.deref fact with
      | none => .fault
      | some f =>
        if f.isCausedBySplit then
          if f.getSplitLevelCausing ≠ 0 then
            causingLoop mem fuel (insert fact seen)
              (pairSetInsert (f.getCausingConstraintID, f.getCausingSplitID) result) remaining
          else causingLoop mem fuel (insert fact seen) result remaining
        else
          causingLoop mem fuel (insert fact seen) result (remaining ++ f.getExplanations)

/-- `FactTracker::getConstraintsAndSplitsCausingFacts`: the queue starts as
the input list, the seen set and the result set start empty. -/
def FactTracker.getConstraintsAndSplitsCausingFacts (_t : FactTracker) (mem : Memory) (fuel : Nat)
    (facts : List Ptr) : Run (List (Nat × Nat)) :=
  causingLoop mem fuel ∅ [] facts

/-- The `for` loop of `getExternalFactsForBound`, the recursive call being
`recurse`. -/
def externalLoop (t : FactTracker) (mem : Memory) (recurse : Ptr → Run (Finset Ptr)) :
    List Ptr → Finset Ptr → Run (Finset Ptr)
  | [], externalFacts => .done externalFacts
  | explanation :: rest, externalFacts =>
    match mem.deref explanation with
    | none => .fault
    | some e =>
      if !t.hasFact e then
        externalLoop t mem recurse rest (insert explanation externalFacts)
      else
        match recurse explanation with
        | .done inner => externalLoop t mem recurse rest (externalFacts ∪ inner)
        | .fault => .fault
        | .outOfFuel => .outOfFuel

/-- `FactTracker::getExternalFactsForBound`: one unit of fuel per level of
recursion. -/
def FactTracker.getExternalFactsForBound (t : FactTracker) (mem : Memory) :
    Nat → Ptr → Run (Finset Ptr)
  | 0, _ => .outOfFuel
  | fuel + 1, fact =>
    match mem.deref fact with
    | none => .fault
    | some f =>
      externalLoop t mem (FactTracker.getExternalFactsForBound t mem fuel) f.getExplanations ∅

/-! ## Seeding -/

/-- One entry of a `SparseUnsortedList`. -/
structure SparseEntry where
  _index : Nat
  _value : Int
deriving DecidableEq

/-- Modelled from the spec: the part of `ITableau` (ITableau.h is not among the
sources) that seeding reads: the numbers of variables and rows, the bounds,
the sparse rows and the right-hand scalars. -/
structure ITableau where
  getN : Nat
  getM : Nat
  getLowerBound : Nat → Int
  getUpperBound : Nat → Int
  getSparseARow : Nat → List SparseEntry
  getbRow : Nat → Int

namespace FactTracker

/-- The body of the first loop of `initializeFromTableau`. -/
def seedVariable (tableau : ITableau) (st : Memory × FactTracker) (var : Nat) :
    Memory × FactTracker :=
  let bound := Tightening.new var (tableau.getLowerBound var) .LB
  let bound : Tightening := { bound with toFact := bound.toFact.setCausingSplitInfo 0 0 0 }
  let st1 := st.2.addBoundFact st.1 var bound
  let bound2 := Tightening.new var (tableau.getUpperBound var) .UB
  let bound2 : Tightening := { bound2 with toFact := bound2.toFact.setCausingSplitInfo 0 0 0 }
  st1.2.addBoundFact st1.1 var bound2

/-- The equation built by the body of the second loop. -/
def rowEquation (tableau : ITableau) (equID : Nat) : Equation :=
  let equ := (tableau.getSparseARow equID).foldl
    (fun (equ : Equation) entry => equ.addAddend entry._value entry._index) Equation.new
  let equ := equ.setScalar (tableau.getbRow equID)
  { equ with toFact := equ.toFact.setCausingSplitInfo 0 0 0 }

/-- The body of the second loop of `initializeFromTableau`. -/
def seedRow (tableau : ITableau) (st : Memory × FactTracker) (equID : Nat) :
    Memory × FactTracker :=
  st.2.addEquationFact st.1 equID (rowEquation tableau equID)

/-- `FactTracker::initializeFromTableau`. -/
def initializeFromTableau (t : FactTracker) (mem : Memory) (tableau : ITableau) :
    Memory × FactTracker :=
  let st := (List.range tableau.getN).foldl (seedVariable tableau) (mem, t)
  (List.range tableau.getM).foldl (seedRow tableau) st

end FactTracker

/-! ## Specification vocabulary -/

/-- The kind of per-key stack a tightening is pushed on by `addBoundFact`. -/
def kindOf (bound : Tightening) : FactTracker.BoundType :=
  if bound._type = .LB then .LB else .UB

/-- The object that `addBoundFact` allocates: the caller's tightening with the
owner set to the tracker. -/
def ownedTightening (t : FactTracker) (bound : Tightening) : FactObj :=
  .tightening { bound with toFact := bound.toFact.setOwner t.self }

/-- The object that `addEquationFact` allocates. -/
def ownedEquation (t : FactTracker) (equ : Equation) : FactObj :=
  .equation { equ with toFact := equ.toFact.setOwner t.self }

/-- Every fact of the owned set is an object of the memory. -/
def OwnedLive (t : FactTracker) (mem : Memory) : Prop :=
  ∀ p ∈ t._factsLearnedSet, (mem.deref p).isSome = true

/-- The tracker in which the key `k` of the mapping of the given kind is
present, bound to an empty stack if it was absent; nothing else differs. -/
def FactTracker.touchKey (t : FactTracker) (k : Nat) : FactTracker.BoundType → FactTracker
  | .LB => { t with _lowerBoundFact := t._lowerBoundFact.touch k }
  | .UB => { t with _upperBoundFact := t._upperBoundFact.touch k }
  | .EQU => { t with _equationFact := t._equationFact.touch k }

/-- The mapping of the given kind has the key `k`. -/
def FactTracker.keyPresent (t : FactTracker) (k : Nat) : FactTracker.BoundType → Bool
  | .LB => t._lowerBoundFact.existsKey k
  | .UB => t._upperBoundFact.existsKey k
  | .EQU => t._equationFact.existsKey k

/-- A tracker and memory used in examples: nothing was ever allocated. -/
def emptyMemory : Memory := ⟨[]⟩

/-- One call of an add operation. -/
inductive AddCall where
  | bound (var : Nat) (bound : Tightening)
  | equation (equNumber : Nat) (equ : Equation)

/-- The key named by an add call, with the kind of stack it goes to. -/
def AddCall.key : AddCall → Nat × FactTracker.BoundType
  | .bound var b => (var, kindOf b)
  | .equation equNumber _ => (equNumber, .EQU)

/-- Performing one add call. -/
def applyAdd (st : Memory × FactTracker) : AddCall → Memory × FactTracker
  | .bound var b => st.2.addBoundFact st.1 var b
  | .equation equNumber equ => st.2.addEquationFact st.1 equNumber equ

/-- Performing a sequence of add calls, first call first. -/
def applyAdds (st : Memory × FactTracker) (calls : List AddCall) : Memory × FactTracker :=
  calls.foldl applyAdd st

/-- Calling `popFact` `n` times; a failing call ends the sequence. -/
def popFacts : Nat → Memory × FactTracker → FactTracker.PopResult
  | 0, st => .ok st
  | n + 1, st =>
    match st.2.popFact st.1 with
    | .ok st1 => popFacts n st1
    | .error e => .error e

/-- A live addition: the key and kind it was made under and the fact it
created. -/
structure LogEntry where
  key : Nat
  kind : FactTracker.BoundType
  fact : Ptr

/-- The facts of the additions made under `(k, kind)`, latest first. -/
def stackOf (h : List LogEntry) (k : Nat) (kind : FactTracker.BoundType) : List Ptr :=
  (h.filter (fun e => decide (e.key = k ∧ e.kind = kind))).map (fun e => e.fact)

/-- The tracker holds exactly the additions `h` (latest first): the undo log
lists their keys, each per-key stack lists the facts added under its key, the
owned set is the set of their facts, which are distinct objects of the memory
owned by the tracker. -/
structure Rep (h : List LogEntry) (mem : Memory) (t : FactTracker) : Prop where
  log : t._factsLearned = h.map (fun e => (e.key, e.kind))
  owned : t._factsLearnedSet = (h.map (fun e => e.fact)).toFinset
  lower : ∀ k, t._lowerBoundFact.stackAt k = stackOf h k .LB
  upper : ∀ k, t._upperBoundFact.stackAt k = stackOf h k .UB
  equation : ∀ k, t._equationFact.stackAt k = stackOf h k .EQU
  nodup : (h.map (fun e => e.fact)).Nodup
  live : ∀ e ∈ h, ∃ o, mem.deref e.fact = some o ∧ o.getOwner = some t.self

/-- The add calls that `initializeFromTableau` makes, in order: for every
variable its lower and its upper bound, then for every row its equation. -/
def seedCalls (tableau : ITableau) : List AddCall :=
  ((List.range tableau.getN).map (fun var =>
      [AddCall.bound var
        { (Tightening.new var (tableau.getLowerBound var) .LB) with
          toFact := (Tightening.new var (tableau.getLowerBound var) .LB).toFact.setCausingSplitInfo
            0 0 0 },
       AddCall.bound var
        { (Tightening.new var (tableau.getUpperBound var) .UB) with
          toFact := (Tightening.new var (tableau.getUpperBound var) .UB).toFact.setCausingSplitInfo
            0 0 0 }])).flatten
  ++ (List.range tableau.getM).map (fun equID =>
      AddCall.equation equID (FactTracker.rowEquation tableau equID))

/-- An operation that changes a tracker. -/
inductive Op where
  | add (c : AddCall)
  | init (tableau : ITableau)
  | pop

/-- Performing one operation; `none` when `popFact` fails. -/
def applyOp (st : Memory × FactTracker) : Op → Option (Memory × FactTracker)
  | .add c => some (applyAdd st c)
  | .init tableau => some (st.2.initializeFromTableau st.1 tableau)
  | .pop =>
    match st.2.popFact st.1 with
    | .ok st1 => some st1
    | .error _ => none

/-- Two trackers that allocate their facts in one memory. -/
structure World where
  mem : Memory
  first : FactTracker
  second : FactTracker

/-- One operation on the second tracker (`true`) or on the first (`false`). -/
def World.step (w : World) (x : Bool × Op) : Option World :=
  if x.1 then
    (applyOp (w.mem, w.second) x.2).map (fun st => ⟨st.1, w.first, st.2⟩)
  else
    (applyOp (w.mem, w.first) x.2).map (fun st => ⟨st.1, st.2, w.second⟩)

/-- A sequence of operations, first one first; `none` when a `popFact` fails. -/
def World.run (w : World) : List (Bool × Op) → Option World
  | [] => some w
  | x :: xs => (w.step x).bind (fun w1 => w1.run xs)

/-- Two trackers `a` and `b` hold the additions `h1` and `h2` in one memory,
and every other object of the memory has an owner that is neither. -/
structure Paired (a b : Nat) (h1 h2 : List LogEntry) (mem : Memory)
    (t1 t2 : FactTracker) : Prop where
  first : Rep h1 mem t1
  second : Rep h2 mem t2
  selfFirst : t1.self = a
  selfSecond : t2.self = b
  foreign : ∀ p o, mem.deref p = some o → p ∉ h1.map (fun e => e.fact) →
    p ∉ h2.map (fun e => e.fact) → o.getOwner ≠ some a ∧ o.getOwner ≠ some b

/-- The number of explanations of the object at `p` (0 when there is none). -/
def Memory.weight (mem : Memory) (p : Ptr) : Nat :=
  match mem.deref p with
  | some o => o.getExplanations.length
  | none => 0

/-- The number of explanation edges of the graph held in the memory. -/
def Memory.edgeCount (mem : Memory) : Nat :=
  ∑ p in Finset.range mem.cells.length, mem.weight p

/-- The split frontier of an input list: a fact is visited when it is in the
input, or is an explanation of a visited fact that is not caused by a split. -/
inductive Frontier (mem : Memory) (facts : List Ptr) : Ptr → Prop where
  | input (p : Ptr) : p ∈ facts → Frontier mem facts p
  | step (q p : Ptr) (o : FactObj) : Frontier mem facts q → mem.deref q = some o →
      o.isCausedBySplit = false → p ∈ o.getExplanations → Frontier mem facts p

/-- The pair recorded for a visited fact, when one is recorded. -/
def Recorded (mem : Memory) (p : Ptr) (pr : Nat × Nat) : Prop :=
  ∃ o, mem.deref p = some o ∧ o.isCausedBySplit = true ∧ o.getSplitLevelCausing ≠ 0 ∧
    pr = (o.getCausingConstraintID, o.getCausingSplitID)

/-- The iterations the traversal loop can still make: the queue length plus
the explanations of the objects not yet seen. -/
def loopMeasure (mem : Memory) (seen : Finset Ptr) (remaining : List Ptr) : Nat :=
  remaining.length +
    ∑ p in (Finset.range mem.cells.length).filter (fun p => p ∉ seen), mem.weight p

/-- The loop invariant of `getConstraintsAndSplitsCausingFacts`. -/
structure LoopInv (mem : Memory) (facts : List Ptr) (seen : Finset Ptr)
    (result : List (Nat × Nat)) (remaining : List Ptr) : Prop where
  seenVisited : ∀ p ∈ seen, Frontier mem facts p
  queueVisited : ∀ p ∈ remaining, Frontier mem facts p
  inputs : ∀ p ∈ facts, p ∈ seen ∨ p ∈ remaining
  closed : ∀ q ∈ seen, ∀ o, mem.deref q = some o → o.isCausedBySplit = false →
    ∀ p ∈ o.getExplanations, p ∈ seen ∨ p ∈ remaining
  recorded : ∀ pr, pr ∈ result ↔ ∃ q ∈ seen, Recorded mem q pr
  nodup : result.Nodup

/-- The explanation list of the object at `p` (empty when there is none). -/
def Memory.explanationsAt (mem : Memory) (p : Ptr) : List Ptr :=
  match mem.deref p with
  | some o => o.getExplanations
  | none => []

/-- No explanation list of the memory holds a dangling pointer. -/
def Memory.Closed (mem : Memory) : Prop :=
  ∀ p ∈ List.range mem.cells.length, ∀ q ∈ mem.explanationsAt p, (mem.deref q).isSome = true

/-- Every input pointer points to an object. -/
def Memory.AllLive (mem : Memory) (facts : List Ptr) : Prop :=
  ∀ p ∈ facts, (mem.deref p).isSome = true

/-- Reachability from an input list along explanation edges, whatever the
facts on the way. -/
inductive Reachable (mem : Memory) (facts : List Ptr) : Ptr → Prop where
  | input (p : Ptr) : p ∈ facts → Reachable mem facts p
  | step (q p : Ptr) (o : FactObj) : Reachable mem facts q → mem.deref q = some o →
      p ∈ o.getExplanations → Reachable mem facts p

/-- A tightening of variable 0 with the given `Fact` part. -/
def factCell (f : Fact) : Option FactObj :=
  some (.tightening { (Tightening.new 0 0 .LB) with toFact := f })

/-- The chain of the provenance example: at address 0 a seeded fact (split
level 0), which explains the fact at address 1 (constraint 3, split 7,
level 1), which explains the fact at address 2 (constraint 5, split 9,
level 2); at address 3 a fact not caused by a split that the facts 1 and 2
explain. -/
def chainMemory : Memory :=
  ⟨[factCell (Fact.fresh.setCausingSplitInfo 0 0 0),
    factCell ((Fact.fresh.setCausingSplitInfo 3 7 1).addExplanation 0),
    factCell ((Fact.fresh.setCausingSplitInfo 5 9 2).addExplanation 1),
    factCell ((Fact.fresh.addExplanation 1).addExplanation 2)]⟩

/-- The state after one lower bound for variable 0 was added to an empty
tracker on an empty memory. -/
def oneBoundState : Memory × FactTracker :=
  (FactTracker.new 0).addBoundFact emptyMemory 0 (Tightening.new 0 5 .LB)

/-- The explanation edge from `p` to `q`: `q` is in the explanation list of `p`. -/
def Explains (mem : Memory) (p q : Ptr) : Prop :=
  q ∈ mem.explanationsAt p

/-- The fact at `p` is an object owned by the tracker. -/
def Local (t : FactTracker) (mem : Memory) (p : Ptr) : Prop :=
  ∃ o, mem.deref p = some o ∧ t.hasFact o = true

/-- The fact at `e` is an object not owned by the tracker. -/
def Foreign (t : FactTracker) (mem : Memory) (e : Ptr) : Prop :=
  ∃ o, mem.deref e = some o ∧ t.hasFact o = false

/-- A path of one or more explanation edges from `f` to `e` whose
intermediate facts are all owned by the tracker. -/
inductive LocalPath (t : FactTracker) (mem : Memory) : Ptr → Ptr → Prop where
  | edge (f e : Ptr) : Explains mem f e → LocalPath t mem f e
  | through (f m e : Ptr) : Explains mem f m → Local t mem m → LocalPath t mem m e →
      LocalPath t mem f e

/-- The call `getExternalFactsForBound(p)` returns, for every fuel from some
point on, the set of the foreign facts at the end of the local paths from
`p`. -/
def ExternalOk (t : FactTracker) (mem : Memory) (p : Ptr) : Prop :=
  ∃ s : Finset Ptr, (∀ e, e ∈ s ↔ LocalPath t mem p e ∧ Foreign t mem e) ∧
    ∃ fuel0, ∀ fuel, fuel0 ≤ fuel → t.getExternalFactsForBound mem fuel p = .done s

/-- The facts on which `getExternalFactsForBound(F)` is called: `F` itself and
the owned facts at the end of a local path from `F`. -/
def Entered (t : FactTracker) (mem : Memory) (F p : Ptr) : Prop :=
  p = F ∨ (LocalPath t mem F p ∧ Local t mem p)

/-- The descent of the recursion from `x` to `y`, on the addresses of the
memory. -/
def Descends (t : FactTracker) (mem : Memory) (F : Ptr) (y x : Fin mem.cells.length) : Prop :=
  Entered t mem F x.val ∧ Explains mem x.val y.val

/-- Every explanation has a smaller address than the fact it explains (as
when facts are allocated after their explanations). -/
def Memory.Decreasing (mem : Memory) : Prop :=
  ∀ p ∈ List.range mem.cells.length, ∀ q ∈ mem.explanationsAt p, q < p

/-- A tightening of variable 0 with the given owner and explanations. -/
def ownedCell (owner : Nat) (explanations : List Ptr) : Option FactObj :=
  factCell { Fact.fresh with _owner := some owner, _explanations := explanations }

/-- The memory of the external-fact example, for trackers 1 and 2: at address
0 the foreign fact G and at address 1 the foreign fact X, both owned by
tracker 2; at address 2 the fact L of tracker 1, explained by G only; at
address 3 the fact F of tracker 1, explained by X and L. -/
def boundaryMemory : Memory :=
  ⟨[ownedCell 2 [], ownedCell 2 [], ownedCell 1 [0], ownedCell 1 [1, 2]]⟩

/-- The keys of the add calls that seeding makes, in order. -/
def seedKeys (tableau : ITableau) : List (Nat × FactTracker.BoundType) :=
  ((List.range tableau.getN).map (fun var =>
      [(var, FactTracker.BoundType.LB), (var, FactTracker.BoundType.UB)])).flatten
  ++ (List.range tableau.getM).map (fun equID => (equID, FactTracker.BoundType.EQU))

/-- A tableau with two variables and one row. -/
def smallTableau : ITableau :=
  { getN := 2, getM := 1, getLowerBound := fun _ => -1, getUpperBound := fun _ => 1,
    getSparseARow := fun _ => [⟨0, 1⟩, ⟨1, 2⟩], getbRow := fun _ => 3 }

/-- The mapping that a bound query of the given kind reads: the lower-bound
mapping for `LB`, the upper-bound mapping for every other value. -/
def readKind : FactTracker.BoundType → FactTracker.BoundType
  | .LB => .LB
  | _ => .UB

/-- A sequence of operations on one tracker, first one first; `none` when a
`popFact` fails. -/
def runOps (st : Memory × FactTracker) : List Op → Option (Memory × FactTracker)
  | [] => some st
  | op :: ops => (applyOp st op).bind (fun st1 => runOps st1 ops)

/-- The additions are listed latest first: every fact was allocated after the
facts listed behind it, so it has a larger address. -/
def Chrono (h : List LogEntry) : Prop :=
  (h.map (fun e => e.fact)).Pairwise (fun a b => b < a)

/-- The stack of the key `k` in the mapping of the given kind (empty when the
key is absent). -/
def FactTracker.stackOfKind (t : FactTracker) (k : Nat) : FactTracker.BoundType → Stack Ptr
  | .LB => t._lowerBoundFact.stackAt k
  | .UB => t._upperBoundFact.stackAt k
  | .EQU => t._equationFact.stackAt k

/-- A tightening of variable 0 that is not caused by a split, with the given
explanations. -/
def plainCell (explanations : List Ptr) : Option FactObj :=
  factCell { Fact.fresh with _explanations := explanations }

/-- A memory whose explanation graph has cycles and a shared ancestor: the
fact at address 0 lists itself, the fact 1 and the fact 2; the fact at
address 1 lists the fact 0 and the fact 2; the fact at address 2 is caused by
a split (constraint 4, split 6, level 1). -/
def cyclicMemory : Memory :=
  ⟨[plainCell [0, 1, 2], plainCell [0, 2], factCell (Fact.fresh.setCausingSplitInfo 4 6 1)]⟩

/-- A fact of tracker 1 that lists itself among its explanations. -/
def selfLoopMemory : Memory :=
  ⟨[ownedCell 1 [0]]⟩

/-- A fact of tracker 1, at address 0, explained by the fact at address 1,
which is owned by tracker 2 and lists itself among its explanations. -/
def foreignLoopMemory : Memory :=
  ⟨[ownedCell 1 [1], ownedCell 2 [1]]⟩

instance pairLe.isTotal : IsTotal (Nat × Nat) pairLe :=
  ⟨fun a b => by unfold pairLe; omega⟩

instance pairLe.isTrans : IsTrans (Nat × Nat) pairLe :=
  ⟨fun a b c => by unfold pairLe; omega⟩

instance pairLe.isAntisymm : IsAntisymm (Nat × Nat) pairLe :=
  ⟨fun a b h1 h2 => by
    unfold pairLe at h1 h2
    exact Prod.ext (by omega) (by omega)⟩

/-- The lower-bound tightening that seeding builds for a variable. -/
def lowerSeed (tableau : ITableau) (var : Nat) : Tightening :=
  { (Tightening.new var (tableau.getLowerBound var) .LB) with
    toFact := (Tightening.new var (tableau.getLowerBound var) .LB).toFact.setCausingSplitInfo
      0 0 0 }

/-- The upper-bound tightening that seeding builds for a variable. -/
def upperSeed (tableau : ITableau) (var : Nat) : Tightening :=
  { (Tightening.new var (tableau.getUpperBound var) .UB) with
    toFact := (Tightening.new var (tableau.getUpperBound var) .UB).toFact.setCausingSplitInfo
      0 0 0 }

/-- The causing-split metadata of the object is (0, 0, 0). -/
def ZeroSplitInfo (o : FactObj) : Prop :=
  o.getCausingConstraintID = 0 ∧ o.getCausingSplitID = 0 ∧ o.getSplitLevelCausing = 0

/-- The state while seeding a tracker `tid` on a memory that had `L` cells,
after the first `n` variables and the first `m` rows: the variable `v < n`
has its lower bound at address `L + 2 v` and its upper bound right after it,
the row `e < m` has its equation at address `L + 2 n + e`, no other key is
present, the owned facts are the objects at the addresses from `L` on, and
all of them carry zero causing-split metadata marked as set. -/
structure SeededUpTo (tid L : Nat) (tableau : ITableau) (n m : Nat)
    (st : Memory × FactTracker) : Prop where
  len : st.1.cells.length = L + 2 * n + m
  self_eq : st.2.self = tid
  lower : ∀ v, st.2._lowerBoundFact.find v = if v < n then some [L + 2 * v] else none
  upper : ∀ v, st.2._upperBoundFact.find v = if v < n then some [L + 2 * v + 1] else none
  equation : ∀ e, st.2._equationFact.find e = if e < m then some [L + 2 * n + e] else none
  lowerObj : ∀ v, v < n →
    st.1.deref (L + 2 * v) = some (ownedTightening (FactTracker.new tid) (lowerSeed tableau v))
  upperObj : ∀ v, v < n →
    st.1.deref (L + 2 * v + 1)
      = some (ownedTightening (FactTracker.new tid) (upperSeed tableau v))
  rowObj : ∀ e, e < m →
    st.1.deref (L + 2 * n + e)
      = some (ownedEquation (FactTracker.new tid) (FactTracker.rowEquation tableau e))
  owned : ∀ p : Nat, p ∈ st.2._factsLearnedSet ↔ L ≤ p ∧ p < L + 2 * n + m
  zero : ∀ p : Nat, L ≤ p → p < L + 2 * n + m →
    ∃ o, st.1.deref p = some o ∧ ZeroSplitInfo o ∧ o.isCausedBySplit = true ∧
      o.getExplanations = [] ∧ o.getOwner = some tid

/-! ## Theorems -/

section Containers

theorem Map.find_set {V : Type} (m : Map V) (k j : Nat) (v : V) :
    (m.set k v).find j = if j = k then some v else m.find j := rfl

theorem Map.stackAt_set {α : Type} (m : Map (Stack α)) (k j : Nat) (v : Stack α) :
    (m.set k v).stackAt j = if j = k then v else m.stackAt j := by
  unfold Map.stackAt
  rw [Map.find_set]
  split <;> rfl

theorem Map.stackAt_touch {α : Type} (m : Map (Stack α)) (k j : Nat) :
    (m.touch k).stackAt j = m.stackAt j := by
  unfold Map.touch
  cases h : m.find k with
  | none =>
    simp only [Map.stackAt_set]
    split
    · next hj => subst hj; simp [Map.stackAt, h]
    · rfl
  | some v => rfl

theorem Map.find_touch {α : Type} (m : Map (Stack α)) (k j : Nat) :
    (m.touch k).find j = if j = k then some (m.stackAt k) else m.find j := by
  cases h : m.find k with
  | none =>
    simp only [Map.touch, h, Map.find_set]
    split
    · simp [Map.stackAt, h]
    · rfl
  | some v =>
    simp only [Map.touch, h]
    by_cases hj : j = k
    · subst hj; simp [Map.stackAt, h]
    · simp [hj]

theorem Map.touch_eq_self {α : Type} (m : Map (Stack α)) (k : Nat)
    (h : m.existsKey k = true) : m.touch k = m := by
  unfold Map.touch
  unfold Map.existsKey at h
  cases h2 : m.find k with
  | none => simp [h2] at h
  | some v => rfl

/-- The key pushed on holds the new fact above its previous stack, the other
keys are untouched; `has` is the existence check made by the add. -/
theorem FactTracker.find_pushOn (m : Map (Stack Ptr)) (k j : Nat) (p : Ptr) :
    (FactTracker.pushOn m (m.existsKey k && !(m.stackAt k).isEmpty) k p).find j
      = if j = k then some (p :: m.stackAt k) else m.find j := by
  unfold FactTracker.pushOn
  by_cases hj : j = k
  · subst hj
    cases hm : m.find j with
    | none => simp [Map.existsKey, Map.stackAt, Map.find_set, Map.touch, hm]
    | some v =>
      cases v with
      | nil => simp [Map.existsKey, Map.stackAt, Map.find_set, Map.touch, hm]
      | cons a l => simp [Map.existsKey, Map.stackAt, Map.find_set, Map.touch, hm]
  · cases hm : m.find k with
    | none => simp [Map.existsKey, Map.stackAt, Map.find_set, Map.touch, hm, hj]
    | some v =>
      cases v with
      | nil => simp [Map.existsKey, Map.stackAt, Map.find_set, Map.touch, hm, hj]
      | cons a l => simp [Map.existsKey, Map.stackAt, Map.find_set, Map.touch, hm, hj]

theorem FactTracker.stackAt_pushOn (m : Map (Stack Ptr)) (k j : Nat) (p : Ptr) :
    (FactTracker.pushOn m (m.existsKey k && !(m.stackAt k).isEmpty) k p).stackAt j
      = if j = k then p :: m.stackAt k else m.stackAt j := by
  have h := FactTracker.find_pushOn m k j p
  unfold Map.stackAt at *
  rw [h]
  split <;> rfl

theorem Memory.deref_length (mem : Memory) : mem.deref mem.cells.length = none := by
  simp [Memory.deref]

theorem Memory.deref_alloc (mem : Memory) (o : FactObj) (p : Ptr) :
    (mem.alloc o).1.deref p = if p = mem.cells.length then some o else mem.deref p := by
  unfold Memory.deref Memory.alloc
  simp only [List.get?_eq_getElem?]
  rcases Nat.lt_trichotomy p mem.cells.length with h | h | h
  · rw [List.getElem?_append_left h]; simp [Nat.ne_of_lt h]
  · subst h; simp
  · rw [List.getElem?_append_right (Nat.le_of_lt h)]
    have h1 : ¬ p = mem.cells.length := Nat.ne_of_gt h
    have h2 : mem.cells[p]? = none := List.getElem?_eq_none (Nat.le_of_lt h)
    have h3 : [some o][p - mem.cells.length]? = none :=
      List.getElem?_eq_none (by simp; omega)
    simp [h1, h2, h3]

theorem Memory.deref_free (mem : Memory) (q p : Ptr) :
    (mem.free q).deref p = if p = q then none else mem.deref p := by
  unfold Memory.deref Memory.free
  simp only [List.get?_eq_getElem?, List.getElem?_set]
  by_cases h : q = p
  · subst h
    by_cases hl : q < mem.cells.length
    · simp [hl]
    · simp [hl, List.getElem?_eq_none (Nat.le_of_not_lt hl)]
  · have h2 : ¬ p = q := fun e => h e.symm
    simp [h, h2]

end Containers

section AddPop

open FactTracker

theorem FactTracker.addBoundFact_fst (t : FactTracker) (mem : Memory) (var : Nat)
    (bound : Tightening) :
    (t.addBoundFact mem var bound).1 = (mem.alloc (ownedTightening t bound)).1 := by
  unfold FactTracker.addBoundFact ownedTightening
  dsimp only [Memory.alloc]
  split <;> rfl

theorem FactTracker.addBoundFact_LB (t : FactTracker) (mem : Memory) (var : Nat)
    (bound : Tightening) (h : bound._type = .LB) :
    (t.addBoundFact mem var bound).2 =
      { t with
        _factsLearnedSet := insert mem.cells.length t._factsLearnedSet
        _lowerBoundFact := pushOn t._lowerBoundFact
          (t._lowerBoundFact.existsKey var && !(t._lowerBoundFact.stackAt var).isEmpty)
          var mem.cells.length
        _factsLearned := (var, BoundType.LB) :: t._factsLearned } := by
  unfold FactTracker.addBoundFact
  dsimp only [Memory.alloc]
  rw [if_pos h]
  rfl

theorem FactTracker.addBoundFact_UB (t : FactTracker) (mem : Memory) (var : Nat)
    (bound : Tightening) (h : bound._type ≠ .LB) :
    (t.addBoundFact mem var bound).2 =
      { t with
        _factsLearnedSet := insert mem.cells.length t._factsLearnedSet
        _upperBoundFact := pushOn t._upperBoundFact
          (t._upperBoundFact.existsKey var && !(t._upperBoundFact.stackAt var).isEmpty)
          var mem.cells.length
        _factsLearned := (var, BoundType.UB) :: t._factsLearned } := by
  unfold FactTracker.addBoundFact
  dsimp only [Memory.alloc]
  rw [if_neg h]
  rfl

theorem FactTracker.addEquationFact_fst (t : FactTracker) (mem : Memory) (equNumber : Nat)
    (equ : Equation) :
    (t.addEquationFact mem equNumber equ).1 = (mem.alloc (ownedEquation t equ)).1 := rfl

theorem FactTracker.addEquationFact_snd (t : FactTracker) (mem : Memory) (equNumber : Nat)
    (equ : Equation) :
    (t.addEquationFact mem equNumber equ).2 =
      { t with
        _factsLearnedSet := insert mem.cells.length t._factsLearnedSet
        _equationFact := pushOn t._equationFact
          (t._equationFact.existsKey equNumber && !(t._equationFact.stackAt equNumber).isEmpty)
          equNumber mem.cells.length
        _factsLearned := (equNumber, BoundType.EQU) :: t._factsLearned } := rfl

/-- What the queries answer, read off the per-key stack. -/
theorem FactTracker.query_of_find (m : Map (Stack Ptr)) (k : Nat) (p : Ptr) (below : Stack Ptr)
    (h : m.find k = some (p :: below)) :
    (m.existsKey k && !(m.stackAt k).isEmpty) = true ∧
      (match m.at k with
        | .error e => Except.error e
        | .ok temp => Stack.top temp) = Except.ok p := by
  simp [Map.existsKey, Map.stackAt, Map.at, Stack.top, h]

theorem FactTracker.addBoundFact_owned (t : FactTracker) (mem : Memory) (var : Nat)
    (bound : Tightening) :
    (t.addBoundFact mem var bound).2._factsLearnedSet
      = insert mem.cells.length t._factsLearnedSet := by
  by_cases h : bound._type = .LB
  · rw [FactTracker.addBoundFact_LB t mem var bound h]
  · rw [FactTracker.addBoundFact_UB t mem var bound h]

theorem FactTracker.addBoundFact_query (t : FactTracker) (mem : Memory) (var : Nat)
    (bound : Tightening) :
    (t.addBoundFact mem var bound).2.hasFactAffectingBound var (kindOf bound) = true ∧
    (t.addBoundFact mem var bound).2.getFactAffectingBound var (kindOf bound)
      = .ok mem.cells.length := by
  by_cases h : bound._type = .LB
  · have hf := FactTracker.find_pushOn t._lowerBoundFact var var mem.cells.length
    rw [if_pos rfl] at hf
    have hq := FactTracker.query_of_find _ _ _ _ hf
    rw [FactTracker.addBoundFact_LB t mem var bound h]
    simpa [kindOf, h, FactTracker.hasFactAffectingBound, FactTracker.getFactAffectingBound]
      using hq
  · have hf := FactTracker.find_pushOn t._upperBoundFact var var mem.cells.length
    rw [if_pos rfl] at hf
    have hq := FactTracker.query_of_find _ _ _ _ hf
    rw [FactTracker.addBoundFact_UB t mem var bound h]
    simpa [kindOf, h, FactTracker.hasFactAffectingBound, FactTracker.getFactAffectingBound]
      using hq

theorem FactTracker.addEquationFact_query (t : FactTracker) (mem : Memory) (equNumber : Nat)
    (equ : Equation) :
    (t.addEquationFact mem equNumber equ).2.hasFactAffectingEquation equNumber = true ∧
    (t.addEquationFact mem equNumber equ).2.getFactAffectingEquation equNumber
      = .ok mem.cells.length := by
  have hf := FactTracker.find_pushOn t._equationFact equNumber equNumber mem.cells.length
  rw [if_pos rfl] at hf
  have hq := FactTracker.query_of_find _ _ _ _ hf
  rw [FactTracker.addEquationFact_snd]
  simpa [FactTracker.hasFactAffectingEquation, FactTracker.getFactAffectingEquation] using hq

/-- C2. Top-of-stack consistency: after `addBoundFact(var, bound)` the key
`(var, k)`, `k` being LB for a lower-bound tightening and UB otherwise, has a
fact and its query returns the fact just created, an object that did not
exist before, is a copy of `bound` owned by this tracker and is in the owned
set; likewise for `addEquationFact` and the equation key. -/
theorem top_of_stack_consistency (t : FactTracker) (mem : Memory) (var : Nat)
    (bound : Tightening) (equNumber : Nat) (equ : Equation) :
    (∃ newFact : Ptr,
      mem.deref newFact = none ∧
      (t.addBoundFact mem var bound).1.deref newFact = some (ownedTightening t bound) ∧
      t.hasFact (ownedTightening t bound) = true ∧
      newFact ∈ (t.addBoundFact mem var bound).2._factsLearnedSet ∧
      (t.addBoundFact mem var bound).2.hasFactAffectingBound var (kindOf bound) = true ∧
      (t.addBoundFact mem var bound).2.getFactAffectingBound var (kindOf bound)
        = .ok newFact) ∧
    (∃ newFact : Ptr,
      mem.deref newFact = none ∧
      (t.addEquationFact mem equNumber equ).1.deref newFact = some (ownedEquation t equ) ∧
      t.hasFact (ownedEquation t equ) = true ∧
      newFact ∈ (t.addEquationFact mem equNumber equ).2._factsLearnedSet ∧
      (t.addEquationFact mem equNumber equ).2.hasFactAffectingEquation equNumber = true ∧
      (t.addEquationFact mem equNumber equ).2.getFactAffectingEquation equNumber
        = .ok newFact) := by
  refine ⟨⟨mem.cells.length, mem.deref_length, ?_, ?_, ?_, ?_⟩,
    ⟨mem.cells.length, mem.deref_length, ?_, ?_, ?_, ?_⟩⟩
  · rw [FactTracker.addBoundFact_fst, Memory.deref_alloc, if_pos rfl]
  · simp [FactTracker.hasFact, ownedTightening, FactObj.getOwner, FactObj.toFact, Fact.setOwner]
  · rw [FactTracker.addBoundFact_owned]; simp
  · exact FactTracker.addBoundFact_query t mem var bound
  · rw [FactTracker.addEquationFact_fst, Memory.deref_alloc, if_pos rfl]
  · simp [FactTracker.hasFact, ownedEquation, FactObj.getOwner, FactObj.toFact, Fact.setOwner]
  · rw [FactTracker.addEquationFact_snd]; simp
  · exact FactTracker.addEquationFact_query t mem equNumber equ

theorem Map.set_touch {α : Type} (m : Map (Stack α)) (k : Nat) (v : Stack α) :
    (m.touch k).set k v = m.set k v := by
  ext j : 2
  simp only [Map.find_set, Map.find_touch]
  split <;> simp_all

theorem FactTracker.popFact_LB (t : FactTracker) (mem : Memory) (k : Nat) (p : Ptr)
    (rest : Stack (Nat × BoundType)) (below : Stack Ptr)
    (hlog : t._factsLearned = (k, BoundType.LB) :: rest)
    (hst : t._lowerBoundFact.stackAt k = p :: below) :
    t.popFact mem = .ok (mem.free p,
      { t with _factsLearned := rest
               _factsLearnedSet := t._factsLearnedSet.erase p
               _lowerBoundFact := t._lowerBoundFact.set k below }) := by
  unfold FactTracker.popFact
  rw [hlog]
  simp only [Map.stackAt_touch, hst, Map.set_touch]

theorem FactTracker.popFact_UB (t : FactTracker) (mem : Memory) (k : Nat) (p : Ptr)
    (rest : Stack (Nat × BoundType)) (below : Stack Ptr)
    (hlog : t._factsLearned = (k, BoundType.UB) :: rest)
    (hst : t._upperBoundFact.stackAt k = p :: below) :
    t.popFact mem = .ok (mem.free p,
      { t with _factsLearned := rest
               _factsLearnedSet := t._factsLearnedSet.erase p
               _upperBoundFact := t._upperBoundFact.set k below }) := by
  unfold FactTracker.popFact
  rw [hlog]
  simp only [Map.stackAt_touch, hst, Map.set_touch]

theorem FactTracker.popFact_EQU (t : FactTracker) (mem : Memory) (k : Nat) (p : Ptr)
    (rest : Stack (Nat × BoundType)) (below : Stack Ptr)
    (hlog : t._factsLearned = (k, BoundType.EQU) :: rest)
    (hst : t._equationFact.stackAt k = p :: below) :
    t.popFact mem = .ok (mem.free p,
      { t with _factsLearned := rest
               _factsLearnedSet := t._factsLearnedSet.erase p
               _equationFact := t._equationFact.set k below }) := by
  unfold FactTracker.popFact
  rw [hlog]
  simp only [Map.stackAt_touch, hst, Map.set_touch]

/-- Removing the pushed fact leaves the key as `Map.touch` does. -/
theorem FactTracker.set_pushOn (m : Map (Stack Ptr)) (k : Nat) (p : Ptr) :
    (pushOn m (m.existsKey k && !(m.stackAt k).isEmpty) k p).set k (m.stackAt k)
      = m.touch k := by
  ext j : 2
  simp only [Map.find_set, Map.find_touch, FactTracker.find_pushOn]
  split <;> simp_all

theorem OwnedLive.next_unowned {t : FactTracker} {mem : Memory} (h : OwnedLive t mem) :
    mem.cells.length ∉ t._factsLearnedSet := by
  intro hin
  have := h _ hin
  rw [Memory.deref_length] at this
  exact absurd this (by simp)

theorem Memory.deref_free_alloc (mem : Memory) (o : FactObj) (p : Ptr) :
    ((mem.alloc o).1.free mem.cells.length).deref p = mem.deref p := by
  rw [Memory.deref_free, Memory.deref_alloc]
  by_cases h : p = mem.cells.length
  · subst h; simp [Memory.deref_length]
  · simp [h]

/-- Popping right after `addBoundFact`. -/
theorem FactTracker.popFact_addBoundFact (t : FactTracker) (mem : Memory)
    (h : OwnedLive t mem) (var : Nat) (bound : Tightening) :
    (t.addBoundFact mem var bound).2.popFact (t.addBoundFact mem var bound).1
      = .ok ((mem.alloc (ownedTightening t bound)).1.free mem.cells.length,
          t.touchKey var (kindOf bound)) := by
  rw [FactTracker.addBoundFact_fst]
  by_cases hb : bound._type = .LB
  · rw [FactTracker.addBoundFact_LB t mem var bound hb]
    rw [FactTracker.popFact_LB _ _ var mem.cells.length t._factsLearned
      (t._lowerBoundFact.stackAt var) rfl
      (by rw [FactTracker.stackAt_pushOn, if_pos rfl])]
    simp only [FactTracker.set_pushOn, Finset.erase_insert h.next_unowned, kindOf, hb, if_true,
      FactTracker.touchKey]
  · rw [FactTracker.addBoundFact_UB t mem var bound hb]
    rw [FactTracker.popFact_UB _ _ var mem.cells.length t._factsLearned
      (t._upperBoundFact.stackAt var) rfl
      (by rw [FactTracker.stackAt_pushOn, if_pos rfl])]
    simp only [FactTracker.set_pushOn, Finset.erase_insert h.next_unowned, kindOf, hb, if_false,
      FactTracker.touchKey]

/-- Popping right after `addEquationFact`. -/
theorem FactTracker.popFact_addEquationFact (t : FactTracker) (mem : Memory)
    (h : OwnedLive t mem) (equNumber : Nat) (equ : Equation) :
    (t.addEquationFact mem equNumber equ).2.popFact (t.addEquationFact mem equNumber equ).1
      = .ok ((mem.alloc (ownedEquation t equ)).1.free mem.cells.length,
          t.touchKey equNumber .EQU) := by
  rw [FactTracker.addEquationFact_fst, FactTracker.addEquationFact_snd]
  rw [FactTracker.popFact_EQU _ _ equNumber mem.cells.length t._factsLearned
    (t._equationFact.stackAt equNumber) rfl
    (by rw [FactTracker.stackAt_pushOn, if_pos rfl])]
  simp only [FactTracker.set_pushOn, Finset.erase_insert h.next_unowned, FactTracker.touchKey]

theorem FactTracker.touchKey_eq_self (t : FactTracker) (k : Nat) (kind : BoundType)
    (h : t.keyPresent k kind = true) : t.touchKey k kind = t := by
  cases kind <;> simp only [FactTracker.keyPresent] at h <;>
    simp only [FactTracker.touchKey, Map.touch_eq_self _ _ h]

theorem FactTracker.touchKey_frame (t : FactTracker) (k : Nat) (kind : BoundType) :
    (t.touchKey k kind)._factsLearned = t._factsLearned ∧
    (t.touchKey k kind)._factsLearnedSet = t._factsLearnedSet ∧
    (t.touchKey k kind).self = t.self ∧
    (∀ j, (t.touchKey k kind)._lowerBoundFact.stackAt j = t._lowerBoundFact.stackAt j) ∧
    (∀ j, (t.touchKey k kind)._upperBoundFact.stackAt j = t._upperBoundFact.stackAt j) ∧
    (∀ j, (t.touchKey k kind)._equationFact.stackAt j = t._equationFact.stackAt j) := by
  cases kind <;> simp [FactTracker.touchKey, Map.stackAt_touch]

/-- C1 (amended). Popping right after an add returns normally and restores
the undo log, the owned set, every per-key stack and the content of the
memory; the three mappings are those of the state before the add except that
the added key, when it was absent, is now bound to an empty stack (when it
was present the tracker is exactly the one before the add). -/
theorem popFact_undoes_add (t : FactTracker) (mem : Memory) (h : OwnedLive t mem)
    (var : Nat) (bound : Tightening) (equNumber : Nat) (equ : Equation) :
    (∃ mem1,
      (t.addBoundFact mem var bound).2.popFact (t.addBoundFact mem var bound).1
        = .ok (mem1, t.touchKey var (kindOf bound)) ∧
      (∀ p, mem1.deref p = mem.deref p)) ∧
    (∃ mem1,
      (t.addEquationFact mem equNumber equ).2.popFact (t.addEquationFact mem equNumber equ).1
        = .ok (mem1, t.touchKey equNumber .EQU) ∧
      (∀ p, mem1.deref p = mem.deref p)) ∧
    (∀ k kind,
      (t.touchKey k kind)._factsLearned = t._factsLearned ∧
      (t.touchKey k kind)._factsLearnedSet = t._factsLearnedSet ∧
      (∀ j, (t.touchKey k kind)._lowerBoundFact.stackAt j = t._lowerBoundFact.stackAt j) ∧
      (∀ j, (t.touchKey k kind)._upperBoundFact.stackAt j = t._upperBoundFact.stackAt j) ∧
      (∀ j, (t.touchKey k kind)._equationFact.stackAt j = t._equationFact.stackAt j) ∧
      (t.keyPresent k kind = true → t.touchKey k kind = t)) := by
  refine ⟨⟨_, FactTracker.popFact_addBoundFact t mem h var bound,
      Memory.deref_free_alloc mem _⟩,
    ⟨_, FactTracker.popFact_addEquationFact t mem h equNumber equ,
      Memory.deref_free_alloc mem _⟩, ?_⟩
  intro k kind
  obtain ⟨h1, h2, _, h4, h5, h6⟩ := FactTracker.touchKey_frame t k kind
  exact ⟨h1, h2, h4, h5, h6, FactTracker.touchKey_eq_self t k kind⟩

theorem ownedLive_new (self : Nat) (mem : Memory) : OwnedLive (FactTracker.new self) mem := by
  intro p hp
  simp [FactTracker.new] at hp

/-- Witness of `popFact_undoes_add`: an empty tracker, one lower bound for
variable 0 and one equation 0. -/
theorem popFact_undoes_add_witness :
    OwnedLive (FactTracker.new 0) emptyMemory ∧
    ∃ mem1,
      ((FactTracker.new 0).addBoundFact emptyMemory 0 (Tightening.new 0 5 .LB)).2.popFact
        ((FactTracker.new 0).addBoundFact emptyMemory 0 (Tightening.new 0 5 .LB)).1
        = .ok (mem1, (FactTracker.new 0).touchKey 0 (kindOf (Tightening.new 0 5 .LB))) ∧
      (∀ p, mem1.deref p = emptyMemory.deref p) :=
  ⟨ownedLive_new 0 emptyMemory,
    (popFact_undoes_add (FactTracker.new 0) emptyMemory (ownedLive_new 0 emptyMemory)
      0 (Tightening.new 0 5 .LB) 0 Equation.new).1⟩

/-- C1 (as stated) fails: on an empty tracker, `addBoundFact(0, lb)` followed
by `popFact` returns normally, but the lower-bound mapping now has the key 0
(bound to an empty stack), which the mapping of the empty tracker has not. -/
theorem popFact_keeps_added_key :
    OwnedLive (FactTracker.new 0) emptyMemory ∧
    ∃ st,
      ((FactTracker.new 0).addBoundFact emptyMemory 0 (Tightening.new 0 5 .LB)).2.popFact
        ((FactTracker.new 0).addBoundFact emptyMemory 0 (Tightening.new 0 5 .LB)).1
        = .ok st ∧
      st.2._lowerBoundFact.existsKey 0 = true ∧
      (FactTracker.new 0)._lowerBoundFact.existsKey 0 = false ∧
      st.2._lowerBoundFact ≠ (FactTracker.new 0)._lowerBoundFact := by
  refine ⟨ownedLive_new 0 emptyMemory, _, rfl, by decide, by decide, ?_⟩
  intro h
  have := congrArg (fun m => m.existsKey 0) h
  revert this
  decide

theorem FactTracker.keyPresent_of_get (t : FactTracker) (var : Nat) (bound : Tightening)
    (A : Ptr) (hA : t.getFactAffectingBound var (kindOf bound) = .ok A) :
    t.keyPresent var (kindOf bound) = true := by
  unfold FactTracker.getFactAffectingBound at hA
  by_cases hb : bound._type = .LB
  · simp only [kindOf, hb, if_true] at hA ⊢
    simp only [FactTracker.keyPresent, Map.existsKey]
    unfold Map.at at hA
    cases hf : t._lowerBoundFact.find var with
    | none => simp [hf] at hA
    | some v => rfl
  · simp only [kindOf, hb, if_false] at hA ⊢
    simp only [FactTracker.keyPresent, Map.existsKey]
    unfold Map.at at hA
    cases hf : t._upperBoundFact.find var with
    | none => simp [hf] at hA
    | some v => rfl

/-- C4. Shadowing, not replacement: when `A` is the current fact of the key
`(var, kind)` and a second bound `B` is added for the same key, `A` stays in
the owned set and in memory while the query returns `B`, a different fact;
one `popFact` then removes `B` from the owned set and from memory and the
query returns `A` again. -/
theorem shadowing_not_replacement (t : FactTracker) (mem : Memory) (h : OwnedLive t mem)
    (var : Nat) (bound : Tightening) (A : Ptr)
    (hA : t.getFactAffectingBound var (kindOf bound) = .ok A)
    (hin : A ∈ t._factsLearnedSet) :
    ∃ B : Ptr, B ≠ A ∧
      A ∈ (t.addBoundFact mem var bound).2._factsLearnedSet ∧
      (t.addBoundFact mem var bound).1.deref A = mem.deref A ∧
      (mem.deref A).isSome = true ∧
      B ∈ (t.addBoundFact mem var bound).2._factsLearnedSet ∧
      (t.addBoundFact mem var bound).2.getFactAffectingBound var (kindOf bound) = .ok B ∧
      ∃ st, (t.addBoundFact mem var bound).2.popFact (t.addBoundFact mem var bound).1
          = .ok st ∧
        B ∉ st.2._factsLearnedSet ∧ st.1.deref B = none ∧
        A ∈ st.2._factsLearnedSet ∧ st.1.deref A = mem.deref A ∧
        st.2.getFactAffectingBound var (kindOf bound) = .ok A := by
  have hne : mem.cells.length ≠ A := fun e => h.next_unowned (e ▸ hin)
  have hne2 : ¬ A = mem.cells.length := fun e => hne e.symm
  have hpop := FactTracker.popFact_addBoundFact t mem h var bound
  rw [FactTracker.touchKey_eq_self t var (kindOf bound)
    (FactTracker.keyPresent_of_get t var bound A hA)] at hpop
  have hlive : (mem.deref A).isSome = true := h A hin
  refine ⟨mem.cells.length, hne, ?_, ?_, hlive, ?_,
    (FactTracker.addBoundFact_query t mem var bound).2, _, hpop, h.next_unowned, ?_, hin, ?_, hA⟩
  · rw [FactTracker.addBoundFact_owned]; exact Finset.mem_insert_of_mem hin
  · rw [FactTracker.addBoundFact_fst, Memory.deref_alloc, if_neg hne2]
  · rw [FactTracker.addBoundFact_owned]; exact Finset.mem_insert_self _ _
  · rw [Memory.deref_free_alloc, Memory.deref_length]
  · rw [Memory.deref_free_alloc]

/-- Witness of `shadowing_not_replacement`: a second lower bound for variable
0 is added to the state that holds one, the fact at address 0. -/
theorem shadowing_not_replacement_witness :
    OwnedLive oneBoundState.2 oneBoundState.1 ∧
    oneBoundState.2.getFactAffectingBound 0 (kindOf (Tightening.new 0 6 .LB)) = .ok 0 ∧
    (0 : Ptr) ∈ oneBoundState.2._factsLearnedSet ∧
    ∃ B : Ptr, B ≠ 0 ∧
      (oneBoundState.2.addBoundFact oneBoundState.1 0
          (Tightening.new 0 6 .LB)).2.getFactAffectingBound 0
        (kindOf (Tightening.new 0 6 .LB)) = .ok B :=
  ⟨by unfold OwnedLive; decide, rfl, by decide,
    (shadowing_not_replacement oneBoundState.2 oneBoundState.1
      (by unfold OwnedLive; decide) 0 (Tightening.new 0 6 .LB) 0 rfl (by decide)).imp
      (fun _ hB => ⟨hB.1, hB.2.2.2.2.2.1⟩)⟩

end AddPop

section Representation

open FactTracker

theorem Rep.of_new (self : Nat) (mem : Memory) : Rep [] mem (FactTracker.new self) := by
  constructor <;> simp [FactTracker.new, stackOf, Map.stackAt, Map.empty]

theorem Rep.ownedLive {h : List LogEntry} {mem : Memory} {t : FactTracker}
    (r : Rep h mem t) : OwnedLive t mem := by
  intro p hp
  rw [r.owned] at hp
  simp only [List.mem_toFinset, List.mem_map] at hp
  obtain ⟨e, he, rfl⟩ := hp
  obtain ⟨o, ho, _⟩ := r.live e he
  simp [ho]

theorem Rep.next_unused {h : List LogEntry} {mem : Memory} {t : FactTracker}
    (r : Rep h mem t) : ∀ e ∈ h, e.fact ≠ mem.cells.length := by
  intro e he heq
  obtain ⟨o, ho, _⟩ := r.live e he
  rw [heq, Memory.deref_length] at ho
  exact absurd ho (by simp)

theorem stackOf_cons (e : LogEntry) (h : List LogEntry) (k : Nat) (kind : BoundType) :
    stackOf (e :: h) k kind
      = if e.key = k ∧ e.kind = kind then e.fact :: stackOf h k kind else stackOf h k kind := by
  unfold stackOf
  by_cases hc : e.key = k ∧ e.kind = kind
  · simp [List.filter_cons, hc]
  · rw [if_neg hc, List.filter_cons]
    simp [hc]

/-- The memory after an allocation still holds the additions. -/
theorem Rep.live_alloc {h : List LogEntry} {mem : Memory} {t : FactTracker}
    (r : Rep h mem t) (o : FactObj) :
    ∀ e ∈ h, ∃ o1, (mem.alloc o).1.deref e.fact = some o1 ∧ o1.getOwner = some t.self := by
  intro e he
  obtain ⟨o1, ho1, hown⟩ := r.live e he
  refine ⟨o1, ?_, hown⟩
  rw [Memory.deref_alloc, if_neg (r.next_unused e he)]
  exact ho1

theorem Rep.addBoundFact {h : List LogEntry} {mem : Memory} {t : FactTracker}
    (r : Rep h mem t) (var : Nat) (bound : Tightening) :
    Rep (⟨var, kindOf bound, mem.cells.length⟩ :: h)
      (t.addBoundFact mem var bound).1 (t.addBoundFact mem var bound).2 := by
  have hself : (t.addBoundFact mem var bound).2.self = t.self := by
    by_cases hb : bound._type = .LB
    · rw [FactTracker.addBoundFact_LB t mem var bound hb]
    · rw [FactTracker.addBoundFact_UB t mem var bound hb]
  have hnd : ((⟨var, kindOf bound, mem.cells.length⟩ :: h : List LogEntry).map
      (fun e => e.fact)).Nodup := by
    simp only [List.map_cons, List.nodup_cons, List.mem_map, not_exists, not_and]
    exact ⟨fun e he heq => r.next_unused e he heq, r.nodup⟩
  have hlive : ∀ e ∈ (⟨var, kindOf bound, mem.cells.length⟩ :: h : List LogEntry),
      ∃ o, (t.addBoundFact mem var bound).1.deref e.fact = some o ∧
        o.getOwner = some (t.addBoundFact mem var bound).2.self := by
    intro e he
    rw [hself, FactTracker.addBoundFact_fst]
    rcases List.mem_cons.1 he with rfl | he
    · refine ⟨ownedTightening t bound, ?_, ?_⟩
      · rw [Memory.deref_alloc, if_pos rfl]
      · simp [ownedTightening, FactObj.getOwner, FactObj.toFact, Fact.setOwner]
    · exact r.live_alloc _ e he
  by_cases hb : bound._type = .LB
  · have hk : kindOf bound = .LB := by simp [kindOf, hb]
    rw [hk] at hnd hlive ⊢
    rw [FactTracker.addBoundFact_LB t mem var bound hb] at hlive ⊢
    refine ⟨?_, ?_, ?_, ?_, ?_, hnd, hlive⟩
    · simp [r.log]
    · simp [r.owned]
    · intro k
      rw [FactTracker.stackAt_pushOn, stackOf_cons]
      by_cases hkv : k = var
      · subst hkv; simp [r.lower, r.upper, r.equation]
      · have : ¬ var = k := fun e => hkv e.symm
        simp [hkv, this, r.lower, r.upper, r.equation]
    · intro k; simp [stackOf_cons, r.upper]
    · intro k; simp [stackOf_cons, r.equation]
  · have hk : kindOf bound = .UB := by simp [kindOf, hb]
    rw [hk] at hnd hlive ⊢
    rw [FactTracker.addBoundFact_UB t mem var bound hb] at hlive ⊢
    refine ⟨?_, ?_, ?_, ?_, ?_, hnd, hlive⟩
    · simp [r.log]
    · simp [r.owned]
    · intro k; simp [stackOf_cons, r.lower]
    · intro k
      rw [FactTracker.stackAt_pushOn, stackOf_cons]
      by_cases hkv : k = var
      · subst hkv; simp [r.lower, r.upper, r.equation]
      · have : ¬ var = k := fun e => hkv e.symm
        simp [hkv, this, r.lower, r.upper, r.equation]
    · intro k; simp [stackOf_cons, r.equation]

theorem Rep.addEquationFact {h : List LogEntry} {mem : Memory} {t : FactTracker}
    (r : Rep h mem t) (equNumber : Nat) (equ : Equation) :
    Rep (⟨equNumber, .EQU, mem.cells.length⟩ :: h)
      (t.addEquationFact mem equNumber equ).1 (t.addEquationFact mem equNumber equ).2 := by
  have hnd : ((⟨equNumber, .EQU, mem.cells.length⟩ :: h : List LogEntry).map
      (fun e => e.fact)).Nodup := by
    simp only [List.map_cons, List.nodup_cons, List.mem_map, not_exists, not_and]
    exact ⟨fun e he heq => r.next_unused e he heq, r.nodup⟩
  rw [FactTracker.addEquationFact_fst, FactTracker.addEquationFact_snd]
  refine ⟨?_, ?_, ?_, ?_, ?_, hnd, ?_⟩
  · simp [r.log]
  · simp [r.owned]
  · intro k; simp [stackOf_cons, r.lower]
  · intro k; simp [stackOf_cons, r.upper]
  · intro k
    rw [FactTracker.stackAt_pushOn, stackOf_cons]
    by_cases hkv : k = equNumber
    · subst hkv; simp [r.lower, r.upper, r.equation]
    · have : ¬ equNumber = k := fun e => hkv e.symm
      simp [hkv, this, r.lower, r.upper, r.equation]
  · intro e he
    rcases List.mem_cons.1 he with rfl | he
    · refine ⟨ownedEquation t equ, ?_, ?_⟩
      · rw [Memory.deref_alloc, if_pos rfl]
      · simp [ownedEquation, FactObj.getOwner, FactObj.toFact, Fact.setOwner]
    · exact r.live_alloc _ e he

/-- Deleting the latest fact keeps the earlier additions in memory. -/
theorem Rep.live_free {e : LogEntry} {h : List LogEntry} {mem : Memory} {t : FactTracker}
    (r : Rep (e :: h) mem t) :
    ∀ e1 ∈ h, ∃ o, (mem.free e.fact).deref e1.fact = some o ∧ o.getOwner = some t.self := by
  intro e1 he1
  obtain ⟨o, ho, hown⟩ := r.live e1 (List.mem_cons_of_mem _ he1)
  have hnd := r.nodup
  simp only [List.map_cons, List.nodup_cons, List.mem_map, not_exists, not_and] at hnd
  have hne : ¬ e1.fact = e.fact := hnd.1 e1 he1
  exact ⟨o, by rw [Memory.deref_free, if_neg hne]; exact ho, hown⟩

theorem Rep.owned_erase {e : LogEntry} {h : List LogEntry} {mem : Memory} {t : FactTracker}
    (r : Rep (e :: h) mem t) :
    t._factsLearnedSet.erase e.fact = (h.map (fun e => e.fact)).toFinset := by
  have hnd := r.nodup
  simp only [List.map_cons, List.nodup_cons] at hnd
  rw [r.owned, List.map_cons, List.toFinset_cons, Finset.erase_insert]
  simpa using hnd.1

/-- With the additions `e :: h` held, `popFact` returns normally, deletes the
fact of `e` and leaves a tracker holding `h`. -/
theorem Rep.popFact {e : LogEntry} {h : List LogEntry} {mem : Memory} {t : FactTracker}
    (r : Rep (e :: h) mem t) :
    ∃ t1, t.popFact mem = .ok (mem.free e.fact, t1) ∧ Rep h (mem.free e.fact) t1 ∧
      t1.self = t.self := by
  have hlog : t._factsLearned = (e.key, e.kind) :: h.map (fun e => (e.key, e.kind)) := by
    rw [r.log]; rfl
  have hlive := r.live_free
  have hown := r.owned_erase
  have hnd : (h.map (fun e => e.fact)).Nodup := (List.nodup_cons.1 r.nodup).2
  cases hk : e.kind with
  | LB =>
    rw [hk] at hlog
    have hst : t._lowerBoundFact.stackAt e.key = e.fact :: stackOf h e.key .LB := by
      rw [r.lower, stackOf_cons]; simp [hk]
    refine ⟨_, FactTracker.popFact_LB t mem e.key e.fact _ _ hlog hst, ?_, rfl⟩
    refine ⟨rfl, hown, ?_, ?_, ?_, hnd, hlive⟩
    · intro k
      simp only [Map.stackAt_set]
      by_cases hkv : k = e.key
      · subst hkv; simp
      · have := r.lower k
        rw [stackOf_cons] at this
        have hne : ¬ e.key = k := fun x => hkv x.symm
        simp [hkv, this, hne]
    · intro k; have := r.upper k; rw [stackOf_cons] at this; simpa [hk] using this
    · intro k; have := r.equation k; rw [stackOf_cons] at this; simpa [hk] using this
  | UB =>
    rw [hk] at hlog
    have hst : t._upperBoundFact.stackAt e.key = e.fact :: stackOf h e.key .UB := by
      rw [r.upper, stackOf_cons]; simp [hk]
    refine ⟨_, FactTracker.popFact_UB t mem e.key e.fact _ _ hlog hst, ?_, rfl⟩
    refine ⟨rfl, hown, ?_, ?_, ?_, hnd, hlive⟩
    · intro k; have := r.lower k; rw [stackOf_cons] at this; simpa [hk] using this
    · intro k
      simp only [Map.stackAt_set]
      by_cases hkv : k = e.key
      · subst hkv; simp
      · have := r.upper k
        rw [stackOf_cons] at this
        have hne : ¬ e.key = k := fun x => hkv x.symm
        simp [hkv, this, hne]
    · intro k; have := r.equation k; rw [stackOf_cons] at this; simpa [hk] using this
  | EQU =>
    rw [hk] at hlog
    have hst : t._equationFact.stackAt e.key = e.fact :: stackOf h e.key .EQU := by
      rw [r.equation, stackOf_cons]; simp [hk]
    refine ⟨_, FactTracker.popFact_EQU t mem e.key e.fact _ _ hlog hst, ?_, rfl⟩
    refine ⟨rfl, hown, ?_, ?_, ?_, hnd, hlive⟩
    · intro k; have := r.lower k; rw [stackOf_cons] at this; simpa [hk] using this
    · intro k; have := r.upper k; rw [stackOf_cons] at this; simpa [hk] using this
    · intro k
      simp only [Map.stackAt_set]
      by_cases hkv : k = e.key
      · subst hkv; simp
      · have := r.equation k
        rw [stackOf_cons] at this
        have hne : ¬ e.key = k := fun x => hkv x.symm
        simp [hkv, this, hne]

/-- The additions held after a sequence of add calls: one more per call. -/
theorem Rep.after_adds {h : List LogEntry} {mem : Memory} {t : FactTracker}
    (r : Rep h mem t) (calls : List AddCall) :
    ∃ h1, Rep h1 (applyAdds (mem, t) calls).1 (applyAdds (mem, t) calls).2 ∧
      h1.length = h.length + calls.length ∧
      (applyAdds (mem, t) calls).2.self = t.self := by
  induction calls generalizing h mem t with
  | nil => exact ⟨h, r, rfl, rfl⟩
  | cons c cs ih =>
    have step : ∃ e, Rep (e :: h) (applyAdd (mem, t) c).1 (applyAdd (mem, t) c).2 ∧
        (applyAdd (mem, t) c).2.self = t.self := by
      cases c with
      | bound var b =>
        refine ⟨_, r.addBoundFact var b, ?_⟩
        show (t.addBoundFact mem var b).2.self = t.self
        by_cases hb : b._type = .LB
        · rw [FactTracker.addBoundFact_LB t mem var b hb]
        · rw [FactTracker.addBoundFact_UB t mem var b hb]
      | equation equNumber equ => exact ⟨_, r.addEquationFact equNumber equ, rfl⟩
    obtain ⟨e, re, hs⟩ := step
    obtain ⟨h1, r1, hl, hs1⟩ := ih re
    refine ⟨h1, r1, ?_, ?_⟩
    · rw [hl]; simp; omega
    · exact hs1.trans hs

/-- Popping as many times as there are additions held succeeds and leaves a
tracker that holds none. -/
theorem Rep.after_pops {h : List LogEntry} {mem : Memory} {t : FactTracker}
    (r : Rep h mem t) :
    ∃ st, popFacts h.length (mem, t) = .ok st ∧ Rep [] st.1 st.2 ∧ st.2.self = t.self := by
  induction h generalizing mem t with
  | nil => exact ⟨(mem, t), rfl, r, rfl⟩
  | cons e h ih =>
    obtain ⟨t1, hpop, r1, hs⟩ := r.popFact
    obtain ⟨st, hst, r2, hs2⟩ := ih r1
    refine ⟨st, ?_, r2, hs2.trans hs⟩
    simp only [List.length_cons, Marabou.popFacts, hpop]
    exact hst

/-- A tracker that holds no addition answers 0 and has no fact under any key. -/
theorem Rep.nil_queries {mem : Memory} {t : FactTracker} (r : Rep [] mem t) :
    t._factsLearned = [] ∧ t.getNumFacts = 0 ∧ t._factsLearnedSet = ∅ ∧
    ∀ k, t.hasFactAffectingBound k .LB = false ∧ t.hasFactAffectingBound k .UB = false ∧
      t.hasFactAffectingEquation k = false := by
  have hlog : t._factsLearned = [] := by rw [r.log]; rfl
  refine ⟨hlog, by simp [FactTracker.getNumFacts, hlog], by rw [r.owned]; rfl, ?_⟩
  intro k
  have h1 := r.lower k
  have h2 := r.upper k
  have h3 := r.equation k
  simp only [stackOf, List.filter_nil, List.map_nil] at h1 h2 h3
  simp [FactTracker.hasFactAffectingBound, FactTracker.hasFactAffectingEquation, h1, h2, h3]

end Representation

section RoundTrip

/-- C3. LIFO round-trip: after any sequence of `n` add calls on an empty
tracker, `n` calls of `popFact` all return normally and leave a tracker with
`getNumFacts() == 0`, an empty undo log and owned set, and no fact under any
bound or equation key (touched or not). -/
theorem lifo_round_trip (self : Nat) (mem : Memory) (calls : List AddCall) :
    ∃ st, popFacts calls.length (applyAdds (mem, FactTracker.new self) calls) = .ok st ∧
      st.2.getNumFacts = 0 ∧ st.2._factsLearned = [] ∧ st.2._factsLearnedSet = ∅ ∧
      ∀ k, st.2.hasFactAffectingBound k .LB = false ∧
        st.2.hasFactAffectingBound k .UB = false ∧
        st.2.hasFactAffectingEquation k = false := by
  obtain ⟨h1, r1, hl, _⟩ := (Rep.of_new self mem).after_adds calls
  obtain ⟨st, hst, r2, _⟩ := r1.after_pops
  have hlen : h1.length = calls.length := by simpa using hl
  rw [hlen] at hst
  obtain ⟨q1, q2, q3, q4⟩ := r2.nil_queries
  exact ⟨st, hst, q2, q1, q3, q4⟩

end RoundTrip

section Seeding

open FactTracker

theorem foldl_flatten_map {σ α β : Type} (f : σ → β → σ) (g : α → List β) (l : List α)
    (init : σ) :
    (l.map g).flatten.foldl f init = l.foldl (fun acc x => (g x).foldl f acc) init := by
  induction l generalizing init with
  | nil => rfl
  | cons x xs ih => simp [List.foldl_append, ih]

/-- Seeding is the sequence of add calls `seedCalls`. -/
theorem FactTracker.initializeFromTableau_eq (t : FactTracker) (mem : Memory)
    (tableau : ITableau) :
    t.initializeFromTableau mem tableau = applyAdds (mem, t) (seedCalls tableau) := by
  unfold FactTracker.initializeFromTableau applyAdds seedCalls
  rw [List.foldl_append, foldl_flatten_map, List.foldl_map]
  rfl

end Seeding

section Ownership

open FactTracker

theorem Rep.mem_alloc {h : List LogEntry} {mem : Memory} {t : FactTracker}
    (r : Rep h mem t) (o : FactObj) : Rep h (mem.alloc o).1 t :=
  ⟨r.log, r.owned, r.lower, r.upper, r.equation, r.nodup, r.live_alloc o⟩

theorem Rep.mem_free {h : List LogEntry} {mem : Memory} {t : FactTracker}
    (r : Rep h mem t) (q : Ptr) (hq : q ∉ h.map (fun e => e.fact)) : Rep h (mem.free q) t := by
  refine ⟨r.log, r.owned, r.lower, r.upper, r.equation, r.nodup, ?_⟩
  intro e he
  obtain ⟨o, ho, hown⟩ := r.live e he
  have hne : ¬ e.fact = q := fun x => hq (x ▸ List.mem_map_of_mem _ he)
  exact ⟨o, by rw [Memory.deref_free, if_neg hne]; exact ho, hown⟩

/-- One add call allocates one object at the next address and adds one entry
for it. -/
theorem Rep.after_add {h : List LogEntry} {mem : Memory} {t : FactTracker}
    (r : Rep h mem t) (c : AddCall) :
    ∃ o, (applyAdd (mem, t) c).1 = (mem.alloc o).1 ∧ o.getOwner = some t.self ∧
      Rep (⟨c.key.1, c.key.2, mem.cells.length⟩ :: h) (applyAdd (mem, t) c).1
        (applyAdd (mem, t) c).2 ∧
      (applyAdd (mem, t) c).2.self = t.self := by
  cases c with
  | bound var b =>
    refine ⟨ownedTightening t b, FactTracker.addBoundFact_fst t mem var b, ?_,
      r.addBoundFact var b, ?_⟩
    · simp [ownedTightening, FactObj.getOwner, FactObj.toFact, Fact.setOwner]
    · show (t.addBoundFact mem var b).2.self = t.self
      by_cases hb : b._type = .LB
      · rw [FactTracker.addBoundFact_LB t mem var b hb]
      · rw [FactTracker.addBoundFact_UB t mem var b hb]
  | equation equNumber equ =>
    refine ⟨ownedEquation t equ, rfl, ?_, r.addEquationFact equNumber equ, rfl⟩
    simp [ownedEquation, FactObj.getOwner, FactObj.toFact, Fact.setOwner]

theorem Paired.symm {a b : Nat} {h1 h2 : List LogEntry} {mem : Memory} {t1 t2 : FactTracker}
    (p : Paired a b h1 h2 mem t1 t2) : Paired b a h2 h1 mem t2 t1 :=
  ⟨p.second, p.first, p.selfSecond, p.selfFirst,
    fun q o ho hq2 hq1 => (p.foreign q o ho hq1 hq2).symm⟩

/-- No fact is held by both trackers. -/
theorem Paired.disjoint {a b : Nat} {h1 h2 : List LogEntry} {mem : Memory}
    {t1 t2 : FactTracker} (p : Paired a b h1 h2 mem t1 t2) (hab : a ≠ b) :
    ∀ q, q ∈ h1.map (fun e => e.fact) → q ∉ h2.map (fun e => e.fact) := by
  intro q hq1 hq2
  obtain ⟨e1, he1, rfl⟩ := List.mem_map.1 hq1
  obtain ⟨e2, he2, heq⟩ := List.mem_map.1 hq2
  obtain ⟨o1, ho1, hown1⟩ := p.first.live e1 he1
  obtain ⟨o2, ho2, hown2⟩ := p.second.live e2 he2
  rw [heq, ho1] at ho2
  cases ho2
  rw [hown1, p.selfFirst, p.selfSecond] at hown2
  exact hab (Option.some.inj hown2)

theorem Paired.pair_after_add {a b : Nat} {h1 h2 : List LogEntry} {mem : Memory}
    {t1 t2 : FactTracker} (p : Paired a b h1 h2 mem t1 t2) (c : AddCall) :
    ∃ e, Paired a b (e :: h1) h2 (applyAdd (mem, t1) c).1 (applyAdd (mem, t1) c).2 t2 := by
  obtain ⟨o, hmem, _, r1, hs⟩ := p.first.after_add c
  refine ⟨_, r1, ?_, hs.trans p.selfFirst, p.selfSecond, ?_⟩
  · rw [hmem]; exact p.second.mem_alloc o
  · intro q o1 ho1 hq1 hq2
    rw [hmem, Memory.deref_alloc] at ho1
    simp only [List.map_cons, List.mem_cons, not_or] at hq1
    rw [if_neg hq1.1] at ho1
    exact p.foreign q o1 ho1 hq1.2 hq2

theorem Paired.pair_after_adds {a b : Nat} {h1 h2 : List LogEntry} {mem : Memory}
    {t1 t2 : FactTracker} (p : Paired a b h1 h2 mem t1 t2) (cs : List AddCall) :
    ∃ h, Paired a b h h2 (applyAdds (mem, t1) cs).1 (applyAdds (mem, t1) cs).2 t2 := by
  induction cs generalizing h1 mem t1 with
  | nil => exact ⟨h1, p⟩
  | cons c cs ih =>
    obtain ⟨e, pe⟩ := p.pair_after_add c
    exact ih pe

theorem Paired.after_pop {a b : Nat} {e : LogEntry} {h1 h2 : List LogEntry} {mem : Memory}
    {t1 t2 : FactTracker} (p : Paired a b (e :: h1) h2 mem t1 t2) (hab : a ≠ b) :
    ∃ t, t1.popFact mem = .ok (mem.free e.fact, t) ∧
      Paired a b h1 h2 (mem.free e.fact) t t2 := by
  obtain ⟨t, hpop, r1, hs⟩ := p.first.popFact
  refine ⟨t, hpop, r1, ?_, hs.trans p.selfFirst, p.selfSecond, ?_⟩
  · exact p.second.mem_free e.fact (p.disjoint hab e.fact (by simp))
  · intro q o ho hq1 hq2
    rw [Memory.deref_free] at ho
    by_cases hqe : q = e.fact
    · rw [if_pos hqe] at ho; exact absurd ho (by simp)
    · rw [if_neg hqe] at ho
      refine p.foreign q o ho ?_ hq2
      simp only [List.map_cons, List.mem_cons, not_or]
      exact ⟨hqe, hq1⟩

/-- With no addition held, `popFact` fails. -/
theorem Rep.popFact_nil {mem : Memory} {t : FactTracker} (r : Rep [] mem t) :
    t.popFact mem = .error (.STACK_IS_EMPTY, mem, t) := by
  have hlog : t._factsLearned = [] := by rw [r.log]; rfl
  unfold FactTracker.popFact
  rw [hlog]

theorem Paired.after_op {a b : Nat} {h1 h2 : List LogEntry} {mem : Memory}
    {t1 t2 : FactTracker} (p : Paired a b h1 h2 mem t1 t2) (hab : a ≠ b) (op : Op)
    (st : Memory × FactTracker) (hst : applyOp (mem, t1) op = some st) :
    ∃ h, Paired a b h h2 st.1 st.2 t2 := by
  cases op with
  | add c =>
    obtain ⟨e, pe⟩ := p.pair_after_add c
    simp only [applyOp, Option.some.injEq] at hst
    subst hst
    exact ⟨_, pe⟩
  | init tableau =>
    simp only [applyOp, Option.some.injEq, FactTracker.initializeFromTableau_eq] at hst
    subst hst
    exact p.pair_after_adds _
  | pop =>
    cases h1 with
    | nil =>
      simp only [applyOp, p.first.popFact_nil] at hst
      exact absurd hst (by simp)
    | cons e h1 =>
      obtain ⟨t, hpop, pt⟩ := p.after_pop hab
      simp only [applyOp, hpop, Option.some.injEq] at hst
      subst hst
      exact ⟨_, pt⟩

theorem Paired.run {a b : Nat} (hab : a ≠ b) (ops : List (Bool × Op)) :
    ∀ {h1 h2 : List LogEntry} {w w1 : World},
      Paired a b h1 h2 w.mem w.first w.second → w.run ops = some w1 →
      ∃ k1 k2, Paired a b k1 k2 w1.mem w1.first w1.second := by
  induction ops with
  | nil =>
    intro h1 h2 w w1 p hrun
    simp only [World.run, Option.some.injEq] at hrun
    subst hrun
    exact ⟨h1, h2, p⟩
  | cons x xs ih =>
    intro h1 h2 w w1 p hrun
    simp only [World.run] at hrun
    cases hstep : w.step x with
    | none => rw [hstep] at hrun; exact absurd hrun (by simp)
    | some w2 =>
      rw [hstep] at hrun
      simp only [Option.some_bind] at hrun
      unfold World.step at hstep
      by_cases hx : x.1 = true
      · rw [if_pos hx] at hstep
        cases hop : applyOp (w.mem, w.second) x.2 with
        | none => rw [hop] at hstep; exact absurd hstep (by simp)
        | some st =>
          rw [hop] at hstep
          simp only [Option.map_some', Option.some.injEq] at hstep
          subst hstep
          obtain ⟨h, ph⟩ := p.symm.after_op hab.symm x.2 st hop
          exact ih ph.symm hrun
      · rw [if_neg hx] at hstep
        cases hop : applyOp (w.mem, w.first) x.2 with
        | none => rw [hop] at hstep; exact absurd hstep (by simp)
        | some st =>
          rw [hop] at hstep
          simp only [Option.map_some', Option.some.injEq] at hstep
          subst hstep
          obtain ⟨h, ph⟩ := p.after_op hab x.2 st hop
          exact ih ph hrun

/-- What `hasFact` answers for the objects of the memory of two paired
trackers. -/
theorem Paired.hasFact_iff {a b : Nat} {h1 h2 : List LogEntry} {mem : Memory}
    {t1 t2 : FactTracker} (p : Paired a b h1 h2 mem t1 t2) (hab : a ≠ b) :
    (∀ q ∈ t1._factsLearnedSet, ∃ o, mem.deref q = some o ∧ t1.hasFact o = true) ∧
    (∀ q ∈ t2._factsLearnedSet, ∃ o, mem.deref q = some o ∧ t1.hasFact o = false) ∧
    (∀ q o, mem.deref q = some o → (t1.hasFact o = true ↔ q ∈ t1._factsLearnedSet)) := by
  have hin1 : ∀ q, q ∈ t1._factsLearnedSet ↔ q ∈ h1.map (fun e => e.fact) := by
    intro q; rw [p.first.owned, List.mem_toFinset]
  have hin2 : ∀ q, q ∈ t2._factsLearnedSet ↔ q ∈ h2.map (fun e => e.fact) := by
    intro q; rw [p.second.owned, List.mem_toFinset]
  have own1 : ∀ q ∈ h1.map (fun e => e.fact), ∃ o, mem.deref q = some o ∧
      o.getOwner = some a := by
    intro q hq
    obtain ⟨e, he, rfl⟩ := List.mem_map.1 hq
    obtain ⟨o, ho, hown⟩ := p.first.live e he
    exact ⟨o, ho, by rw [hown, p.selfFirst]⟩
  have own2 : ∀ q ∈ h2.map (fun e => e.fact), ∃ o, mem.deref q = some o ∧
      o.getOwner = some b := by
    intro q hq
    obtain ⟨e, he, rfl⟩ := List.mem_map.1 hq
    obtain ⟨o, ho, hown⟩ := p.second.live e he
    exact ⟨o, ho, by rw [hown, p.selfSecond]⟩
  refine ⟨?_, ?_, ?_⟩
  · intro q hq
    obtain ⟨o, ho, hown⟩ := own1 q ((hin1 q).1 hq)
    exact ⟨o, ho, by simp [FactTracker.hasFact, hown, p.selfFirst]⟩
  · intro q hq
    obtain ⟨o, ho, hown⟩ := own2 q ((hin2 q).1 hq)
    refine ⟨o, ho, ?_⟩
    simp only [FactTracker.hasFact, hown, p.selfFirst, decide_eq_false_iff_not]
    exact fun x => hab (Option.some.inj x)
  · intro q o ho
    constructor
    · intro hf
      have hown : o.getOwner = some a := by
        simp only [FactTracker.hasFact, decide_eq_true_eq, p.selfFirst] at hf
        exact hf.symm
      rw [hin1]
      by_contra hq1
      by_cases hq2 : q ∈ h2.map (fun e => e.fact)
      · obtain ⟨o2, ho2, hown2⟩ := own2 q hq2
        rw [ho] at ho2
        cases ho2
        rw [hown] at hown2
        exact hab (Option.some.inj hown2)
      · exact (p.foreign q o ho hq1 hq2).1 hown
    · intro hq
      obtain ⟨o1, ho1, hown⟩ := own1 q ((hin1 q).1 hq)
      rw [ho] at ho1
      cases ho1
      simp [FactTracker.hasFact, hown, p.selfFirst]

theorem Paired.of_new_pair (a b : Nat) (mem : Memory)
    (hfor : ∀ p o, mem.deref p = some o → o.getOwner ≠ some a ∧ o.getOwner ≠ some b) :
    Paired a b [] [] mem (FactTracker.new a) (FactTracker.new b) :=
  ⟨Rep.of_new a mem, Rep.of_new b mem, rfl, rfl, fun p o ho _ _ => hfor p o ho⟩

theorem emptyMemory_deref (p : Ptr) : emptyMemory.deref p = none := by
  simp [emptyMemory, Memory.deref]

/-- C5 (amended). `T.hasFact(f)` is true exactly when the owner field of `f`
is `T`. For two trackers with different identities working in one memory
whose other objects are owned by neither, after any sequence of adds,
seedings and pops: every fact in the owned set of `T` (created by `T`, not
yet popped) is an object for which `T.hasFact` is true, every fact in the
owned set of the second tracker is one for which it is false, and among the
objects of the memory `T.hasFact` is true exactly for those in the owned set
of `T`. -/
theorem hasFact_ownership (a b : Nat) (hab : a ≠ b) (mem0 : Memory)
    (hfor : ∀ p o, mem0.deref p = some o → o.getOwner ≠ some a ∧ o.getOwner ≠ some b)
    (ops : List (Bool × Op)) (w : World)
    (hrun : (World.mk mem0 (FactTracker.new a) (FactTracker.new b)).run ops = some w) :
    (∀ f, w.first.hasFact f = true ↔ f.getOwner = some a) ∧
    (∀ q ∈ w.first._factsLearnedSet, ∃ o, w.mem.deref q = some o ∧ w.first.hasFact o = true) ∧
    (∀ q ∈ w.second._factsLearnedSet,
      ∃ o, w.mem.deref q = some o ∧ w.first.hasFact o = false) ∧
    (∀ q o, w.mem.deref q = some o →
      (w.first.hasFact o = true ↔ q ∈ w.first._factsLearnedSet)) := by
  obtain ⟨k1, k2, p⟩ := Paired.run hab ops
    (show Paired a b [] [] (World.mk mem0 (FactTracker.new a) (FactTracker.new b)).mem
      (World.mk mem0 (FactTracker.new a) (FactTracker.new b)).first
      (World.mk mem0 (FactTracker.new a) (FactTracker.new b)).second from
      Paired.of_new_pair a b mem0 hfor) hrun
  refine ⟨?_, p.hasFact_iff hab⟩
  intro f
  simp only [FactTracker.hasFact, decide_eq_true_eq, p.selfFirst]
  exact eq_comm

/-- Witness of `hasFact_ownership`: trackers 0 and 1 on an empty memory, one
lower bound added to the first. -/
theorem hasFact_ownership_witness :
    (0 : Nat) ≠ 1 ∧
    (∀ p o, emptyMemory.deref p = some o → o.getOwner ≠ some 0 ∧ o.getOwner ≠ some 1) ∧
    (World.mk emptyMemory (FactTracker.new 0) (FactTracker.new 1)).run
        [(false, Op.add (AddCall.bound 0 (Tightening.new 0 5 .LB)))]
      = some (World.mk
          ((FactTracker.new 0).addBoundFact emptyMemory 0 (Tightening.new 0 5 .LB)).1
          ((FactTracker.new 0).addBoundFact emptyMemory 0 (Tightening.new 0 5 .LB)).2
          (FactTracker.new 1)) ∧
    (∀ f, ((FactTracker.new 0).addBoundFact emptyMemory 0 (Tightening.new 0 5 .LB)).2.hasFact f
        = true ↔ f.getOwner = some 0) :=
  ⟨by decide, fun p o ho => absurd ho (by simp [emptyMemory_deref]), rfl,
    (hasFact_ownership 0 1 (by decide) emptyMemory
      (fun p o ho => absurd ho (by simp [emptyMemory_deref]))
      [(false, Op.add (AddCall.bound 0 (Tightening.new 0 5 .LB)))] _ rfl).1⟩

/-- C5 (as stated) fails: `hasFact` reads the owner field only. After tracker 0
has added a bound and popped it again, its owned set is empty and no object
of the memory is the fact it created, yet `hasFact` is still true for that
fact object (a copy kept by the caller). -/
theorem hasFact_true_after_pop :
    ∃ st,
      ((FactTracker.new 0).addBoundFact emptyMemory 0 (Tightening.new 0 5 .LB)).2.popFact
        ((FactTracker.new 0).addBoundFact emptyMemory 0 (Tightening.new 0 5 .LB)).1
        = .ok st ∧
      st.2._factsLearnedSet = ∅ ∧
      (∀ q, st.1.deref q = none) ∧
      st.2.hasFact (ownedTightening (FactTracker.new 0) (Tightening.new 0 5 .LB)) = true := by
  refine ⟨_, FactTracker.popFact_addBoundFact (FactTracker.new 0) emptyMemory
    (ownedLive_new 0 emptyMemory) 0 (Tightening.new 0 5 .LB), by decide, ?_, by decide⟩
  intro q
  show ((emptyMemory.alloc _).1.free emptyMemory.cells.length).deref q = none
  rw [Memory.deref_free_alloc, emptyMemory_deref]

end Ownership

section SplitFrontier

theorem mem_pairSetInsert (p x : Nat × Nat) (l : List (Nat × Nat)) :
    x ∈ pairSetInsert p l ↔ x = p ∨ x ∈ l := by
  unfold pairSetInsert
  split
  · next h =>
    constructor
    · exact Or.inr
    · rintro (rfl | hx)
      · exact h
      · exact hx
  · exact List.mem_orderedInsert pairLe

theorem nodup_pairSetInsert (p : Nat × Nat) (l : List (Nat × Nat)) (h : l.Nodup) :
    (pairSetInsert p l).Nodup := by
  unfold pairSetInsert
  split
  · exact h
  · next hp =>
    exact (List.perm_orderedInsert pairLe p l).nodup_iff.2 (List.nodup_cons.2 ⟨hp, h⟩)

theorem Memory.lt_of_deref {mem : Memory} {p : Ptr} {o : FactObj}
    (h : mem.deref p = some o) : p < mem.cells.length := by
  by_contra hlt
  have : mem.cells[p]? = none := List.getElem?_eq_none (Nat.le_of_not_lt hlt)
  simp [Memory.deref, this] at h

theorem loopMeasure_skip (mem : Memory) (seen : Finset Ptr) (fact : Ptr)
    (remaining : List Ptr) :
    loopMeasure mem seen remaining + 1 = loopMeasure mem seen (fact :: remaining) := by
  simp only [loopMeasure, List.length_cons]
  omega

theorem loopMeasure_insert_le (mem : Memory) (seen : Finset Ptr) (fact : Ptr)
    (remaining : List Ptr) :
    loopMeasure mem (insert fact seen) remaining + 1
      ≤ loopMeasure mem seen (fact :: remaining) := by
  simp only [loopMeasure, List.length_cons]
  have : ∑ q in (Finset.range mem.cells.length).filter (fun q => q ∉ insert fact seen),
        mem.weight q
      ≤ ∑ q in (Finset.range mem.cells.length).filter (fun q => q ∉ seen), mem.weight q := by
    apply Finset.sum_le_sum_of_subset
    intro q
    simp only [Finset.mem_filter, Finset.mem_insert, not_or]
    tauto
  omega

theorem loopMeasure_expand (mem : Memory) (seen : Finset Ptr) (fact : Ptr)
    (remaining : List Ptr) (o : FactObj) (ho : mem.deref fact = some o) (hs : fact ∉ seen) :
    loopMeasure mem (insert fact seen) (remaining ++ o.getExplanations) + 1
      = loopMeasure mem seen (fact :: remaining) := by
  simp only [loopMeasure, List.length_cons, List.length_append]
  have h1 : (Finset.range mem.cells.length).filter (fun q => q ∉ insert fact seen)
      = ((Finset.range mem.cells.length).filter (fun q => q ∉ seen)).erase fact := by
    ext q
    simp only [Finset.mem_filter, Finset.mem_insert, Finset.mem_erase, not_or]
    tauto
  have h2 : mem.weight fact
      + ∑ q in ((Finset.range mem.cells.length).filter (fun q => q ∉ seen)).erase fact,
          mem.weight q
      = ∑ q in (Finset.range mem.cells.length).filter (fun q => q ∉ seen), mem.weight q := by
    apply Finset.add_sum_erase
    simp [Memory.lt_of_deref ho, hs]
  have h3 : mem.weight fact = o.getExplanations.length := by
    simp [Memory.weight, ho]
  rw [h1]
  omega

theorem causingLoop_nil (mem : Memory) (fuel : Nat) (seen : Finset Ptr)
    (result : List (Nat × Nat)) : causingLoop mem fuel seen result [] = .done result := by
  cases fuel <;> rfl

theorem causingLoop_cons (mem : Memory) (fuel : Nat) (seen : Finset Ptr)
    (result : List (Nat × Nat)) (fact : Ptr) (remaining : List Ptr) :
    causingLoop mem (fuel + 1) seen result (fact :: remaining) =
      if fact ∈ seen then causingLoop mem fuel seen result remaining
      else
        match mem.deref fact with
        | none => .fault
        | some f =>
          if f.isCausedBySplit then
            if f.getSplitLevelCausing ≠ 0 then
              causingLoop mem fuel (insert fact seen)
                (pairSetInsert (f.getCausingConstraintID, f.getCausingSplitID) result) remaining
            else causingLoop mem fuel (insert fact seen) result remaining
          else
            causingLoop mem fuel (insert fact seen) result (remaining ++ f.getExplanations) := by
  rw [causingLoop]

/-- An already seen fact at the front of the queue is dropped. -/
theorem LoopInv.skip {mem : Memory} {facts : List Ptr} {seen : Finset Ptr}
    {result : List (Nat × Nat)} {fact : Ptr} {remaining : List Ptr}
    (inv : LoopInv mem facts seen result (fact :: remaining)) (hs : fact ∈ seen) :
    LoopInv mem facts seen result remaining := by
  refine ⟨inv.seenVisited, fun p hp => inv.queueVisited p (List.mem_cons_of_mem _ hp),
    ?_, ?_, inv.recorded, inv.nodup⟩
  · intro p hp
    rcases inv.inputs p hp with h | h
    · exact Or.inl h
    · rcases List.mem_cons.1 h with rfl | h
      · exact Or.inl hs
      · exact Or.inr h
  · intro q hq o ho hsp p hp
    rcases inv.closed q hq o ho hsp p hp with h | h
    · exact Or.inl h
    · rcases List.mem_cons.1 h with rfl | h
      · exact Or.inl hs
      · exact Or.inr h

/-- A fact caused by a split is marked seen, its pair is recorded when its
level is not 0, and its explanations are not enqueued. -/
theorem LoopInv.visitSplit {mem : Memory} {facts : List Ptr} {seen : Finset Ptr}
    {result : List (Nat × Nat)} {fact : Ptr} {remaining : List Ptr}
    (inv : LoopInv mem facts seen result (fact :: remaining)) (o : FactObj)
    (ho : mem.deref fact = some o) (hsp : o.isCausedBySplit = true) :
    LoopInv mem facts (insert fact seen)
      (if o.getSplitLevelCausing ≠ 0 then
        pairSetInsert (o.getCausingConstraintID, o.getCausingSplitID) result
       else result) remaining := by
  have hfact : Frontier mem facts fact := inv.queueVisited fact (List.mem_cons_self _ _)
  refine ⟨?_, fun p hp => inv.queueVisited p (List.mem_cons_of_mem _ hp), ?_, ?_, ?_, ?_⟩
  · intro p hp
    rcases Finset.mem_insert.1 hp with rfl | h
    · exact hfact
    · exact inv.seenVisited p h
  · intro p hp
    rcases inv.inputs p hp with h | h
    · exact Or.inl (Finset.mem_insert_of_mem h)
    · rcases List.mem_cons.1 h with rfl | h
      · exact Or.inl (Finset.mem_insert_self _ _)
      · exact Or.inr h
  · intro q hq o1 ho1 hsp1 p hp
    rcases Finset.mem_insert.1 hq with rfl | hq
    · rw [ho] at ho1
      cases ho1
      rw [hsp] at hsp1
      exact absurd hsp1 (by simp)
    · rcases inv.closed q hq o1 ho1 hsp1 p hp with h | h
      · exact Or.inl (Finset.mem_insert_of_mem h)
      · rcases List.mem_cons.1 h with rfl | h
        · exact Or.inl (Finset.mem_insert_self _ _)
        · exact Or.inr h
  · intro pr
    by_cases hl : o.getSplitLevelCausing ≠ 0
    · rw [if_pos hl, mem_pairSetInsert, inv.recorded]
      constructor
      · rintro (rfl | ⟨q, hq, hr⟩)
        · exact ⟨fact, Finset.mem_insert_self _ _, o, ho, hsp, hl, rfl⟩
        · exact ⟨q, Finset.mem_insert_of_mem hq, hr⟩
      · rintro ⟨q, hq, hr⟩
        rcases Finset.mem_insert.1 hq with rfl | hq
        · obtain ⟨o1, ho1, _, _, hpr⟩ := hr
          rw [ho] at ho1
          cases ho1
          exact Or.inl hpr
        · exact Or.inr ⟨q, hq, hr⟩
    · rw [if_neg hl, inv.recorded]
      constructor
      · rintro ⟨q, hq, hr⟩
        exact ⟨q, Finset.mem_insert_of_mem hq, hr⟩
      · rintro ⟨q, hq, hr⟩
        rcases Finset.mem_insert.1 hq with rfl | hq
        · obtain ⟨o1, ho1, _, hl1, _⟩ := hr
          rw [ho] at ho1
          cases ho1
          exact absurd hl1 hl
        · exact ⟨q, hq, hr⟩
  · by_cases hl : o.getSplitLevelCausing ≠ 0
    · rw [if_pos hl]; exact nodup_pairSetInsert _ _ inv.nodup
    · rw [if_neg hl]; exact inv.nodup

/-- A fact not caused by a split is marked seen and its explanations are
enqueued. -/
theorem LoopInv.visitOther {mem : Memory} {facts : List Ptr} {seen : Finset Ptr}
    {result : List (Nat × Nat)} {fact : Ptr} {remaining : List Ptr}
    (inv : LoopInv mem facts seen result (fact :: remaining)) (o : FactObj)
    (ho : mem.deref fact = some o) (hsp : o.isCausedBySplit = false) :
    LoopInv mem facts (insert fact seen) result (remaining ++ o.getExplanations) := by
  have hfact : Frontier mem facts fact := inv.queueVisited fact (List.mem_cons_self _ _)
  refine ⟨?_, ?_, ?_, ?_, ?_, inv.nodup⟩
  · intro p hp
    rcases Finset.mem_insert.1 hp with rfl | h
    · exact hfact
    · exact inv.seenVisited p h
  · intro p hp
    rcases List.mem_append.1 hp with h | h
    · exact inv.queueVisited p (List.mem_cons_of_mem _ h)
    · exact Frontier.step fact p o hfact ho hsp h
  · intro p hp
    rcases inv.inputs p hp with h | h
    · exact Or.inl (Finset.mem_insert_of_mem h)
    · rcases List.mem_cons.1 h with rfl | h
      · exact Or.inl (Finset.mem_insert_self _ _)
      · exact Or.inr (List.mem_append_left _ h)
  · intro q hq o1 ho1 hsp1 p hp
    rcases Finset.mem_insert.1 hq with rfl | hq
    · rw [ho] at ho1
      cases ho1
      exact Or.inr (List.mem_append_right _ hp)
    · rcases inv.closed q hq o1 ho1 hsp1 p hp with h | h
      · exact Or.inl (Finset.mem_insert_of_mem h)
      · rcases List.mem_cons.1 h with rfl | h
        · exact Or.inl (Finset.mem_insert_self _ _)
        · exact Or.inr (List.mem_append_left _ h)
  · intro pr
    rw [inv.recorded]
    constructor
    · rintro ⟨q, hq, hr⟩
      exact ⟨q, Finset.mem_insert_of_mem hq, hr⟩
    · rintro ⟨q, hq, hr⟩
      rcases Finset.mem_insert.1 hq with rfl | hq
      · obtain ⟨o1, ho1, hsp1, _, _⟩ := hr
        rw [ho] at ho1
        cases ho1
        rw [hsp] at hsp1
        exact absurd hsp1 (by simp)
      · exact ⟨q, hq, hr⟩

/-- With fuel for the remaining iterations the loop ends normally, in a state
that satisfies the invariant with an empty queue. -/
theorem causingLoop_done (mem : Memory) (facts : List Ptr)
    (hlive : ∀ p, Frontier mem facts p → (mem.deref p).isSome = true) :
    ∀ (fuel : Nat) (seen : Finset Ptr) (result : List (Nat × Nat)) (remaining : List Ptr),
      LoopInv mem facts seen result remaining → loopMeasure mem seen remaining ≤ fuel →
      ∃ seen1 r, causingLoop mem fuel seen result remaining = .done r ∧
        LoopInv mem facts seen1 r [] := by
  intro fuel
  induction fuel with
  | zero =>
    intro seen result remaining inv hm
    cases remaining with
    | nil => exact ⟨seen, result, causingLoop_nil _ _ _ _, inv⟩
    | cons fact rest =>
      simp only [loopMeasure, List.length_cons] at hm
      omega
  | succ fuel ih =>
    intro seen result remaining inv hm
    cases remaining with
    | nil => exact ⟨seen, result, causingLoop_nil _ _ _ _, inv⟩
    | cons fact rest =>
      rw [causingLoop_cons]
      by_cases hs : fact ∈ seen
      · rw [if_pos hs]
        have := loopMeasure_skip mem seen fact rest
        exact ih seen result rest (inv.skip hs) (by omega)
      · rw [if_neg hs]
        have hl := hlive fact (inv.queueVisited fact (List.mem_cons_self _ _))
        cases ho : mem.deref fact with
        | none => rw [ho] at hl; exact absurd hl (by simp)
        | some o =>
          simp only
          cases hsp : o.isCausedBySplit with
          | true =>
            have hinv := inv.visitSplit o ho hsp
            have := loopMeasure_insert_le mem seen fact rest
            by_cases hlev : o.getSplitLevelCausing ≠ 0
            · rw [if_pos hlev] at hinv
              simp only [if_true, if_pos hlev]
              exact ih _ _ _ hinv (by omega)
            · rw [if_neg hlev] at hinv
              simp only [if_true, if_neg hlev]
              exact ih _ _ _ hinv (by omega)
          | false =>
            have hinv := inv.visitOther o ho hsp
            have := loopMeasure_expand mem seen fact rest o ho hs
            simp only [Bool.false_eq_true, if_false]
            exact ih _ _ _ hinv (by omega)

/-- At the end of the loop the seen facts are exactly the split frontier. -/
theorem LoopInv.frontier_seen {mem : Memory} {facts : List Ptr} {seen : Finset Ptr}
    {result : List (Nat × Nat)} (inv : LoopInv mem facts seen result []) :
    ∀ p, Frontier mem facts p → p ∈ seen := by
  intro p hp
  induction hp with
  | input p hin =>
    rcases inv.inputs p hin with h | h
    · exact h
    · exact absurd h (List.not_mem_nil _)
  | step q p o _ ho hsp hin ih =>
    rcases inv.closed q ih o ho hsp p hin with h | h
    · exact h
    · exact absurd h (List.not_mem_nil _)

theorem causing_initial (mem : Memory) (facts : List Ptr) :
    LoopInv mem facts ∅ [] facts ∧ loopMeasure mem ∅ facts = facts.length + mem.edgeCount := by
  refine ⟨⟨?_, fun p hp => Frontier.input p hp, fun p hp => Or.inr hp, ?_, ?_, List.nodup_nil⟩,
    ?_⟩
  · intro p hp; exact absurd hp (Finset.not_mem_empty _)
  · intro q hq; exact absurd hq (Finset.not_mem_empty _)
  · intro pr; simp
  · simp [loopMeasure, Memory.edgeCount]

/-- The result of the traversal, for every input whose split frontier holds no
dangling pointer and every fuel that covers the input and the edges. -/
theorem causing_result (t : FactTracker) (mem : Memory) (facts : List Ptr)
    (hlive : ∀ p, Frontier mem facts p → (mem.deref p).isSome = true)
    (fuel : Nat) (hfuel : facts.length + mem.edgeCount ≤ fuel) :
    ∃ r, t.getConstraintsAndSplitsCausingFacts mem fuel facts = .done r ∧ r.Nodup ∧
      ∀ pr, pr ∈ r ↔ ∃ p, Frontier mem facts p ∧ Recorded mem p pr := by
  obtain ⟨inv0, hm⟩ := causing_initial mem facts
  obtain ⟨seen1, r, hr, inv⟩ := causingLoop_done mem facts hlive fuel ∅ [] facts inv0
    (by omega)
  refine ⟨r, hr, inv.nodup, ?_⟩
  intro pr
  rw [inv.recorded]
  constructor
  · rintro ⟨q, hq, hrec⟩
    exact ⟨q, inv.seenVisited q hq, hrec⟩
  · rintro ⟨q, hq, hrec⟩
    exact ⟨q, inv.frontier_seen q hq, hrec⟩

theorem Memory.Closed.explanations {mem : Memory} (hc : mem.Closed) {q : Ptr} {o : FactObj}
    (ho : mem.deref q = some o) : ∀ p ∈ o.getExplanations, (mem.deref p).isSome = true := by
  intro p hp
  refine hc q (List.mem_range.2 (Memory.lt_of_deref ho)) p ?_
  simpa [Memory.explanationsAt, ho] using hp

/-- In a closed memory everything reachable from live inputs is live. -/
theorem Reachable.live_of_closed {mem : Memory} {facts : List Ptr} (hc : mem.Closed)
    (hin : mem.AllLive facts) : ∀ p, Reachable mem facts p → (mem.deref p).isSome = true := by
  intro p hp
  induction hp with
  | input p h => exact hin p h
  | step q p o _ ho hmem _ => exact hc.explanations ho p hmem

theorem Frontier.reachable {mem : Memory} {facts : List Ptr} :
    ∀ p, Frontier mem facts p → Reachable mem facts p := by
  intro p hp
  induction hp with
  | input p h => exact Reachable.input p h
  | step q p o _ ho _ hmem ih => exact Reachable.step q p o ih ho hmem

theorem Frontier.frontier_live {mem : Memory} {facts : List Ptr} (hc : mem.Closed)
    (hin : mem.AllLive facts) : ∀ p, Frontier mem facts p → (mem.deref p).isSome = true :=
  fun p hp => Reachable.live_of_closed hc hin p (Frontier.reachable p hp)

theorem chainMemory_closed : chainMemory.Closed := by
  unfold Memory.Closed
  decide

/-- C6. `getConstraintsAndSplitsCausingFacts` computes exactly the split
frontier: when no pointer met by the traversal dangles and the fuel covers
the input and the explanation edges, it returns a list that holds, each
once, precisely the pairs (causingConstraintID, causingSplitID) of the facts
that are caused by a split at a level other than 0 and are in the input or
reachable from it through facts not caused by a split. -/
theorem split_frontier_exact (t : FactTracker) (mem : Memory) (facts : List Ptr)
    (hlive : ∀ p, Frontier mem facts p → (mem.deref p).isSome = true)
    (fuel : Nat) (hfuel : facts.length + mem.edgeCount ≤ fuel) :
    ∃ r, t.getConstraintsAndSplitsCausingFacts mem fuel facts = .done r ∧ r.Nodup ∧
      ∀ pr, pr ∈ r ↔
        ∃ p o, Frontier mem facts p ∧ mem.deref p = some o ∧ o.isCausedBySplit = true ∧
          o.getSplitLevelCausing ≠ 0 ∧
          pr = (o.getCausingConstraintID, o.getCausingSplitID) := by
  obtain ⟨r, hr, hnd, hmem⟩ := causing_result t mem facts hlive fuel hfuel
  refine ⟨r, hr, hnd, ?_⟩
  intro pr
  rw [hmem]
  constructor
  · rintro ⟨p, hp, o, h1, h2, h3, h4⟩
    exact ⟨p, o, hp, h1, h2, h3, h4⟩
  · rintro ⟨p, o, hp, h1, h2, h3, h4⟩
    exact ⟨p, hp, o, h1, h2, h3, h4⟩

/-- Witness of `split_frontier_exact`: the fact at address 3 of `chainMemory`,
explained by the two split-caused facts, with fuel 10. -/
theorem split_frontier_exact_witness :
    (∀ p, Frontier chainMemory [3] p → (chainMemory.deref p).isSome = true) ∧
    [3].length + chainMemory.edgeCount ≤ 10 ∧
    ∃ r, (FactTracker.new 0).getConstraintsAndSplitsCausingFacts chainMemory 10 [3] = .done r ∧
      r.Nodup ∧
      ∀ pr, pr ∈ r ↔
        ∃ p o, Frontier chainMemory [3] p ∧ chainMemory.deref p = some o ∧
          o.isCausedBySplit = true ∧ o.getSplitLevelCausing ≠ 0 ∧
          pr = (o.getCausingConstraintID, o.getCausingSplitID) :=
  ⟨Frontier.frontier_live chainMemory_closed (by unfold Memory.AllLive; decide),
    by decide,
    split_frontier_exact (FactTracker.new 0) chainMemory [3]
      (Frontier.frontier_live chainMemory_closed (by unfold Memory.AllLive; decide)) 10 (by decide)⟩

/-- More fuel does not change a result. -/
theorem causingLoop_mono (mem : Memory) (k : Nat) :
    ∀ (fuel : Nat) (seen : Finset Ptr) (result : List (Nat × Nat)) (remaining : List Ptr)
      (r : List (Nat × Nat)),
      causingLoop mem fuel seen result remaining = .done r →
      causingLoop mem (fuel + k) seen result remaining = .done r := by
  intro fuel
  induction fuel with
  | zero =>
    intro seen result remaining r h
    cases remaining with
    | nil => rw [causingLoop_nil] at h ⊢; exact h
    | cons fact rest => simp [causingLoop] at h
  | succ fuel ih =>
    intro seen result remaining r h
    cases remaining with
    | nil => rw [causingLoop_nil] at h ⊢; exact h
    | cons fact rest =>
      have e : fuel + 1 + k = (fuel + k) + 1 := by omega
      rw [e, causingLoop_cons]
      rw [causingLoop_cons] at h
      by_cases hs : fact ∈ seen
      · rw [if_pos hs] at h ⊢; exact ih _ _ _ _ h
      · rw [if_neg hs] at h ⊢
        cases ho : mem.deref fact with
        | none => rw [ho] at h; simp at h
        | some o =>
          rw [ho] at h
          simp only at h ⊢
          by_cases hsp : o.isCausedBySplit = true
          · rw [if_pos hsp] at h ⊢
            by_cases hl : o.getSplitLevelCausing ≠ 0
            · rw [if_pos hl] at h ⊢; exact ih _ _ _ _ h
            · rw [if_neg hl] at h ⊢; exact ih _ _ _ _ h
          · rw [if_neg hsp] at h ⊢; exact ih _ _ _ _ h

theorem causing_mono (t : FactTracker) (mem : Memory) (facts : List Ptr) (fuel k : Nat)
    (r : List (Nat × Nat))
    (h : t.getConstraintsAndSplitsCausingFacts mem fuel facts = .done r) :
    t.getConstraintsAndSplitsCausingFacts mem (fuel + k) facts = .done r :=
  causingLoop_mono mem k fuel ∅ [] facts r h

/-- C7 (amended). On the chain seeded fact → split (level 1, constraint 3,
split 7) → split (level 2, constraint 5, split 9), the call with the fact at
the end of the chain returns exactly [(5, 9)], for every tracker and every
fuel that allows one iteration: the explanations of a split-caused fact are
not followed. The pairs (3, 7) and (5, 9) are both returned when the two
split-caused facts are both given as input, or when the input is a fact not
caused by a split that both explain. -/
theorem provenance_of_chain (t : FactTracker) (fuel : Nat) :
    t.getConstraintsAndSplitsCausingFacts chainMemory (1 + fuel) [2] = .done [(5, 9)] ∧
    t.getConstraintsAndSplitsCausingFacts chainMemory (2 + fuel) [2, 1]
      = .done [(3, 7), (5, 9)] ∧
    t.getConstraintsAndSplitsCausingFacts chainMemory (3 + fuel) [3]
      = .done [(3, 7), (5, 9)] :=
  ⟨causing_mono t chainMemory [2] 1 fuel _
      (show causingLoop chainMemory 1 ∅ [] [2] = .done [(5, 9)] by decide),
    causing_mono t chainMemory [2, 1] 2 fuel _
      (show causingLoop chainMemory 2 ∅ [] [2, 1] = .done [(3, 7), (5, 9)] by decide),
    causing_mono t chainMemory [3] 3 fuel _
      (show causingLoop chainMemory 3 ∅ [] [3] = .done [(3, 7), (5, 9)] by decide)⟩

/-- C7 (as stated) fails: the call with the fact at the end of the chain
returns [(5, 9)]; whatever the fuel, it does not return {(3, 7), (5, 9)}. -/
theorem chain_end_is_not_both_pairs :
    (FactTracker.new 0).getConstraintsAndSplitsCausingFacts chainMemory 3 [2]
      = .done [(5, 9)] ∧
    ∀ fuel, (FactTracker.new 0).getConstraintsAndSplitsCausingFacts chainMemory fuel [2]
      ≠ .done [(3, 7), (5, 9)] := by
  refine ⟨by decide, ?_⟩
  intro fuel
  cases fuel with
  | zero => decide
  | succ n =>
    have h := causing_mono (FactTracker.new 0) chainMemory [2] 1 n [(5, 9)] (by decide)
    rw [Nat.add_comm] at h
    rw [h]
    decide

/-- C8. Every pair returned by `getConstraintsAndSplitsCausingFacts` is the
(constraint, split) pair of an object whose split level is not 0; so when
every fact of the input, and every fact reachable from it through
explanation lists, has split level 0, the returned list is empty. -/
theorem pure_axiom_no_provenance (t : FactTracker) (mem : Memory) (facts : List Ptr)
    (hlive : ∀ p, Frontier mem facts p → (mem.deref p).isSome = true)
    (fuel : Nat) (hfuel : facts.length + mem.edgeCount ≤ fuel) :
    ∃ r, t.getConstraintsAndSplitsCausingFacts mem fuel facts = .done r ∧
      (∀ pr ∈ r, ∃ p o, mem.deref p = some o ∧ o.getSplitLevelCausing ≠ 0 ∧
        pr = (o.getCausingConstraintID, o.getCausingSplitID)) ∧
      ((∀ p o, Reachable mem facts p → mem.deref p = some o → o.getSplitLevelCausing = 0) →
        r = []) := by
  obtain ⟨r, hr, _, hmem⟩ := causing_result t mem facts hlive fuel hfuel
  refine ⟨r, hr, ?_, ?_⟩
  · intro pr hpr
    obtain ⟨p, _, o, h1, _, h3, h4⟩ := (hmem pr).1 hpr
    exact ⟨p, o, h1, h3, h4⟩
  · intro hzero
    apply List.eq_nil_iff_forall_not_mem.2
    intro pr hpr
    obtain ⟨p, hp, o, h1, _, h3, _⟩ := (hmem pr).1 hpr
    exact h3 (hzero p o (Frontier.reachable p hp) h1)

/-- Witness of `pure_axiom_no_provenance`: the seeded fact at address 0 of
`chainMemory`. -/
theorem pure_axiom_no_provenance_witness :
    (∀ p, Frontier chainMemory [0] p → (chainMemory.deref p).isSome = true) ∧
    [0].length + chainMemory.edgeCount ≤ 10 ∧
    (FactTracker.new 0).getConstraintsAndSplitsCausingFacts chainMemory 10 [0] = .done [] ∧
    ∃ r, (FactTracker.new 0).getConstraintsAndSplitsCausingFacts chainMemory 10 [0] = .done r ∧
      (∀ pr ∈ r, ∃ p o, chainMemory.deref p = some o ∧ o.getSplitLevelCausing ≠ 0 ∧
        pr = (o.getCausingConstraintID, o.getCausingSplitID)) ∧
      ((∀ p o, Reachable chainMemory [0] p → chainMemory.deref p = some o →
          o.getSplitLevelCausing = 0) → r = []) :=
  ⟨Frontier.frontier_live chainMemory_closed (by unfold Memory.AllLive; decide),
    by decide, by decide,
    pure_axiom_no_provenance (FactTracker.new 0) chainMemory [0]
      (Frontier.frontier_live chainMemory_closed (by unfold Memory.AllLive; decide)) 10 (by decide)⟩

end SplitFrontier

section ExternalFacts

theorem getExternalFactsForBound_succ (t : FactTracker) (mem : Memory) (fuel : Nat)
    (fact : Ptr) :
    t.getExternalFactsForBound mem (fuel + 1) fact =
      match mem.deref fact with
      | none => .fault
      | some f =>
        externalLoop t mem (t.getExternalFactsForBound mem fuel) f.getExplanations ∅ := by
  rw [FactTracker.getExternalFactsForBound]

theorem Explains.of_deref {mem : Memory} {p q : Ptr} {o : FactObj}
    (ho : mem.deref p = some o) (hq : q ∈ o.getExplanations) : Explains mem p q := by
  simpa [Explains, Memory.explanationsAt, ho] using hq

theorem Explains.mem_of_deref {mem : Memory} {p q : Ptr} {o : FactObj}
    (ho : mem.deref p = some o) (hq : Explains mem p q) : q ∈ o.getExplanations := by
  simpa [Explains, Memory.explanationsAt, ho] using hq

/-- A local path can be extended at its end when the end is owned. -/
theorem LocalPath.snoc {t : FactTracker} {mem : Memory} {f m e : Ptr}
    (h : LocalPath t mem f m) (hm : Local t mem m) (he : Explains mem m e) :
    LocalPath t mem f e := by
  induction h with
  | edge f m hfm => exact LocalPath.through f m e hfm hm (LocalPath.edge m e he)
  | through f x m hfx hx _ ih => exact LocalPath.through f x e hfx hx (ih hm he)

/-- The loop over an explanation list: every explanation points to an object,
and the recursive call on an owned explanation is as `ExternalOk` says. -/
theorem externalLoop_ok (t : FactTracker) (mem : Memory) (l : List Ptr)
    (hl : ∀ x ∈ l, ∃ o, mem.deref x = some o ∧ (t.hasFact o = true → ExternalOk t mem x)) :
    ∀ acc : Finset Ptr, ∃ s : Finset Ptr,
      (∀ e, e ∈ s ↔ e ∈ acc ∨ ∃ x ∈ l,
        (Foreign t mem x ∧ e = x) ∨ (Local t mem x ∧ LocalPath t mem x e ∧ Foreign t mem e)) ∧
      ∃ fuel0, ∀ fuel, fuel0 ≤ fuel →
        externalLoop t mem (t.getExternalFactsForBound mem fuel) l acc = .done s := by
  induction l with
  | nil =>
    intro acc
    exact ⟨acc, by simp, 0, fun fuel _ => rfl⟩
  | cons x rest ih =>
    intro acc
    obtain ⟨o, ho, hrec⟩ := hl x (List.mem_cons_self _ _)
    have hrest : ∀ y ∈ rest, ∃ o, mem.deref y = some o ∧
        (t.hasFact o = true → ExternalOk t mem y) :=
      fun y hy => hl y (List.mem_cons_of_mem _ hy)
    cases hown : t.hasFact o with
    | false =>
      obtain ⟨s, hs, fuel0, hrun⟩ := ih hrest (insert x acc)
      refine ⟨s, ?_, fuel0, ?_⟩
      · intro e
        rw [hs]
        constructor
        · rintro (h | ⟨y, hy, h⟩)
          · rcases Finset.mem_insert.1 h with rfl | h
            · exact Or.inr ⟨e, List.mem_cons_self _ _, Or.inl ⟨⟨o, ho, hown⟩, rfl⟩⟩
            · exact Or.inl h
          · exact Or.inr ⟨y, List.mem_cons_of_mem _ hy, h⟩
        · rintro (h | ⟨y, hy, h⟩)
          · exact Or.inl (Finset.mem_insert_of_mem h)
          · rcases List.mem_cons.1 hy with rfl | hy
            · rcases h with ⟨_, rfl⟩ | ⟨⟨o1, ho1, hown1⟩, _⟩
              · exact Or.inl (Finset.mem_insert_self _ _)
              · rw [ho] at ho1
                cases ho1
                rw [hown] at hown1
                exact absurd hown1 (by simp)
            · exact Or.inr ⟨y, hy, h⟩
      · intro fuel hfuel
        rw [externalLoop, ho]
        simp only [hown, Bool.not_false, if_true]
        exact hrun fuel hfuel
    | true =>
      obtain ⟨inner, hinner, fuel1, hrun1⟩ := hrec hown
      obtain ⟨s, hs, fuel0, hrun⟩ := ih hrest (acc ∪ inner)
      refine ⟨s, ?_, max fuel0 fuel1, ?_⟩
      · intro e
        rw [hs]
        constructor
        · rintro (h | ⟨y, hy, h⟩)
          · rcases Finset.mem_union.1 h with h | h
            · exact Or.inl h
            · exact Or.inr ⟨x, List.mem_cons_self _ _,
                Or.inr ⟨⟨o, ho, hown⟩, (hinner e).1 h⟩⟩
          · exact Or.inr ⟨y, List.mem_cons_of_mem _ hy, h⟩
        · rintro (h | ⟨y, hy, h⟩)
          · exact Or.inl (Finset.mem_union_left _ h)
          · rcases List.mem_cons.1 hy with rfl | hy
            · rcases h with ⟨⟨o1, ho1, hown1⟩, _⟩ | ⟨_, hp⟩
              · rw [ho] at ho1
                cases ho1
                rw [hown] at hown1
                exact absurd hown1 (by simp)
              · exact Or.inl (Finset.mem_union_right _ ((hinner e).2 hp))
            · exact Or.inr ⟨y, hy, h⟩
      · intro fuel hfuel
        rw [externalLoop, ho]
        simp only [hown, Bool.not_true, Bool.false_eq_true, if_false]
        rw [hrun1 fuel (le_trans (le_max_right _ _) hfuel)]
        exact hrun fuel (le_trans (le_max_left _ _) hfuel)

/-- One level of the recursion. -/
theorem externalOk_node (t : FactTracker) (mem : Memory) (p : Ptr) (o : FactObj)
    (ho : mem.deref p = some o)
    (hl : ∀ x ∈ o.getExplanations, ∃ ox, mem.deref x = some ox ∧
      (t.hasFact ox = true → ExternalOk t mem x)) :
    ExternalOk t mem p := by
  obtain ⟨s, hs, fuel0, hrun⟩ := externalLoop_ok t mem o.getExplanations hl ∅
  refine ⟨s, ?_, fuel0 + 1, ?_⟩
  · intro e
    rw [hs]
    constructor
    · rintro (h | ⟨x, hx, h⟩)
      · exact absurd h (Finset.not_mem_empty _)
      · rcases h with ⟨hf, rfl⟩ | ⟨hloc, hp, hf⟩
        · exact ⟨LocalPath.edge p e (Explains.of_deref ho hx), hf⟩
        · exact ⟨LocalPath.through p x e (Explains.of_deref ho hx) hloc hp, hf⟩
    · rintro ⟨hp, hf⟩
      cases hp with
      | edge _ _ hpe => exact Or.inr ⟨e, Explains.mem_of_deref ho hpe, Or.inl ⟨hf, rfl⟩⟩
      | through _ m _ hpm hm hme =>
        exact Or.inr ⟨m, Explains.mem_of_deref ho hpm, Or.inr ⟨hm, hme, hf⟩⟩
  · intro fuel hfuel
    obtain ⟨k, rfl⟩ : ∃ k, fuel = k + 1 := ⟨fuel - 1, by omega⟩
    rw [getExternalFactsForBound_succ, ho]
    exact hrun k (by omega)

/-- Without a cycle through the facts the recursion visits, the descent is
well founded: the memory is finite. -/
theorem descends_wf (t : FactTracker) (mem : Memory) (F : Ptr)
    (hacyc : ∀ p, (p = F ∨ LocalPath t mem F p) → ¬ Relation.TransGen (Explains mem) p p) :
    WellFounded (Descends t mem F) := by
  have hirr : IsIrrefl (Fin mem.cells.length) (Relation.TransGen (Descends t mem F)) := by
    constructor
    intro x h
    have hent : Entered t mem F x.val := by
      cases h with
      | single hr => exact hr.1
      | tail _ hr => exact hr.1
    have hswap : Relation.TransGen (Function.swap (Explains mem)) x.val x.val :=
      h.lift Fin.val (fun a b hab => hab.2)
    have hcyc : Relation.TransGen (Explains mem) x.val x.val := Relation.transGen_swap.1 hswap
    refine hacyc x.val ?_ hcyc
    rcases hent with h1 | ⟨h1, _⟩
    · exact Or.inl h1
    · exact Or.inr h1
  have hwf := Finite.wellFounded_of_trans_of_irrefl (Relation.TransGen (Descends t mem F))
  exact Subrelation.wf (fun h => Relation.TransGen.single h) hwf

/-- The result of `getExternalFactsForBound(F)` when the facts it visits are
objects of the memory and lie on no cycle. -/
theorem externalOk_of_acyclic (t : FactTracker) (mem : Memory) (F : Ptr)
    (hF : (mem.deref F).isSome = true)
    (hlive : ∀ e, LocalPath t mem F e → (mem.deref e).isSome = true)
    (hacyc : ∀ p, (p = F ∨ LocalPath t mem F p) → ¬ Relation.TransGen (Explains mem) p p) :
    ExternalOk t mem F := by
  have key : ∀ x : Fin mem.cells.length, Entered t mem F x.val → ExternalOk t mem x.val := by
    intro x
    induction x using (descends_wf t mem F hacyc).induction with
    | _ x ih =>
      intro hx
      have hxl : (mem.deref x.val).isSome = true := by
        rcases hx with h1 | ⟨h1, _⟩
        · rw [h1]; exact hF
        · exact hlive _ h1
      obtain ⟨o, ho⟩ := Option.isSome_iff_exists.1 hxl
      apply externalOk_node t mem x.val o ho
      intro y hy
      have hxy : Explains mem x.val y := Explains.of_deref ho hy
      have hpath : LocalPath t mem F y := by
        rcases hx with h1 | ⟨h1, hloc⟩
        · rw [← h1]; exact LocalPath.edge _ _ hxy
        · exact h1.snoc hloc hxy
      obtain ⟨oy, hoy⟩ := Option.isSome_iff_exists.1 (hlive y hpath)
      refine ⟨oy, hoy, fun hown => ?_⟩
      exact ih ⟨y, Memory.lt_of_deref hoy⟩ ⟨hx, hxy⟩ (Or.inr ⟨hpath, oy, hoy, hown⟩)
  obtain ⟨oF, hoF⟩ := Option.isSome_iff_exists.1 hF
  exact key ⟨F, Memory.lt_of_deref hoF⟩ (Or.inl rfl)

theorem Explains.lt_length {mem : Memory} {p q : Ptr} (h : Explains mem p q) :
    p < mem.cells.length := by
  unfold Explains Memory.explanationsAt at h
  cases ho : mem.deref p with
  | none => simp [ho] at h
  | some o => exact Memory.lt_of_deref ho

theorem Memory.Closed.live_of_explains {mem : Memory} (hc : mem.Closed) {p q : Ptr}
    (h : Explains mem p q) : (mem.deref q).isSome = true :=
  hc p (List.mem_range.2 h.lt_length) q h

theorem LocalPath.end_live {t : FactTracker} {mem : Memory} (hc : mem.Closed)
    {f e : Ptr} (h : LocalPath t mem f e) : (mem.deref e).isSome = true := by
  induction h with
  | edge f e hfe => exact hc.live_of_explains hfe
  | through _ _ _ _ _ _ ih => exact ih

theorem Memory.Decreasing.acyclic {mem : Memory} (hd : mem.Decreasing) :
    ∀ p, ¬ Relation.TransGen (Explains mem) p p := by
  have hlt : ∀ p q, Relation.TransGen (Explains mem) p q → q < p := by
    intro p q h
    induction h with
    | single h1 => exact hd _ (List.mem_range.2 h1.lt_length) _ h1
    | tail _ h2 ih => exact lt_trans (hd _ (List.mem_range.2 h2.lt_length) _ h2) ih
  intro p h
  exact lt_irrefl p (hlt p p h)

theorem boundaryMemory_closed : boundaryMemory.Closed := by
  unfold Memory.Closed
  decide

theorem boundaryMemory_decreasing : boundaryMemory.Decreasing := by
  unfold Memory.Decreasing
  decide

/-- More fuel does not change a result of the loop, when it does not change
a result of the recursive call. -/
theorem externalLoop_mono (t : FactTracker) (mem : Memory)
    (rec1 rec2 : Ptr → Run (Finset Ptr))
    (hrec : ∀ x s, rec1 x = .done s → rec2 x = .done s) :
    ∀ (l : List Ptr) (acc s : Finset Ptr),
      externalLoop t mem rec1 l acc = .done s → externalLoop t mem rec2 l acc = .done s := by
  intro l
  induction l with
  | nil => intro acc s h; exact h
  | cons x rest ih =>
    intro acc s h
    rw [externalLoop] at h ⊢
    cases ho : mem.deref x with
    | none => rw [ho] at h; simp at h
    | some o =>
      rw [ho] at h
      simp only at h ⊢
      by_cases hown : t.hasFact o = true
      · simp only [hown, Bool.not_true, Bool.false_eq_true, if_false] at h ⊢
        cases h1 : rec1 x with
        | done inner =>
          rw [h1] at h
          rw [hrec x inner h1]
          exact ih _ _ h
        | fault => rw [h1] at h; simp at h
        | outOfFuel => rw [h1] at h; simp at h
      · simp only [hown, Bool.not_false, if_true] at h ⊢
        exact ih _ _ h

theorem getExternalFactsForBound_mono (t : FactTracker) (mem : Memory) (k : Nat) :
    ∀ (fuel : Nat) (fact : Ptr) (s : Finset Ptr),
      t.getExternalFactsForBound mem fuel fact = .done s →
      t.getExternalFactsForBound mem (fuel + k) fact = .done s := by
  intro fuel
  induction fuel with
  | zero => intro fact s h; simp [FactTracker.getExternalFactsForBound] at h
  | succ fuel ih =>
    intro fact s h
    have e : fuel + 1 + k = (fuel + k) + 1 := by omega
    rw [e, getExternalFactsForBound_succ]
    rw [getExternalFactsForBound_succ] at h
    cases ho : mem.deref fact with
    | none => rw [ho] at h; simp at h
    | some o =>
      rw [ho] at h
      simp only at h ⊢
      exact externalLoop_mono t mem _ _ (fun x s1 h1 => ih x s1 h1) _ _ _ h

/-- C9. External-fact extraction: when `F` and the facts at the end of the
local paths from `F` are objects of the memory and none of them lies on a
cycle of explanation edges, `getExternalFactsForBound(F)` returns, for every
fuel from some point on, exactly the set of the facts `e` that are not owned
by the tracker and are the end of a path of one or more explanation edges
from `F` whose intermediate facts are all owned by it; every returned fact is
foreign. For the fact `F` of `boundaryMemory`, with the foreign explanation
`X` (address 1) and the local explanation `L` explained by the foreign `G`
(address 0) only, the result is exactly {X, G}. -/
theorem external_fact_extraction (t : FactTracker) (mem : Memory) (F : Ptr)
    (hF : (mem.deref F).isSome = true)
    (hlive : ∀ e, LocalPath t mem F e → (mem.deref e).isSome = true)
    (hacyc : ∀ p, (p = F ∨ LocalPath t mem F p) → ¬ Relation.TransGen (Explains mem) p p) :
    (∃ s : Finset Ptr,
      (∀ e, e ∈ s ↔
        (∃ o, mem.deref e = some o ∧ t.hasFact o = false) ∧ LocalPath t mem F e) ∧
      (∀ e ∈ s, ∃ o, mem.deref e = some o ∧ t.hasFact o = false) ∧
      ∃ fuel0, ∀ fuel, fuel0 ≤ fuel → t.getExternalFactsForBound mem fuel F = .done s) ∧
    (∀ fuel, (FactTracker.new 1).getExternalFactsForBound boundaryMemory (2 + fuel) 3
      = .done {1, 0}) := by
  constructor
  · obtain ⟨s, hs, hrun⟩ := externalOk_of_acyclic t mem F hF hlive hacyc
    refine ⟨s, ?_, ?_, hrun⟩
    · intro e
      rw [hs]
      exact ⟨fun h => ⟨h.2, h.1⟩, fun h => ⟨h.2, h.1⟩⟩
    · intro e he
      exact ((hs e).1 he).2
  · intro fuel
    have h2 : (FactTracker.new 1).getExternalFactsForBound boundaryMemory 2 3
        = .done ({1} ∪ {0}) := rfl
    have hset : (({1} ∪ {0} : Finset Ptr)) = {1, 0} := by decide
    rw [hset] at h2
    exact getExternalFactsForBound_mono _ _ fuel 2 3 _ h2

/-- Witness of `external_fact_extraction`: tracker 1 and the fact `F` at
address 3 of `boundaryMemory`. -/
theorem external_fact_extraction_witness :
    (boundaryMemory.deref 3).isSome = true ∧
    (∀ e, LocalPath (FactTracker.new 1) boundaryMemory 3 e →
      (boundaryMemory.deref e).isSome = true) ∧
    (∀ p, (p = 3 ∨ LocalPath (FactTracker.new 1) boundaryMemory 3 p) →
      ¬ Relation.TransGen (Explains boundaryMemory) p p) ∧
    ∃ s : Finset Ptr,
      (∀ e, e ∈ s ↔
        (∃ o, boundaryMemory.deref e = some o ∧ (FactTracker.new 1).hasFact o = false) ∧
          LocalPath (FactTracker.new 1) boundaryMemory 3 e) ∧
      (∀ e ∈ s, ∃ o, boundaryMemory.deref e = some o ∧
        (FactTracker.new 1).hasFact o = false) ∧
      ∃ fuel0, ∀ fuel, fuel0 ≤ fuel →
        (FactTracker.new 1).getExternalFactsForBound boundaryMemory fuel 3 = .done s :=
  ⟨by decide, fun _ h => h.end_live boundaryMemory_closed,
    fun p _ => boundaryMemory_decreasing.acyclic p,
    (external_fact_extraction (FactTracker.new 1) boundaryMemory 3 (by decide)
      (fun _ h => h.end_live boundaryMemory_closed)
      (fun p _ => boundaryMemory_decreasing.acyclic p)).1⟩

end ExternalFacts

section SeedingCount

open FactTracker

theorem applyAdd_log (st : Memory × FactTracker) (c : AddCall) :
    (applyAdd st c).2._factsLearned = c.key :: st.2._factsLearned := by
  cases c with
  | bound var b =>
    show (st.2.addBoundFact st.1 var b).2._factsLearned = _
    by_cases hb : b._type = .LB
    · rw [FactTracker.addBoundFact_LB _ _ _ _ hb]; simp [AddCall.key, kindOf, hb]
    · rw [FactTracker.addBoundFact_UB _ _ _ _ hb]; simp [AddCall.key, kindOf, hb]
  | equation equNumber equ => rfl

/-- The undo log after a sequence of add calls: their keys, latest first,
above the log before. -/
theorem applyAdds_log (calls : List AddCall) :
    ∀ st : Memory × FactTracker,
      (applyAdds st calls).2._factsLearned
        = (calls.map AddCall.key).reverse ++ st.2._factsLearned := by
  induction calls with
  | nil => intro st; rfl
  | cons c cs ih =>
    intro st
    show (applyAdds (applyAdd st c) cs).2._factsLearned = _
    rw [ih, applyAdd_log]
    simp

theorem seedCalls_keys (tableau : ITableau) :
    (seedCalls tableau).map AddCall.key = seedKeys tableau := by
  unfold seedCalls seedKeys
  simp only [List.map_append, List.map_flatten, List.map_map]
  rfl

theorem seedKeys_length (tableau : ITableau) :
    (seedKeys tableau).length = 2 * tableau.getN + tableau.getM := by
  unfold seedKeys
  simp only [List.length_append, List.length_map, List.length_range, List.length_flatten,
    List.map_map]
  have : ((fun l : List (Nat × BoundType) => l.length) ∘
      fun var => [(var, BoundType.LB), (var, BoundType.UB)]) = fun _ => 2 := rfl
  rw [this]
  simp
  omega

theorem mem_seedKeys (tableau : ITableau) (k : Nat) (kind : BoundType) :
    (k, kind) ∈ seedKeys tableau ↔
      (kind = .EQU ∧ k < tableau.getM) ∨ (kind ≠ .EQU ∧ k < tableau.getN) := by
  unfold seedKeys
  simp only [List.mem_append, List.mem_flatten, List.mem_map, List.mem_range]
  constructor
  · rintro (⟨l, ⟨v, hv, rfl⟩, hl⟩ | ⟨e, he, heq⟩)
    · simp only [List.mem_cons, Prod.mk.injEq, List.mem_singleton, List.not_mem_nil,
        or_false] at hl
      rcases hl with ⟨rfl, rfl⟩ | ⟨rfl, rfl⟩
      · exact Or.inr ⟨by simp, hv⟩
      · exact Or.inr ⟨by simp, hv⟩
    · simp only [Prod.mk.injEq] at heq
      obtain ⟨rfl, rfl⟩ := heq
      exact Or.inl ⟨rfl, he⟩
  · rintro (⟨rfl, hk⟩ | ⟨hne, hk⟩)
    · exact Or.inr ⟨k, hk, rfl⟩
    · refine Or.inl ⟨_, ⟨k, hk, rfl⟩, ?_⟩
      cases kind with
      | LB => simp
      | UB => simp
      | EQU => exact absurd rfl hne

theorem seedKeys_count (tableau : ITableau) :
    ((seedKeys tableau).filter (fun e => decide (e.2 = BoundType.EQU))).length = tableau.getM ∧
    ((seedKeys tableau).filter (fun e => decide (e.2 ≠ BoundType.EQU))).length
      = 2 * tableau.getN := by
  have hb : ∀ (n : Nat) (q : Nat × BoundType → Bool),
      (∀ v, q (v, BoundType.LB) = true ∧ q (v, BoundType.UB) = true) →
      (((List.range n).map (fun var => [(var, BoundType.LB), (var, BoundType.UB)])).flatten.filter
        q).length = 2 * n := by
    intro n q hq
    have hall : ∀ e ∈ ((List.range n).map
        (fun var => [(var, BoundType.LB), (var, BoundType.UB)])).flatten, q e = true := by
      intro e he
      simp only [List.mem_flatten, List.mem_map, List.mem_range] at he
      obtain ⟨l, ⟨v, _, rfl⟩, hl⟩ := he
      simp only [List.mem_cons, List.mem_singleton, List.not_mem_nil, or_false] at hl
      rcases hl with rfl | rfl
      · exact (hq v).1
      · exact (hq v).2
    rw [List.filter_eq_self.2 hall]
    simp only [List.length_flatten, List.map_map]
    have : ((fun l : List (Nat × BoundType) => l.length) ∘
        fun var => [(var, BoundType.LB), (var, BoundType.UB)]) = fun _ => 2 := rfl
    rw [this]
    simp
    omega
  have hb0 : ∀ (n : Nat) (q : Nat × BoundType → Bool),
      (∀ v, q (v, BoundType.LB) = false ∧ q (v, BoundType.UB) = false) →
      ((List.range n).map (fun var => [(var, BoundType.LB), (var, BoundType.UB)])).flatten.filter
        q = [] := by
    intro n q hq
    rw [List.filter_eq_nil_iff]
    intro e he
    simp only [List.mem_flatten, List.mem_map, List.mem_range] at he
    obtain ⟨l, ⟨v, _, rfl⟩, hl⟩ := he
    simp only [List.mem_cons, List.mem_singleton, List.not_mem_nil, or_false] at hl
    rcases hl with rfl | rfl
    · simp [(hq v).1]
    · simp [(hq v).2]
  unfold seedKeys
  simp only [List.filter_append, List.length_append]
  constructor
  · rw [hb0 _ _ (fun v => by simp)]
    rw [List.filter_eq_self.2 (by simp)]
    simp
  · rw [hb _ _ (fun v => by simp)]
    rw [List.filter_eq_nil_iff.2 (by simp)]
    simp

/-- The existence queries of a tracker that holds the additions `h`: a key
has a fact exactly when it occurs in the undo log. -/
theorem Rep.has_iff {h : List LogEntry} {mem : Memory} {t : FactTracker} (r : Rep h mem t)
    (k : Nat) :
    (t.hasFactAffectingBound k .LB = true ↔ (k, BoundType.LB) ∈ t._factsLearned) ∧
    (t.hasFactAffectingBound k .UB = true ↔ (k, BoundType.UB) ∈ t._factsLearned) ∧
    (t.hasFactAffectingEquation k = true ↔ (k, BoundType.EQU) ∈ t._factsLearned) := by
  have hq : ∀ (m : Map (Stack Ptr)),
      (m.existsKey k && !(m.stackAt k).isEmpty) = !(m.stackAt k).isEmpty := by
    intro m
    unfold Map.existsKey Map.stackAt
    cases m.find k <;> simp
  have hs : ∀ kind, (!(stackOf h k kind).isEmpty) = true ↔
      (k, kind) ∈ h.map (fun e => (e.key, e.kind)) := by
    intro kind
    unfold stackOf
    simp only [Bool.not_eq_true', List.isEmpty_eq_false, ne_eq, List.map_eq_nil_iff,
      List.filter_eq_nil_iff, decide_eq_true_eq, not_forall, not_not, List.mem_map,
      Prod.mk.injEq, exists_prop]
  refine ⟨?_, ?_, ?_⟩
  · rw [FactTracker.hasFactAffectingBound, if_pos rfl, hq, r.lower, r.log]
    exact hs _
  · rw [FactTracker.hasFactAffectingBound, if_neg (by decide), hq, r.upper, r.log]
    exact hs _
  · rw [FactTracker.hasFactAffectingEquation, hq, r.equation, r.log]
    exact hs _

/-- The undo log after seeding an empty tracker. -/
theorem seeded_log (self : Nat) (mem : Memory) (tableau : ITableau) :
    ((FactTracker.new self).initializeFromTableau mem tableau).2._factsLearned
      = (seedKeys tableau).reverse := by
  rw [FactTracker.initializeFromTableau_eq, applyAdds_log, seedCalls_keys]
  simp [FactTracker.new]

/-- The additions held after seeding an empty tracker. -/
theorem seeded_rep (self : Nat) (mem : Memory) (tableau : ITableau) :
    ∃ h, Rep h ((FactTracker.new self).initializeFromTableau mem tableau).1
        ((FactTracker.new self).initializeFromTableau mem tableau).2 ∧
      h.length = 2 * tableau.getN + tableau.getM := by
  rw [FactTracker.initializeFromTableau_eq]
  obtain ⟨h, r, hl, _⟩ := (Rep.of_new self mem).after_adds (seedCalls tableau)
  refine ⟨h, r, ?_⟩
  rw [hl, ← seedKeys_length, ← seedCalls_keys]
  simp

/-- C10. Seeding count and coverage: `initializeFromTableau` on an empty
tracker records exactly `2N + M` facts (undo-log entries and owned facts), of
which `2N` are bound facts and `M` are equation facts; `getNumFacts()`
returns that number as an `unsigned` (`2N + M` itself whenever it is below
`2 ^ 32`); afterwards a lower-bound and an upper-bound fact exist exactly for
the variables `v < N` and an equation fact exactly for the rows `e < M`. -/
theorem seeding_count_and_coverage (self : Nat) (mem : Memory) (tableau : ITableau) :
    ((FactTracker.new self).initializeFromTableau mem tableau).2._factsLearned.length
      = 2 * tableau.getN + tableau.getM ∧
    ((FactTracker.new self).initializeFromTableau mem tableau).2._factsLearnedSet.card
      = 2 * tableau.getN + tableau.getM ∧
    (((FactTracker.new self).initializeFromTableau mem tableau).2._factsLearned.filter
      (fun e => decide (e.2 ≠ FactTracker.BoundType.EQU))).length = 2 * tableau.getN ∧
    (((FactTracker.new self).initializeFromTableau mem tableau).2._factsLearned.filter
      (fun e => decide (e.2 = FactTracker.BoundType.EQU))).length = tableau.getM ∧
    ((FactTracker.new self).initializeFromTableau mem tableau).2.getNumFacts
      = (2 * tableau.getN + tableau.getM) % 2 ^ 32 ∧
    (2 * tableau.getN + tableau.getM < 2 ^ 32 →
      ((FactTracker.new self).initializeFromTableau mem tableau).2.getNumFacts
        = 2 * tableau.getN + tableau.getM) ∧
    ∀ k,
      (((FactTracker.new self).initializeFromTableau mem tableau).2.hasFactAffectingBound k .LB
        = true ↔ k < tableau.getN) ∧
      (((FactTracker.new self).initializeFromTableau mem tableau).2.hasFactAffectingBound k .UB
        = true ↔ k < tableau.getN) ∧
      (((FactTracker.new self).initializeFromTableau mem tableau).2.hasFactAffectingEquation k
        = true ↔ k < tableau.getM) := by
  obtain ⟨h, r, hl⟩ := seeded_rep self mem tableau
  have hlog := seeded_log self mem tableau
  have hlen : ((FactTracker.new self).initializeFromTableau mem tableau).2._factsLearned.length
      = 2 * tableau.getN + tableau.getM := by
    rw [hlog, List.length_reverse, seedKeys_length]
  have hnum : ((FactTracker.new self).initializeFromTableau mem tableau).2.getNumFacts
      = (2 * tableau.getN + tableau.getM) % 2 ^ 32 := by
    rw [FactTracker.getNumFacts, hlen]
  refine ⟨hlen, ?_, ?_, ?_, hnum, ?_, ?_⟩
  · rw [r.owned, List.toFinset_card_of_nodup r.nodup, List.length_map, hl]
  · rw [hlog, List.filter_reverse, List.length_reverse]
    exact (seedKeys_count tableau).2
  · rw [hlog, List.filter_reverse, List.length_reverse]
    exact (seedKeys_count tableau).1
  · intro hsmall
    rw [hnum, Nat.mod_eq_of_lt hsmall]
  · intro k
    obtain ⟨h1, h2, h3⟩ := r.has_iff k
    rw [h1, h2, h3, hlog]
    simp only [List.mem_reverse, mem_seedKeys]
    refine ⟨?_, ?_, ?_⟩ <;> simp

/-- Witness of `seeding_count_and_coverage`: a tableau with two variables and
one row gives four bound facts and one equation fact. -/
theorem seeding_count_and_coverage_witness :
    2 * smallTableau.getN + smallTableau.getM < 2 ^ 32 ∧
    ((FactTracker.new 0).initializeFromTableau emptyMemory smallTableau).2.getNumFacts = 5 ∧
    (((FactTracker.new 0).initializeFromTableau emptyMemory smallTableau).2._factsLearned.filter
      (fun e => decide (e.2 ≠ FactTracker.BoundType.EQU))).length = 4 ∧
    (((FactTracker.new 0).initializeFromTableau emptyMemory smallTableau).2._factsLearned.filter
      (fun e => decide (e.2 = FactTracker.BoundType.EQU))).length = 1 :=
  ⟨by decide,
    (seeding_count_and_coverage 0 emptyMemory smallTableau).2.2.2.2.2.1 (by decide),
    (seeding_count_and_coverage 0 emptyMemory smallTableau).2.2.1,
    (seeding_count_and_coverage 0 emptyMemory smallTableau).2.2.2.1⟩

end SeedingCount

section Failures

open FactTracker

/-- C12. `popFact` on an empty tracker is a precondition violation: when
`getNumFacts()` is 0 (the size of the undo log being one that an `unsigned`
holds), the undo log is empty and `popFact` fails at its first statement; the
failure is raised in the very state of the call, so no per-key stack, the
owned set, the undo log and the memory are unchanged. -/
theorem popFact_on_empty_fails (t : FactTracker) (mem : Memory)
    (h0 : t.getNumFacts = 0) (hsize : t._factsLearned.length < 2 ^ 32) :
    t._factsLearned = [] ∧ t.popFact mem = .error (.STACK_IS_EMPTY, mem, t) := by
  have hlen : t._factsLearned.length = 0 := by
    unfold FactTracker.getNumFacts at h0
    rw [Nat.mod_eq_of_lt hsize] at h0
    exact h0
  have hnil : t._factsLearned = [] := List.length_eq_zero.1 hlen
  refine ⟨hnil, ?_⟩
  unfold FactTracker.popFact
  rw [hnil]

/-- Witness of `popFact_on_empty_fails`: a newly constructed tracker. -/
theorem popFact_on_empty_fails_witness :
    (FactTracker.new 0).getNumFacts = 0 ∧
    (FactTracker.new 0)._factsLearned.length < 2 ^ 32 ∧
    (FactTracker.new 0).popFact emptyMemory
      = .error (.STACK_IS_EMPTY, emptyMemory, FactTracker.new 0) :=
  ⟨by decide, by decide,
    (popFact_on_empty_fails (FactTracker.new 0) emptyMemory (by decide) (by decide)).2⟩

/-- What the two queries of a key answer, by the entry of the mapping. -/
theorem FactTracker.query_cases (m : Map (Stack Ptr)) (k : Nat) :
    ((m.existsKey k && !(m.stackAt k).isEmpty) = false →
      ∃ e, (match m.at k with
        | .error e => Except.error e
        | .ok temp => Stack.top temp) = (Except.error e : Except Failure Ptr)) ∧
    ((m.existsKey k && !(m.stackAt k).isEmpty) = true →
      ∃ p, (match m.at k with
        | .error e => Except.error e
        | .ok temp => Stack.top temp) = (Except.ok p : Except Failure Ptr)) := by
  unfold Map.existsKey Map.stackAt Map.at
  cases hf : m.find k with
  | none => simp
  | some v =>
    cases v with
    | nil => simp [Stack.top]
    | cons a l => simp [Stack.top]

/-- C13. Querying a key with no recorded fact fails: in every tracker state,
when `hasFactAffectingBound(var, kind)` is false `getFactAffectingBound(var,
kind)` fails, and when it is true it returns a fact; likewise for the
equation queries. A key never added fails as an absent key, a key whose facts
were all popped fails on its empty stack. -/
theorem query_without_fact_fails (t : FactTracker) (var : Nat) (type : BoundType)
    (equNumber : Nat) :
    (t.hasFactAffectingBound var type = false →
      ∃ e, t.getFactAffectingBound var type = .error e) ∧
    (t.hasFactAffectingBound var type = true →
      ∃ p, t.getFactAffectingBound var type = .ok p) ∧
    (t.hasFactAffectingEquation equNumber = false →
      ∃ e, t.getFactAffectingEquation equNumber = .error e) ∧
    (t.hasFactAffectingEquation equNumber = true →
      ∃ p, t.getFactAffectingEquation equNumber = .ok p) ∧
    (∀ self,
      (FactTracker.new self).hasFactAffectingBound var type = false ∧
      (FactTracker.new self).getFactAffectingBound var type
        = .error .KEY_DOESNT_EXIST_IN_MAP ∧
      (FactTracker.new self).hasFactAffectingEquation equNumber = false ∧
      (FactTracker.new self).getFactAffectingEquation equNumber
        = .error .KEY_DOESNT_EXIST_IN_MAP) ∧
    (∀ self mem bound, ∃ st,
      ((FactTracker.new self).addBoundFact mem var bound).2.popFact
        ((FactTracker.new self).addBoundFact mem var bound).1 = .ok st ∧
      st.2.hasFactAffectingBound var (kindOf bound) = false ∧
      st.2.getFactAffectingBound var (kindOf bound) = .error .STACK_IS_EMPTY) ∧
    (∀ self mem equ, ∃ st,
      ((FactTracker.new self).addEquationFact mem equNumber equ).2.popFact
        ((FactTracker.new self).addEquationFact mem equNumber equ).1 = .ok st ∧
      st.2.hasFactAffectingEquation equNumber = false ∧
      st.2.getFactAffectingEquation equNumber = .error .STACK_IS_EMPTY) := by
  refine ⟨?_, ?_, ?_, ?_, ?_, ?_, ?_⟩
  · unfold FactTracker.hasFactAffectingBound FactTracker.getFactAffectingBound
    by_cases hty : type = .LB
    · rw [if_pos hty, if_pos hty]; exact (FactTracker.query_cases _ _).1
    · rw [if_neg hty, if_neg hty]; exact (FactTracker.query_cases _ _).1
  · unfold FactTracker.hasFactAffectingBound FactTracker.getFactAffectingBound
    by_cases hty : type = .LB
    · rw [if_pos hty, if_pos hty]; exact (FactTracker.query_cases _ _).2
    · rw [if_neg hty, if_neg hty]; exact (FactTracker.query_cases _ _).2
  · exact (FactTracker.query_cases _ _).1
  · exact (FactTracker.query_cases _ _).2
  · intro self
    refine ⟨?_, ?_, rfl, rfl⟩
    · cases type <;> rfl
    · cases type <;> rfl
  · intro self mem bound
    refine ⟨_, FactTracker.popFact_addBoundFact (FactTracker.new self) mem
      (ownedLive_new self mem) var bound, ?_, ?_⟩
    · by_cases hb : bound._type = .LB
      · simp [kindOf, hb, FactTracker.touchKey, FactTracker.hasFactAffectingBound,
          FactTracker.new, Map.touch, Map.empty, Map.existsKey, Map.stackAt, Map.set]
      · simp [kindOf, hb, FactTracker.touchKey, FactTracker.hasFactAffectingBound,
          FactTracker.new, Map.touch, Map.empty, Map.existsKey, Map.stackAt, Map.set]
    · by_cases hb : bound._type = .LB
      · simp [kindOf, hb, FactTracker.touchKey, FactTracker.getFactAffectingBound,
          FactTracker.new, Map.touch, Map.empty, Map.at, Map.set, Stack.top]
      · simp [kindOf, hb, FactTracker.touchKey, FactTracker.getFactAffectingBound,
          FactTracker.new, Map.touch, Map.empty, Map.at, Map.set, Stack.top]
  · intro self mem equ
    refine ⟨_, FactTracker.popFact_addEquationFact (FactTracker.new self) mem
      (ownedLive_new self mem) equNumber equ, ?_, ?_⟩
    · simp [FactTracker.touchKey, FactTracker.hasFactAffectingEquation,
        FactTracker.new, Map.touch, Map.empty, Map.existsKey, Map.stackAt, Map.set]
    · simp [FactTracker.touchKey, FactTracker.getFactAffectingEquation,
        FactTracker.new, Map.touch, Map.empty, Map.at, Map.set, Stack.top]

/-- Witness of `query_without_fact_fails`: the key (0, LB) and the equation
key 0 of a newly constructed tracker. -/
theorem query_without_fact_fails_witness :
    (FactTracker.new 0).hasFactAffectingBound 0 .LB = false ∧
    (FactTracker.new 0).hasFactAffectingEquation 0 = false ∧
    (∃ e, (FactTracker.new 0).getFactAffectingBound 0 .LB = .error e) ∧
    (∃ e, (FactTracker.new 0).getFactAffectingEquation 0 = .error e) :=
  ⟨rfl, rfl,
    (query_without_fact_fails (FactTracker.new 0) 0 .LB 0).1 rfl,
    (query_without_fact_fails (FactTracker.new 0) 0 .LB 0).2.2.1 rfl⟩

end Failures

section Frame

open FactTracker

/-- A bound query reads only the entry of its key in the mapping of its kind. -/
theorem FactTracker.bound_query_congr (t1 t2 : FactTracker) (var : Nat) (type : BoundType)
    (hl : readKind type = .LB → t1._lowerBoundFact.find var = t2._lowerBoundFact.find var)
    (hu : readKind type = .UB → t1._upperBoundFact.find var = t2._upperBoundFact.find var) :
    t1.hasFactAffectingBound var type = t2.hasFactAffectingBound var type ∧
    t1.getFactAffectingBound var type = t2.getFactAffectingBound var type := by
  unfold FactTracker.hasFactAffectingBound FactTracker.getFactAffectingBound
  by_cases hty : type = .LB
  · have h := hl (by rw [hty]; rfl)
    simp only [if_pos hty, Map.existsKey, Map.stackAt, Map.at, h, and_self]
  · have h := hu (by cases type <;> simp_all [readKind])
    simp only [if_neg hty, Map.existsKey, Map.stackAt, Map.at, h, and_self]

/-- An equation query reads only the entry of its key. -/
theorem FactTracker.equation_query_congr (t1 t2 : FactTracker) (equNumber : Nat)
    (h : t1._equationFact.find equNumber = t2._equationFact.find equNumber) :
    t1.hasFactAffectingEquation equNumber = t2.hasFactAffectingEquation equNumber ∧
    t1.getFactAffectingEquation equNumber = t2.getFactAffectingEquation equNumber := by
  unfold FactTracker.hasFactAffectingEquation FactTracker.getFactAffectingEquation
  simp only [Map.existsKey, Map.stackAt, Map.at, h, and_self]

/-- The entries of the three mappings that `addBoundFact` leaves as they are. -/
theorem FactTracker.addBoundFact_find (t : FactTracker) (mem : Memory) (var : Nat)
    (bound : Tightening) (j : Nat) :
    ((j, BoundType.LB) ≠ (var, kindOf bound) →
      (t.addBoundFact mem var bound).2._lowerBoundFact.find j = t._lowerBoundFact.find j) ∧
    ((j, BoundType.UB) ≠ (var, kindOf bound) →
      (t.addBoundFact mem var bound).2._upperBoundFact.find j = t._upperBoundFact.find j) ∧
    (t.addBoundFact mem var bound).2._equationFact.find j = t._equationFact.find j := by
  by_cases hb : bound._type = .LB
  · rw [FactTracker.addBoundFact_LB t mem var bound hb]
    refine ⟨?_, fun _ => rfl, rfl⟩
    intro hne
    have hj : ¬ j = var := fun e => hne (by simp [kindOf, hb, e])
    simp only [FactTracker.find_pushOn, if_neg hj]
  · rw [FactTracker.addBoundFact_UB t mem var bound hb]
    refine ⟨fun _ => rfl, ?_, rfl⟩
    intro hne
    have hj : ¬ j = var := fun e => hne (by simp [kindOf, hb, e])
    simp only [FactTracker.find_pushOn, if_neg hj]

/-- The entries of the three mappings that a successful `popFact` leaves as
they are. -/
theorem FactTracker.popFact_find (t : FactTracker) (mem : Memory) (k : Nat) (kind : BoundType)
    (rest : Stack (Nat × BoundType)) (st : Memory × FactTracker)
    (hlog : t._factsLearned = (k, kind) :: rest) (hpop : t.popFact mem = .ok st) (j : Nat) :
    ((j, BoundType.LB) ≠ (k, kind) → st.2._lowerBoundFact.find j = t._lowerBoundFact.find j) ∧
    ((j, BoundType.UB) ≠ (k, kind) → st.2._upperBoundFact.find j = t._upperBoundFact.find j) ∧
    ((j, BoundType.EQU) ≠ (k, kind) → st.2._equationFact.find j = t._equationFact.find j) := by
  unfold FactTracker.popFact at hpop
  rw [hlog] at hpop
  cases kind with
  | LB =>
    simp only [Map.stackAt_touch, Map.set_touch] at hpop
    cases hs : t._lowerBoundFact.stackAt k with
    | nil => rw [hs] at hpop; simp at hpop
    | cons p below =>
      rw [hs] at hpop
      simp only [Except.ok.injEq] at hpop
      subst hpop
      refine ⟨?_, fun _ => rfl, fun _ => rfl⟩
      intro hne
      have hj : ¬ j = k := fun e => hne (by rw [e])
      simp only [Map.find_set, if_neg hj]
  | UB =>
    simp only [Map.stackAt_touch, Map.set_touch] at hpop
    cases hs : t._upperBoundFact.stackAt k with
    | nil => rw [hs] at hpop; simp at hpop
    | cons p below =>
      rw [hs] at hpop
      simp only [Except.ok.injEq] at hpop
      subst hpop
      refine ⟨fun _ => rfl, ?_, fun _ => rfl⟩
      intro hne
      have hj : ¬ j = k := fun e => hne (by rw [e])
      simp only [Map.find_set, if_neg hj]
  | EQU =>
    simp only [Map.stackAt_touch, Map.set_touch] at hpop
    cases hs : t._equationFact.stackAt k with
    | nil => rw [hs] at hpop; simp at hpop
    | cons p below =>
      rw [hs] at hpop
      simp only [Except.ok.injEq] at hpop
      subst hpop
      refine ⟨fun _ => rfl, fun _ => rfl, ?_⟩
      intro hne
      have hj : ¬ j = k := fun e => hne (by rw [e])
      simp only [Map.find_set, if_neg hj]

/-- C19 (amended). Adds touch only the mapping entry of their own key: a bound
query of `(var1, k1)` reads the lower-bound mapping when `k1` is `LB` and the
upper-bound mapping for every other kind value (`readKind k1`), so
`addBoundFact(var, bound)` of kind `k` leaves the bound queries of every
`(var1, k1)` with `(var1, readKind k1) ≠ (var, k)` unchanged (for `k1` in
`LB`, `UB` that is `(var1, k1) ≠ (var, k)`) and the queries of every equation
key unchanged; `addEquationFact(equNumber, equ)` leaves every bound query and
the queries of every other equation key unchanged; a successful `popFact`
leaves unchanged the bound queries of every `(var1, k1)` with `(var1,
readKind k1)` other than the key named by the top undo-log entry, and the
equation queries of every equation key other than it. -/
theorem adds_and_pop_touch_own_key (t : FactTracker) (mem : Memory) :
    (∀ var bound var1 k1, (var1, readKind k1) ≠ (var, kindOf bound) →
      (t.addBoundFact mem var bound).2.hasFactAffectingBound var1 k1
        = t.hasFactAffectingBound var1 k1 ∧
      (t.addBoundFact mem var bound).2.getFactAffectingBound var1 k1
        = t.getFactAffectingBound var1 k1) ∧
    (∀ var bound equ1,
      (t.addBoundFact mem var bound).2.hasFactAffectingEquation equ1
        = t.hasFactAffectingEquation equ1 ∧
      (t.addBoundFact mem var bound).2.getFactAffectingEquation equ1
        = t.getFactAffectingEquation equ1) ∧
    (∀ equNumber equ var1 k1,
      (t.addEquationFact mem equNumber equ).2.hasFactAffectingBound var1 k1
        = t.hasFactAffectingBound var1 k1 ∧
      (t.addEquationFact mem equNumber equ).2.getFactAffectingBound var1 k1
        = t.getFactAffectingBound var1 k1) ∧
    (∀ equNumber equ equ1, equ1 ≠ equNumber →
      (t.addEquationFact mem equNumber equ).2.hasFactAffectingEquation equ1
        = t.hasFactAffectingEquation equ1 ∧
      (t.addEquationFact mem equNumber equ).2.getFactAffectingEquation equ1
        = t.getFactAffectingEquation equ1) ∧
    (∀ k kind rest st, t._factsLearned = (k, kind) :: rest → t.popFact mem = .ok st →
      (∀ var1 k1, (var1, readKind k1) ≠ (k, kind) →
        st.2.hasFactAffectingBound var1 k1 = t.hasFactAffectingBound var1 k1 ∧
        st.2.getFactAffectingBound var1 k1 = t.getFactAffectingBound var1 k1) ∧
      (∀ equ1, (equ1, BoundType.EQU) ≠ (k, kind) →
        st.2.hasFactAffectingEquation equ1 = t.hasFactAffectingEquation equ1 ∧
        st.2.getFactAffectingEquation equ1 = t.getFactAffectingEquation equ1)) := by
  refine ⟨?_, ?_, ?_, ?_, ?_⟩
  · intro var bound var1 k1 hne
    obtain ⟨h1, h2, _⟩ := FactTracker.addBoundFact_find t mem var bound var1
    exact FactTracker.bound_query_congr _ _ var1 k1
      (fun hk => h1 (by rw [← hk]; exact hne)) (fun hk => h2 (by rw [← hk]; exact hne))
  · intro var bound equ1
    exact FactTracker.equation_query_congr _ _ equ1
      (FactTracker.addBoundFact_find t mem var bound equ1).2.2
  · intro equNumber equ var1 k1
    rw [FactTracker.addEquationFact_snd]
    exact FactTracker.bound_query_congr _ _ var1 k1 (fun _ => rfl) (fun _ => rfl)
  · intro equNumber equ equ1 hne
    rw [FactTracker.addEquationFact_snd]
    apply FactTracker.equation_query_congr
    simp only [FactTracker.find_pushOn, if_neg hne]
  · intro k kind rest st hlog hpop
    constructor
    · intro var1 k1 hne
      obtain ⟨h1, h2, _⟩ := FactTracker.popFact_find t mem k kind rest st hlog hpop var1
      exact FactTracker.bound_query_congr _ _ var1 k1
        (fun hk => h1 (by rw [← hk]; exact hne)) (fun hk => h2 (by rw [← hk]; exact hne))
    · intro equ1 hne
      exact FactTracker.equation_query_congr _ _ equ1
        ((FactTracker.popFact_find t mem k kind rest st hlog hpop equ1).2.2 hne)

/-- Witness of `adds_and_pop_touch_own_key`: in the state that holds one
lower bound for variable 0, an upper bound is added for variable 0 and the
lower-bound queries of variable 0 answer as before. -/
theorem adds_and_pop_touch_own_key_witness :
    ((0 : Nat), readKind .LB) ≠ (0, kindOf (Tightening.new 0 6 .UB)) ∧
    (oneBoundState.2.addBoundFact oneBoundState.1 0
        (Tightening.new 0 6 .UB)).2.hasFactAffectingBound 0 .LB
      = oneBoundState.2.hasFactAffectingBound 0 .LB ∧
    (oneBoundState.2.addBoundFact oneBoundState.1 0
        (Tightening.new 0 6 .UB)).2.getFactAffectingBound 0 .LB
      = oneBoundState.2.getFactAffectingBound 0 .LB :=
  ⟨by decide,
    (adds_and_pop_touch_own_key oneBoundState.2 oneBoundState.1).1 0
      (Tightening.new 0 6 .UB) 0 .LB (by decide)⟩

/-- C19 (as stated) fails for a bound query of kind `EQU`, which reads the
upper-bound mapping: the key `(0, EQU)` differs from `(0, UB)`, yet on an
empty tracker `addBoundFact(0, ub)` turns `hasFactAffectingBound(0, EQU)` from
false to true and `getFactAffectingBound(0, EQU)` from a failure to the new
fact; and `popFact`, whose top undo-log entry names `(0, UB)`, turns them
back. -/
theorem bound_query_of_kind_EQU_sees_upper_bound :
    ((0 : Nat), BoundType.EQU) ≠ (0, kindOf (Tightening.new 0 6 .UB)) ∧
    (FactTracker.new 0).hasFactAffectingBound 0 .EQU = false ∧
    ((FactTracker.new 0).addBoundFact emptyMemory 0
        (Tightening.new 0 6 .UB)).2.hasFactAffectingBound 0 .EQU = true ∧
    (FactTracker.new 0).getFactAffectingBound 0 .EQU = .error .KEY_DOESNT_EXIST_IN_MAP ∧
    ((FactTracker.new 0).addBoundFact emptyMemory 0
        (Tightening.new 0 6 .UB)).2.getFactAffectingBound 0 .EQU = .ok 0 ∧
    ((FactTracker.new 0).addBoundFact emptyMemory 0
        (Tightening.new 0 6 .UB)).2._factsLearned = [(0, BoundType.UB)] ∧
    ∃ st,
      ((FactTracker.new 0).addBoundFact emptyMemory 0 (Tightening.new 0 6 .UB)).2.popFact
        ((FactTracker.new 0).addBoundFact emptyMemory 0 (Tightening.new 0 6 .UB)).1
        = .ok st ∧
      st.2.hasFactAffectingBound 0 .EQU = false ∧
      st.2.getFactAffectingBound 0 .EQU = .error .STACK_IS_EMPTY :=
  ⟨by decide, by decide, by decide, rfl, rfl, by decide, _, rfl, by decide, rfl⟩

end Frame

section Reachable

open FactTracker

theorem Rep.fact_lt_length {h : List LogEntry} {mem : Memory} {t : FactTracker}
    (r : Rep h mem t) : ∀ e ∈ h, e.fact < mem.cells.length := by
  intro e he
  obtain ⟨o, ho, _⟩ := r.live e he
  exact Memory.lt_of_deref ho

/-- One add call keeps the additions in order of allocation. -/
theorem Rep.chrono_add {h : List LogEntry} {mem : Memory} {t : FactTracker}
    (r : Rep h mem t) (hc : Chrono h) (c : AddCall) :
    Rep (⟨c.key.1, c.key.2, mem.cells.length⟩ :: h) (applyAdd (mem, t) c).1
        (applyAdd (mem, t) c).2 ∧
      Chrono (⟨c.key.1, c.key.2, mem.cells.length⟩ :: h) := by
  obtain ⟨_, _, _, r1, _⟩ := r.after_add c
  refine ⟨r1, ?_⟩
  unfold Chrono
  rw [List.map_cons, List.pairwise_cons]
  refine ⟨?_, hc⟩
  intro q hq
  obtain ⟨e, he, rfl⟩ := List.mem_map.1 hq
  exact r.fact_lt_length e he

theorem Rep.chrono_adds {h : List LogEntry} {mem : Memory} {t : FactTracker}
    (r : Rep h mem t) (hc : Chrono h) (calls : List AddCall) :
    ∃ h1, Rep h1 (applyAdds (mem, t) calls).1 (applyAdds (mem, t) calls).2 ∧ Chrono h1 ∧
      h1.length = h.length + calls.length := by
  induction calls generalizing h mem t with
  | nil => exact ⟨h, r, hc, rfl⟩
  | cons c cs ih =>
    obtain ⟨r1, hc1⟩ := r.chrono_add hc c
    obtain ⟨h2, r2, hc2, hl⟩ := ih r1 hc1
    refine ⟨h2, r2, hc2, ?_⟩
    rw [hl]
    simp
    omega

/-- Every operation that returns normally leads from a state that holds
additions in order of allocation to such a state. -/
theorem Rep.chrono_op {h : List LogEntry} {mem : Memory} {t : FactTracker}
    (r : Rep h mem t) (hc : Chrono h) (op : Op) (st : Memory × FactTracker)
    (hst : applyOp (mem, t) op = some st) :
    ∃ h1, Rep h1 st.1 st.2 ∧ Chrono h1 := by
  cases op with
  | add c =>
    obtain ⟨r1, hc1⟩ := r.chrono_add hc c
    simp only [applyOp, Option.some.injEq] at hst
    subst hst
    exact ⟨_, r1, hc1⟩
  | init tableau =>
    simp only [applyOp, Option.some.injEq, FactTracker.initializeFromTableau_eq] at hst
    subst hst
    obtain ⟨h1, r1, hc1, _⟩ := r.chrono_adds hc (seedCalls tableau)
    exact ⟨h1, r1, hc1⟩
  | pop =>
    cases h with
    | nil =>
      simp only [applyOp, r.popFact_nil] at hst
      exact absurd hst (by simp)
    | cons e h =>
      obtain ⟨t1, hpop, r1, _⟩ := r.popFact
      simp only [applyOp, hpop, Option.some.injEq] at hst
      subst hst
      refine ⟨h, r1, ?_⟩
      unfold Chrono at hc ⊢
      rw [List.map_cons, List.pairwise_cons] at hc
      exact hc.2

/-- Every state reached from an empty tracker holds additions in order of
allocation. -/
theorem Rep.of_runOps (ops : List Op) :
    ∀ {h : List LogEntry} {st st1 : Memory × FactTracker},
      Rep h st.1 st.2 → Chrono h → runOps st ops = some st1 →
      ∃ h1, Rep h1 st1.1 st1.2 ∧ Chrono h1 := by
  induction ops with
  | nil =>
    intro h st st1 r hc hrun
    simp only [runOps, Option.some.injEq] at hrun
    subst hrun
    exact ⟨h, r, hc⟩
  | cons op ops ih =>
    intro h st st1 r hc hrun
    simp only [runOps] at hrun
    cases hop : applyOp st op with
    | none => rw [hop] at hrun; exact absurd hrun (by simp)
    | some st2 =>
      rw [hop] at hrun
      simp only [Option.some_bind] at hrun
      obtain ⟨h2, r2, hc2⟩ := r.chrono_op hc op st2 hop
      exact ih r2 hc2 hrun

theorem Rep.reached (self : Nat) (mem0 : Memory) (ops : List Op) (st : Memory × FactTracker)
    (hrun : runOps (mem0, FactTracker.new self) ops = some st) :
    ∃ h, Rep h st.1 st.2 ∧ Chrono h :=
  Rep.of_runOps ops
    (show Rep [] (mem0, FactTracker.new self).1 (mem0, FactTracker.new self).2 from
      Rep.of_new self mem0)
    (show Chrono [] from List.Pairwise.nil) hrun

/-- The sizes of the owned set and of the undo log of a tracker that holds the
additions `h`. -/
theorem Rep.sizes {h : List LogEntry} {mem : Memory} {t : FactTracker} (r : Rep h mem t) :
    t._factsLearnedSet.card = h.length ∧ t._factsLearned.length = h.length := by
  constructor
  · rw [r.owned, List.toFinset_card_of_nodup r.nodup, List.length_map]
  · rw [r.log, List.length_map]

theorem seedCalls_length (tableau : ITableau) :
    (seedCalls tableau).length = 2 * tableau.getN + tableau.getM := by
  rw [← seedKeys_length, ← seedCalls_keys, List.length_map]

/-- C14. One global record per live fact: in every state reached from an
empty tracker by adds, seedings and pops that return normally (which covers
the runs in which `popFact` is called only when `getNumFacts() > 0`), the
owned set has as many facts as the undo log has entries; `getNumFacts()`
returns that size as an `unsigned` (the size itself when it is below
`2 ^ 32`); each add raises both sizes by exactly one, each `popFact` lowers
both by exactly one, and a seeding raises both by `2N + M`. -/
theorem one_record_per_live_fact (self : Nat) (mem0 : Memory) (ops : List Op)
    (st : Memory × FactTracker)
    (hrun : runOps (mem0, FactTracker.new self) ops = some st) :
    st.2._factsLearnedSet.card = st.2._factsLearned.length ∧
    st.2.getNumFacts = st.2._factsLearned.length % 2 ^ 32 ∧
    (st.2._factsLearned.length < 2 ^ 32 → st.2.getNumFacts = st.2._factsLearnedSet.card) ∧
    (∀ var bound,
      (st.2.addBoundFact st.1 var bound).2._factsLearnedSet.card
        = st.2._factsLearnedSet.card + 1 ∧
      (st.2.addBoundFact st.1 var bound).2._factsLearned.length
        = st.2._factsLearned.length + 1) ∧
    (∀ equNumber equ,
      (st.2.addEquationFact st.1 equNumber equ).2._factsLearnedSet.card
        = st.2._factsLearnedSet.card + 1 ∧
      (st.2.addEquationFact st.1 equNumber equ).2._factsLearned.length
        = st.2._factsLearned.length + 1) ∧
    (∀ st1, st.2.popFact st.1 = .ok st1 →
      st1.2._factsLearnedSet.card + 1 = st.2._factsLearnedSet.card ∧
      st1.2._factsLearned.length + 1 = st.2._factsLearned.length) ∧
    (∀ tableau,
      (st.2.initializeFromTableau st.1 tableau).2._factsLearnedSet.card
        = st.2._factsLearnedSet.card + (2 * tableau.getN + tableau.getM) ∧
      (st.2.initializeFromTableau st.1 tableau).2._factsLearned.length
        = st.2._factsLearned.length + (2 * tableau.getN + tableau.getM)) := by
  obtain ⟨h, r, _⟩ := Rep.reached self mem0 ops st hrun
  obtain ⟨hcard, hlen⟩ := r.sizes
  refine ⟨by rw [hcard, hlen], rfl, ?_, ?_, ?_, ?_, ?_⟩
  · intro hsmall
    rw [FactTracker.getNumFacts, Nat.mod_eq_of_lt hsmall, hcard, hlen]
  · intro var bound
    obtain ⟨h1, h2⟩ := (r.addBoundFact var bound).sizes
    rw [h1, h2, hcard, hlen]
    simp
  · intro equNumber equ
    obtain ⟨h1, h2⟩ := (r.addEquationFact equNumber equ).sizes
    rw [h1, h2, hcard, hlen]
    simp
  · intro st1 hpop
    cases h with
    | nil =>
      rw [r.popFact_nil] at hpop
      exact absurd hpop (by simp)
    | cons e h =>
      obtain ⟨t1, hpop1, r1, _⟩ := r.popFact
      rw [hpop1] at hpop
      simp only [Except.ok.injEq] at hpop
      subst hpop
      obtain ⟨h1, h2⟩ := r1.sizes
      rw [h1, h2, hcard, hlen]
      simp
  · intro tableau
    rw [FactTracker.initializeFromTableau_eq]
    obtain ⟨h1, r1, hl, _⟩ := r.after_adds (seedCalls tableau)
    obtain ⟨h2, h3⟩ := r1.sizes
    rw [h2, h3, hcard, hlen, hl, seedCalls_length]
    simp

/-- Witness of `one_record_per_live_fact`: one add on an empty tracker. -/
theorem one_record_per_live_fact_witness :
    runOps (emptyMemory, FactTracker.new 0)
        [Op.add (AddCall.bound 0 (Tightening.new 0 5 .LB))] = some oneBoundState ∧
    oneBoundState.2._factsLearnedSet.card = oneBoundState.2._factsLearned.length ∧
    oneBoundState.2.getNumFacts = 1 :=
  ⟨rfl,
    (one_record_per_live_fact 0 emptyMemory
      [Op.add (AddCall.bound 0 (Tightening.new 0 5 .LB))] oneBoundState rfl).1,
    by decide⟩

theorem count_eq_stackOf_length (h : List LogEntry) (k : Nat) (kind : BoundType) :
    (h.map (fun e => (e.key, e.kind))).count (k, kind) = (stackOf h k kind).length := by
  induction h with
  | nil => rfl
  | cons e h ih =>
    rw [stackOf_cons, List.map_cons, List.count_cons, ih]
    by_cases hc : e.key = k ∧ e.kind = kind
    · rw [if_pos hc]
      obtain ⟨h1, h2⟩ := hc
      simp [h1, h2]
    · rw [if_neg hc]
      have : ¬ ((e.key, e.kind) = (k, kind)) := by
        intro heq
        simp only [Prod.mk.injEq] at heq
        exact hc heq
      simp [this]

theorem Rep.stackOfKind_eq {h : List LogEntry} {mem : Memory} {t : FactTracker}
    (r : Rep h mem t) (k : Nat) (kind : BoundType) :
    t.stackOfKind k kind = stackOf h k kind := by
  cases kind
  · exact r.lower k
  · exact r.upper k
  · exact r.equation k

/-- C15. The undo log and the per-key stacks never diverge: in every state
reached from an empty tracker by adds, seedings and pops that return normally
(which covers the runs in which `popFact` is called only when `getNumFacts()
> 0`), for every key and kind the undo log has as many entries tagged with
them as the stack of that key and kind is high; the stack named by the top
entry is not empty and its top is the owned fact allocated last; so `popFact`
returns normally whenever the undo log is not empty, in particular whenever
`getNumFacts() > 0`. -/
theorem log_and_stacks_agree (self : Nat) (mem0 : Memory) (ops : List Op)
    (st : Memory × FactTracker)
    (hrun : runOps (mem0, FactTracker.new self) ops = some st) :
    (∀ k kind, st.2._factsLearned.count (k, kind) = (st.2.stackOfKind k kind).length) ∧
    (∀ k kind rest, st.2._factsLearned = (k, kind) :: rest →
      ∃ p below, st.2.stackOfKind k kind = p :: below ∧
        p ∈ st.2._factsLearnedSet ∧ (∀ q ∈ st.2._factsLearnedSet, q ≤ p) ∧
        ∃ t1, st.2.popFact st.1 = .ok (st.1.free p, t1)) ∧
    (st.2._factsLearned ≠ [] → ∃ st1, st.2.popFact st.1 = .ok st1) ∧
    (0 < st.2.getNumFacts → ∃ st1, st.2.popFact st.1 = .ok st1) := by
  obtain ⟨h, r, hc⟩ := Rep.reached self mem0 ops st hrun
  have hne : st.2._factsLearned ≠ [] → ∃ st1, st.2.popFact st.1 = .ok st1 := by
    intro hlog
    cases h with
    | nil => exact absurd (by rw [r.log]; rfl) hlog
    | cons e h =>
      obtain ⟨t1, hpop, _, _⟩ := r.popFact
      exact ⟨_, hpop⟩
  refine ⟨?_, ?_, hne, ?_⟩
  · intro k kind
    rw [r.stackOfKind_eq, r.log, count_eq_stackOf_length]
  · intro k kind rest hlog
    cases h with
    | nil =>
      rw [r.log] at hlog
      exact absurd hlog (by simp)
    | cons e h =>
      have hlog2 := r.log
      rw [hlog, List.map_cons] at hlog2
      simp only [List.cons.injEq, Prod.mk.injEq] at hlog2
      obtain ⟨⟨hk, hkind⟩, _⟩ := hlog2
      obtain ⟨t1, hpop, _, _⟩ := r.popFact
      refine ⟨e.fact, stackOf h e.key e.kind, ?_, ?_, ?_, t1, hpop⟩
      · rw [r.stackOfKind_eq, hk, hkind, stackOf_cons]
        simp
      · rw [r.owned]
        simp
      · intro q hq
        rw [r.owned, List.mem_toFinset, List.map_cons, List.mem_cons] at hq
        unfold Chrono at hc
        rw [List.map_cons, List.pairwise_cons] at hc
        rcases hq with rfl | hq
        · exact le_refl _
        · exact le_of_lt (hc.1 q hq)
  · intro hpos
    apply hne
    intro hnil
    rw [FactTracker.getNumFacts, hnil] at hpos
    simp at hpos

/-- Witness of `log_and_stacks_agree`: one add on an empty tracker. -/
theorem log_and_stacks_agree_witness :
    runOps (emptyMemory, FactTracker.new 0)
        [Op.add (AddCall.bound 0 (Tightening.new 0 5 .LB))] = some oneBoundState ∧
    0 < oneBoundState.2.getNumFacts ∧
    ∃ st1, oneBoundState.2.popFact oneBoundState.1 = .ok st1 :=
  ⟨rfl, by decide,
    (log_and_stacks_agree 0 emptyMemory
      [Op.add (AddCall.bound 0 (Tightening.new 0 5 .LB))] oneBoundState rfl).2.2.2
      (by decide)⟩

end Reachable

section Termination

/-- With fuel for the remaining iterations the loop never runs out of fuel,
whatever the graph. -/
theorem causingLoop_terminates (mem : Memory) :
    ∀ (fuel : Nat) (seen : Finset Ptr) (result : List (Nat × Nat)) (remaining : List Ptr),
      loopMeasure mem seen remaining ≤ fuel →
      causingLoop mem fuel seen result remaining ≠ .outOfFuel := by
  intro fuel
  induction fuel with
  | zero =>
    intro seen result remaining hm
    cases remaining with
    | nil => rw [causingLoop_nil]; simp
    | cons fact rest =>
      simp only [loopMeasure, List.length_cons] at hm
      omega
  | succ fuel ih =>
    intro seen result remaining hm
    cases remaining with
    | nil => rw [causingLoop_nil]; simp
    | cons fact rest =>
      rw [causingLoop_cons]
      by_cases hs : fact ∈ seen
      · rw [if_pos hs]
        have := loopMeasure_skip mem seen fact rest
        exact ih seen result rest (by omega)
      · rw [if_neg hs]
        cases ho : mem.deref fact with
        | none => simp
        | some o =>
          simp only
          have h1 := loopMeasure_insert_le mem seen fact rest
          by_cases hsp : o.isCausedBySplit = true
          · rw [if_pos hsp]
            by_cases hlev : o.getSplitLevelCausing ≠ 0
            · rw [if_pos hlev]; exact ih _ _ _ (by omega)
            · rw [if_neg hlev]; exact ih _ _ _ (by omega)
          · rw [if_neg hsp]
            have h2 := loopMeasure_expand mem seen fact rest o ho hs
            exact ih _ _ _ (by omega)

/-- C16. `getConstraintsAndSplitsCausingFacts` terminates on every finite
explanation graph and every input list, cycles and shared ancestors
included: the explanations of a fact are enqueued at most once, so the loop
ends within as many iterations as the input has facts and the graph has
explanation edges; it then returns a result unless it read a dangling
pointer. On `cyclicMemory`, where a fact lists itself, it returns [(4, 6)]. -/
theorem causing_facts_terminates (t : FactTracker) (mem : Memory) (facts : List Ptr)
    (fuel : Nat) (hfuel : facts.length + mem.edgeCount ≤ fuel) :
    t.getConstraintsAndSplitsCausingFacts mem fuel facts ≠ .outOfFuel ∧
    ((∀ p, Frontier mem facts p → (mem.deref p).isSome = true) →
      ∃ r, t.getConstraintsAndSplitsCausingFacts mem fuel facts = .done r) ∧
    (∀ k, t.getConstraintsAndSplitsCausingFacts cyclicMemory
        ([0].length + cyclicMemory.edgeCount + k) [0] = .done [(4, 6)]) := by
  refine ⟨?_, ?_, ?_⟩
  · apply causingLoop_terminates
    rw [(causing_initial mem facts).2]
    exact hfuel
  · intro hlive
    obtain ⟨r, hr, _⟩ := causing_result t mem facts hlive fuel hfuel
    exact ⟨r, hr⟩
  · intro k
    have he : [0].length + cyclicMemory.edgeCount = 6 := by decide
    rw [he]
    exact causing_mono t cyclicMemory [0] 6 k _
      (show causingLoop cyclicMemory 6 ∅ [] [0] = .done [(4, 6)] by decide)

/-- Witness of `causing_facts_terminates`: the self-explaining fact at
address 0 of `cyclicMemory`, with fuel 6. -/
theorem causing_facts_terminates_witness :
    [0].length + cyclicMemory.edgeCount ≤ 6 ∧
    (FactTracker.new 0).getConstraintsAndSplitsCausingFacts cyclicMemory 6 [0]
      ≠ .outOfFuel :=
  ⟨by decide,
    (causing_facts_terminates (FactTracker.new 0) cyclicMemory [0] 6 (by decide)).1⟩

end Termination

section Recursion

/-- The loop returns no result when the recursive call on one of the owned
explanations returns none. -/
theorem externalLoop_not_done (t : FactTracker) (mem : Memory)
    (recurse : Ptr → Run (Finset Ptr)) (x : Ptr) (o : FactObj)
    (ho : mem.deref x = some o) (hown : t.hasFact o = true)
    (hrec : ∀ s, recurse x ≠ .done s) :
    ∀ (l : List Ptr), x ∈ l → ∀ (acc s : Finset Ptr),
      externalLoop t mem recurse l acc ≠ .done s := by
  intro l
  induction l with
  | nil => intro hx; exact absurd hx (List.not_mem_nil _)
  | cons y rest ih =>
    intro hx acc s
    rw [externalLoop]
    by_cases hxy : x = y
    · subst hxy
      rw [ho]
      simp only [hown, Bool.not_true, Bool.false_eq_true, if_false]
      cases hr : recurse x with
      | done inner => exact absurd hr (hrec inner)
      | fault => simp
      | outOfFuel => simp
    · have hx2 : x ∈ rest := by
        rcases List.mem_cons.1 hx with h | h
        · exact absurd h hxy
        · exact h
      cases hy : mem.deref y with
      | none => simp
      | some oy =>
        simp only
        by_cases hyo : t.hasFact oy = true
        · simp only [hyo, Bool.not_true, Bool.false_eq_true, if_false]
          cases hr : recurse y with
          | done inner => exact ih hx2 _ s
          | fault => simp
          | outOfFuel => simp
        · simp only [hyo, Bool.not_false, if_true]
          exact ih hx2 _ s

/-- The call on an owned fact that lists itself returns no result, whatever
the fuel. -/
theorem getExternalFactsForBound_self (t : FactTracker) (mem : Memory) (p : Ptr) (o : FactObj)
    (ho : mem.deref p = some o) (hown : t.hasFact o = true) (hself : p ∈ o.getExplanations) :
    ∀ (fuel : Nat) (s : Finset Ptr), t.getExternalFactsForBound mem fuel p ≠ .done s := by
  intro fuel
  induction fuel with
  | zero => intro s; simp [FactTracker.getExternalFactsForBound]
  | succ fuel ih =>
    intro s
    rw [getExternalFactsForBound_succ, ho]
    exact externalLoop_not_done t mem _ p o ho hown ih _ hself ∅ s

theorem selfLoop_outOfFuel :
    ∀ fuel, (FactTracker.new 1).getExternalFactsForBound selfLoopMemory fuel 0
      = .outOfFuel := by
  have key : ∀ recurse : Ptr → Run (Finset Ptr), recurse 0 = .outOfFuel →
      externalLoop (FactTracker.new 1) selfLoopMemory recurse [0] ∅ = .outOfFuel := by
    intro recurse h
    have e : externalLoop (FactTracker.new 1) selfLoopMemory recurse [0] ∅ =
        (match recurse 0 with
          | .done inner => externalLoop (FactTracker.new 1) selfLoopMemory recurse [] (∅ ∪ inner)
          | .fault => .fault
          | .outOfFuel => .outOfFuel) := rfl
    rw [e, h]
  intro fuel
  induction fuel with
  | zero => rfl
  | succ fuel ih =>
    rw [getExternalFactsForBound_succ]
    exact key _ ih

/-- C17. `getExternalFactsForBound(F)` terminates when `F` and the facts at
the end of the local paths from `F` are objects of the finite memory and none
of them lies on a cycle: from some fuel on it returns a result. The recursion
enters owned explanations only (a foreign explanation that lists itself does
no harm), and it has no seen set: on an owned fact that lists itself among
its explanations the call returns no result whatever the fuel, and on
`selfLoopMemory` it uses up every fuel. -/
theorem external_facts_termination (t : FactTracker) (mem : Memory) (F : Ptr)
    (hF : (mem.deref F).isSome = true)
    (hlive : ∀ e, LocalPath t mem F e → (mem.deref e).isSome = true)
    (hacyc : ∀ p, (p = F ∨ LocalPath t mem F p) → ¬ Relation.TransGen (Explains mem) p p) :
    (∃ fuel0, ∀ fuel, fuel0 ≤ fuel → ∃ s, t.getExternalFactsForBound mem fuel F = .done s) ∧
    (∀ (t1 : FactTracker) (mem1 : Memory) (p : Ptr) (o : FactObj),
      mem1.deref p = some o → t1.hasFact o = true → p ∈ o.getExplanations →
      ∀ fuel s, t1.getExternalFactsForBound mem1 fuel p ≠ .done s) ∧
    (∀ fuel, (FactTracker.new 1).getExternalFactsForBound selfLoopMemory fuel 0
      = .outOfFuel) ∧
    (∀ fuel, (FactTracker.new 1).getExternalFactsForBound foreignLoopMemory (1 + fuel) 0
      = .done {1}) := by
  refine ⟨?_, ?_, selfLoop_outOfFuel, ?_⟩
  · obtain ⟨s, _, fuel0, hrun⟩ := externalOk_of_acyclic t mem F hF hlive hacyc
    exact ⟨fuel0, fun fuel hf => ⟨s, hrun fuel hf⟩⟩
  · intro t1 mem1 p o ho hown hself fuel s
    exact getExternalFactsForBound_self t1 mem1 p o ho hown hself fuel s
  · intro fuel
    exact getExternalFactsForBound_mono _ _ fuel 1 0 _ rfl

/-- Witness of `external_facts_termination`: tracker 1 and the fact at address
3 of `boundaryMemory`. -/
theorem external_facts_termination_witness :
    (boundaryMemory.deref 3).isSome = true ∧
    (∀ e, LocalPath (FactTracker.new 1) boundaryMemory 3 e →
      (boundaryMemory.deref e).isSome = true) ∧
    (∀ p, (p = 3 ∨ LocalPath (FactTracker.new 1) boundaryMemory 3 p) →
      ¬ Relation.TransGen (Explains boundaryMemory) p p) ∧
    ∃ fuel0, ∀ fuel, fuel0 ≤ fuel →
      ∃ s, (FactTracker.new 1).getExternalFactsForBound boundaryMemory fuel 3 = .done s :=
  ⟨by decide, fun _ h => h.end_live boundaryMemory_closed,
    fun p _ => boundaryMemory_decreasing.acyclic p,
    (external_facts_termination (FactTracker.new 1) boundaryMemory 3 (by decide)
      (fun _ h => h.end_live boundaryMemory_closed)
      (fun p _ => boundaryMemory_decreasing.acyclic p)).1⟩

end Recursion

section InputSet

theorem sorted_pairSetInsert (p : Nat × Nat) (l : List (Nat × Nat))
    (h : l.Sorted pairLe) : (pairSetInsert p l).Sorted pairLe := by
  unfold pairSetInsert
  split
  · exact h
  · exact h.orderedInsert p l

/-- The returned list is in the order of the set it is read from. -/
theorem causingLoop_sorted (mem : Memory) :
    ∀ (fuel : Nat) (seen : Finset Ptr) (result : List (Nat × Nat)) (remaining : List Ptr)
      (r : List (Nat × Nat)),
      result.Sorted pairLe → causingLoop mem fuel seen result remaining = .done r →
      r.Sorted pairLe := by
  intro fuel
  induction fuel with
  | zero =>
    intro seen result remaining r hs h
    cases remaining with
    | nil =>
      rw [causingLoop_nil] at h
      cases h
      exact hs
    | cons fact rest => simp [causingLoop] at h
  | succ fuel ih =>
    intro seen result remaining r hs h
    cases remaining with
    | nil =>
      rw [causingLoop_nil] at h
      cases h
      exact hs
    | cons fact rest =>
      rw [causingLoop_cons] at h
      by_cases hseen : fact ∈ seen
      · rw [if_pos hseen] at h; exact ih _ _ _ _ hs h
      · rw [if_neg hseen] at h
        cases ho : mem.deref fact with
        | none => rw [ho] at h; simp at h
        | some o =>
          rw [ho] at h
          simp only at h
          by_cases hsp : o.isCausedBySplit = true
          · rw [if_pos hsp] at h
            by_cases hl : o.getSplitLevelCausing ≠ 0
            · rw [if_pos hl] at h
              exact ih _ _ _ _ (sorted_pairSetInsert _ _ hs) h
            · rw [if_neg hl] at h; exact ih _ _ _ _ hs h
          · rw [if_neg hsp] at h; exact ih _ _ _ _ hs h

theorem Frontier.mono {mem : Memory} {A B : List Ptr} (hsub : ∀ p, p ∈ A → p ∈ B) :
    ∀ p, Frontier mem A p → Frontier mem B p := by
  intro p hp
  induction hp with
  | input p h => exact Frontier.input p (hsub p h)
  | step q p o _ ho hsp hmem ih => exact Frontier.step q p o ih ho hsp hmem

/-- The split frontier of a concatenation is the union of the split
frontiers. -/
theorem Frontier.append_iff {mem : Memory} {A B : List Ptr} (p : Ptr) :
    Frontier mem (A ++ B) p ↔ Frontier mem A p ∨ Frontier mem B p := by
  constructor
  · intro hp
    induction hp with
    | input p h =>
      rcases List.mem_append.1 h with h | h
      · exact Or.inl (Frontier.input p h)
      · exact Or.inr (Frontier.input p h)
    | step q p o _ ho hsp hmem ih =>
      rcases ih with h | h
      · exact Or.inl (Frontier.step q p o h ho hsp hmem)
      · exact Or.inr (Frontier.step q p o h ho hsp hmem)
  · rintro (h | h)
    · exact Frontier.mono (fun _ hq => List.mem_append_left _ hq) p h
    · exact Frontier.mono (fun _ hq => List.mem_append_right _ hq) p h

/-- The result of the traversal with its order: the list is determined by the
split frontier. -/
theorem causing_result_sorted (t : FactTracker) (mem : Memory) (facts : List Ptr)
    (hlive : ∀ p, Frontier mem facts p → (mem.deref p).isSome = true)
    (fuel : Nat) (hfuel : facts.length + mem.edgeCount ≤ fuel) :
    ∃ r, t.getConstraintsAndSplitsCausingFacts mem fuel facts = .done r ∧ r.Nodup ∧
      r.Sorted pairLe ∧ ∀ pr, pr ∈ r ↔ ∃ p, Frontier mem facts p ∧ Recorded mem p pr := by
  obtain ⟨r, hr, hnd, hmem⟩ := causing_result t mem facts hlive fuel hfuel
  exact ⟨r, hr, hnd,
    causingLoop_sorted mem fuel ∅ [] facts r (List.sorted_nil) hr, hmem⟩

/-- C20. `getConstraintsAndSplitsCausingFacts` depends only on the set of
input facts and distributes over union: the pairs returned for `A ++ B` are
exactly those returned for `A` together with those returned for `B`, and
every input list with the same elements as `A ++ B` (reordered, or with facts
repeated) gives the same list. -/
theorem causing_facts_of_union (t : FactTracker) (mem : Memory) (A B : List Ptr)
    (hlive : ∀ p, Frontier mem (A ++ B) p → (mem.deref p).isSome = true)
    (fuel : Nat) (hfuel : (A ++ B).length + mem.edgeCount ≤ fuel) :
    ∃ rAB rA rB,
      t.getConstraintsAndSplitsCausingFacts mem fuel (A ++ B) = .done rAB ∧
      t.getConstraintsAndSplitsCausingFacts mem fuel A = .done rA ∧
      t.getConstraintsAndSplitsCausingFacts mem fuel B = .done rB ∧
      (∀ pr, pr ∈ rAB ↔ pr ∈ rA ∨ pr ∈ rB) ∧
      (∀ (C : List Ptr) (fuelC : Nat), (∀ p, p ∈ C ↔ p ∈ A ++ B) →
        C.length + mem.edgeCount ≤ fuelC →
        t.getConstraintsAndSplitsCausingFacts mem fuelC C = .done rAB) := by
  have hlen : (A ++ B).length = A.length + B.length := List.length_append _ _
  obtain ⟨rAB, hAB, hndAB, hsAB, hmAB⟩ := causing_result_sorted t mem (A ++ B) hlive fuel hfuel
  obtain ⟨rA, hA, _, _, hmA⟩ := causing_result_sorted t mem A
    (fun p hp => hlive p ((Frontier.append_iff p).2 (Or.inl hp))) fuel (by omega)
  obtain ⟨rB, hB, _, _, hmB⟩ := causing_result_sorted t mem B
    (fun p hp => hlive p ((Frontier.append_iff p).2 (Or.inr hp))) fuel (by omega)
  refine ⟨rAB, rA, rB, hAB, hA, hB, ?_, ?_⟩
  · intro pr
    rw [hmAB, hmA, hmB]
    constructor
    · rintro ⟨p, hp, hrec⟩
      rcases (Frontier.append_iff p).1 hp with h | h
      · exact Or.inl ⟨p, h, hrec⟩
      · exact Or.inr ⟨p, h, hrec⟩
    · rintro (⟨p, hp, hrec⟩ | ⟨p, hp, hrec⟩)
      · exact ⟨p, (Frontier.append_iff p).2 (Or.inl hp), hrec⟩
      · exact ⟨p, (Frontier.append_iff p).2 (Or.inr hp), hrec⟩
  · intro C fuelC hC hfuelC
    have h1 : ∀ p, Frontier mem C p → Frontier mem (A ++ B) p :=
      Frontier.mono (fun q hq => (hC q).1 hq)
    have h2 : ∀ p, Frontier mem (A ++ B) p → Frontier mem C p :=
      Frontier.mono (fun q hq => (hC q).2 hq)
    obtain ⟨rC, hCr, hndC, hsC, hmC⟩ := causing_result_sorted t mem C
      (fun p hp => hlive p (h1 p hp)) fuelC hfuelC
    have hperm : rC.Perm rAB := by
      rw [List.perm_ext_iff_of_nodup hndC hndAB]
      intro pr
      rw [hmC, hmAB]
      constructor
      · rintro ⟨p, hp, hrec⟩; exact ⟨p, h1 p hp, hrec⟩
      · rintro ⟨p, hp, hrec⟩; exact ⟨p, h2 p hp, hrec⟩
    rw [hCr, List.eq_of_perm_of_sorted hperm hsC hsAB]

/-- Witness of `causing_facts_of_union`: the inputs [2] and [1] on
`chainMemory`; the input [1, 2, 1] gives the same list as [2, 1]. -/
theorem causing_facts_of_union_witness :
    (∀ p, Frontier chainMemory ([2] ++ [1]) p → (chainMemory.deref p).isSome = true) ∧
    ([2] ++ [1]).length + chainMemory.edgeCount ≤ 10 ∧
    (FactTracker.new 0).getConstraintsAndSplitsCausingFacts chainMemory 10 [1, 2, 1]
      = (FactTracker.new 0).getConstraintsAndSplitsCausingFacts chainMemory 10 [2, 1] ∧
    ∃ rAB rA rB,
      (FactTracker.new 0).getConstraintsAndSplitsCausingFacts chainMemory 10 ([2] ++ [1])
        = .done rAB ∧
      (FactTracker.new 0).getConstraintsAndSplitsCausingFacts chainMemory 10 [2] = .done rA ∧
      (FactTracker.new 0).getConstraintsAndSplitsCausingFacts chainMemory 10 [1] = .done rB ∧
      (∀ pr, pr ∈ rAB ↔ pr ∈ rA ∨ pr ∈ rB) :=
  ⟨Frontier.frontier_live chainMemory_closed (by unfold Memory.AllLive; decide),
    by decide, by decide,
    (causing_facts_of_union (FactTracker.new 0) chainMemory [2] [1]
      (Frontier.frontier_live chainMemory_closed (by unfold Memory.AllLive; decide))
      10 (by decide)).imp
      (fun _ h => h.imp (fun _ h => h.imp (fun _ h => ⟨h.1, h.2.1, h.2.2.1, h.2.2.2.1⟩)))⟩

end InputSet

section SeededState

open FactTracker

/-- What one `addBoundFact` does to the memory and to the tracker. -/
theorem FactTracker.addBoundFact_step (t : FactTracker) (mem : Memory) (var : Nat)
    (bound : Tightening) :
    (t.addBoundFact mem var bound).1.cells.length = mem.cells.length + 1 ∧
    (t.addBoundFact mem var bound).2.self = t.self ∧
    (∀ p, (t.addBoundFact mem var bound).1.deref p
      = if p = mem.cells.length then some (ownedTightening t bound) else mem.deref p) ∧
    (t.addBoundFact mem var bound).2._factsLearnedSet
      = insert mem.cells.length t._factsLearnedSet ∧
    (t.addBoundFact mem var bound).2._equationFact = t._equationFact ∧
    (bound._type = .LB →
      (∀ v, (t.addBoundFact mem var bound).2._lowerBoundFact.find v
        = if v = var then some (mem.cells.length :: t._lowerBoundFact.stackAt var)
          else t._lowerBoundFact.find v) ∧
      (t.addBoundFact mem var bound).2._upperBoundFact = t._upperBoundFact) ∧
    (bound._type = .UB →
      (∀ v, (t.addBoundFact mem var bound).2._upperBoundFact.find v
        = if v = var then some (mem.cells.length :: t._upperBoundFact.stackAt var)
          else t._upperBoundFact.find v) ∧
      (t.addBoundFact mem var bound).2._lowerBoundFact = t._lowerBoundFact) := by
  refine ⟨?_, ?_, ?_, FactTracker.addBoundFact_owned t mem var bound, ?_, ?_, ?_⟩
  · rw [FactTracker.addBoundFact_fst]; simp [Memory.alloc]
  · by_cases hb : bound._type = .LB
    · rw [FactTracker.addBoundFact_LB t mem var bound hb]
    · rw [FactTracker.addBoundFact_UB t mem var bound hb]
  · intro p; rw [FactTracker.addBoundFact_fst, Memory.deref_alloc]
  · by_cases hb : bound._type = .LB
    · rw [FactTracker.addBoundFact_LB t mem var bound hb]
    · rw [FactTracker.addBoundFact_UB t mem var bound hb]
  · intro hb
    rw [FactTracker.addBoundFact_LB t mem var bound hb]
    exact ⟨fun v => FactTracker.find_pushOn _ _ _ _, rfl⟩
  · intro hb
    have hb2 : bound._type ≠ .LB := by rw [hb]; decide
    rw [FactTracker.addBoundFact_UB t mem var bound hb2]
    exact ⟨fun v => FactTracker.find_pushOn _ _ _ _, rfl⟩

theorem ownedTightening_congr (t1 t2 : FactTracker) (h : t1.self = t2.self)
    (bound : Tightening) : ownedTightening t1 bound = ownedTightening t2 bound := by
  unfold ownedTightening
  rw [h]

theorem ownedEquation_congr (t1 t2 : FactTracker) (h : t1.self = t2.self)
    (equ : Equation) : ownedEquation t1 equ = ownedEquation t2 equ := by
  unfold ownedEquation
  rw [h]

theorem seed_object_facts (self : Nat) (tableau : ITableau) (v : Nat) :
    (ZeroSplitInfo (ownedTightening (FactTracker.new self) (lowerSeed tableau v)) ∧
      (ownedTightening (FactTracker.new self) (lowerSeed tableau v)).isCausedBySplit = true ∧
      (ownedTightening (FactTracker.new self) (lowerSeed tableau v)).getExplanations = [] ∧
      (ownedTightening (FactTracker.new self) (lowerSeed tableau v)).getOwner = some self) ∧
    (ZeroSplitInfo (ownedTightening (FactTracker.new self) (upperSeed tableau v)) ∧
      (ownedTightening (FactTracker.new self) (upperSeed tableau v)).isCausedBySplit = true ∧
      (ownedTightening (FactTracker.new self) (upperSeed tableau v)).getExplanations = [] ∧
      (ownedTightening (FactTracker.new self) (upperSeed tableau v)).getOwner = some self) :=
  ⟨⟨⟨rfl, rfl, rfl⟩, rfl, rfl, rfl⟩, ⟨⟨rfl, rfl, rfl⟩, rfl, rfl, rfl⟩⟩

theorem foldl_addAddend (l : List SparseEntry) :
    ∀ init : Equation,
      l.foldl (fun (equ : Equation) entry => equ.addAddend entry._value entry._index) init
        = { init with
            _addends := init._addends ++ l.map (fun x => ⟨x._value, x._index⟩) } := by
  induction l with
  | nil => intro init; simp
  | cons x xs ih =>
    intro init
    rw [List.foldl_cons, ih]
    simp [Equation.addAddend]

/-- The equation that seeding builds for a row: the entries of the sparse row
as addends, in order, the right-hand scalar, and zero causing-split
metadata. -/
theorem FactTracker.rowEquation_eq (tableau : ITableau) (equID : Nat) :
    FactTracker.rowEquation tableau equID =
      { toFact := Fact.fresh.setCausingSplitInfo 0 0 0
        _addends := (tableau.getSparseARow equID).map (fun x => ⟨x._value, x._index⟩)
        _scalar := tableau.getbRow equID
        _type := .EQ } := by
  unfold FactTracker.rowEquation
  simp only [foldl_addAddend]
  rfl

theorem row_object_facts (self : Nat) (tableau : ITableau) (e : Nat) :
    ZeroSplitInfo (ownedEquation (FactTracker.new self) (FactTracker.rowEquation tableau e)) ∧
    (ownedEquation (FactTracker.new self)
      (FactTracker.rowEquation tableau e)).isCausedBySplit = true ∧
    (ownedEquation (FactTracker.new self)
      (FactTracker.rowEquation tableau e)).getExplanations = [] ∧
    (ownedEquation (FactTracker.new self)
      (FactTracker.rowEquation tableau e)).getOwner = some self := by
  rw [FactTracker.rowEquation_eq]
  exact ⟨⟨rfl, rfl, rfl⟩, rfl, rfl, rfl⟩

theorem SeededUpTo.start (self : Nat) (mem : Memory) (tableau : ITableau) :
    SeededUpTo self mem.cells.length tableau 0 0 (mem, FactTracker.new self) := by
  refine ⟨by simp, rfl, ?_, ?_, ?_, ?_, ?_, ?_, ?_, ?_⟩
  · intro v; simp [FactTracker.new, Map.empty]
  · intro v; simp [FactTracker.new, Map.empty]
  · intro e; simp [FactTracker.new, Map.empty]
  · intro v hv; omega
  · intro v hv; omega
  · intro e he; omega
  · intro p; simp [FactTracker.new]
  · intro p h1 h2; omega

theorem Map.stackAt_of_find_none {α : Type} (m : Map (Stack α)) (k : Nat)
    (h : m.find k = none) : m.stackAt k = [] := by
  simp [Map.stackAt, h]

/-- Seeding one more variable. -/
theorem SeededUpTo.variable {self L : Nat} {tableau : ITableau} {n : Nat}
    {st : Memory × FactTracker} (inv : SeededUpTo self L tableau n 0 st) :
    SeededUpTo self L tableau (n + 1) 0 (FactTracker.seedVariable tableau st n) := by
  have hdef : FactTracker.seedVariable tableau st n =
      (st.2.addBoundFact st.1 n (lowerSeed tableau n)).2.addBoundFact
        (st.2.addBoundFact st.1 n (lowerSeed tableau n)).1 n (upperSeed tableau n) := rfl
  rw [hdef]
  obtain ⟨a1, a2, a3, a4, a5, a6, _⟩ :=
    FactTracker.addBoundFact_step st.2 st.1 n (lowerSeed tableau n)
  obtain ⟨b1, b2, b3, b4, b5, _, b7⟩ :=
    FactTracker.addBoundFact_step (st.2.addBoundFact st.1 n (lowerSeed tableau n)).2
      (st.2.addBoundFact st.1 n (lowerSeed tableau n)).1 n (upperSeed tableau n)
  obtain ⟨a6l, a6u⟩ := a6 rfl
  obtain ⟨b7u, b7l⟩ := b7 rfl
  have hlen := inv.len
  have hself := inv.self_eq
  have hlow : ownedTightening st.2 (lowerSeed tableau n)
      = ownedTightening (FactTracker.new self) (lowerSeed tableau n) :=
    ownedTightening_congr _ _ (by rw [hself]; rfl) _
  have hupp : ownedTightening (st.2.addBoundFact st.1 n (lowerSeed tableau n)).2
      (upperSeed tableau n)
      = ownedTightening (FactTracker.new self) (upperSeed tableau n) :=
    ownedTightening_congr _ _ (by rw [a2, hself]; rfl) _
  have hln : st.2._lowerBoundFact.stackAt n = [] :=
    Map.stackAt_of_find_none _ _ (by rw [inv.lower]; simp)
  have hun : st.2._upperBoundFact.stackAt n = [] :=
    Map.stackAt_of_find_none _ _ (by rw [inv.upper]; simp)
  refine ⟨by rw [b1, a1, hlen]; omega, by rw [b2, a2, hself], ?_, ?_, ?_, ?_, ?_, ?_, ?_, ?_⟩
  · intro v
    rw [b7l, a6l, hln, inv.lower, hlen]
    by_cases hv : v = n
    · subst hv; simp
    · have h1 : v < n + 1 ↔ v < n := by omega
      simp [hv, h1]
  · intro v
    rw [b7u, a6u, hun, inv.upper, a1, hlen]
    by_cases hv : v = n
    · subst hv; simp
    · have h1 : v < n + 1 ↔ v < n := by omega
      simp [hv, h1]
  · intro e
    rw [b5, a5, inv.equation]
    simp
  · intro v hv
    rw [b3, a3, a1, hlen]
    have h1 : ¬ L + 2 * v = L + 2 * n + 0 + 1 := by omega
    rw [if_neg h1]
    by_cases hvn : v = n
    · have h2 : L + 2 * v = L + 2 * n + 0 := by omega
      rw [if_pos h2, hlow, hvn]
    · have h2 : ¬ L + 2 * v = L + 2 * n + 0 := by omega
      rw [if_neg h2]
      exact inv.lowerObj v (by omega)
  · intro v hv
    rw [b3, a3, a1, hlen]
    by_cases hvn : v = n
    · have h2 : L + 2 * v + 1 = L + 2 * n + 0 + 1 := by omega
      rw [if_pos h2, hupp, hvn]
    · have h2 : ¬ L + 2 * v + 1 = L + 2 * n + 0 + 1 := by omega
      have h3 : ¬ L + 2 * v + 1 = L + 2 * n + 0 := by omega
      rw [if_neg h2, if_neg h3]
      exact inv.upperObj v (by omega)
  · intro e he
    omega
  · intro p
    rw [b4, a4, a1, hlen, Finset.mem_insert, Finset.mem_insert, inv.owned]
    constructor
    · rintro (h | h | h)
      · have h1 : @Eq Nat p (L + 2 * n + 0 + 1) := h
        omega
      · have h1 : @Eq Nat p (L + 2 * n + 0) := h
        omega
      · omega
    · intro h
      by_cases h1 : p = L + 2 * n + 0 + 1
      · exact Or.inl h1
      · by_cases h2 : p = L + 2 * n + 0
        · exact Or.inr (Or.inl h2)
        · exact Or.inr (Or.inr (by omega))
  · intro p h1 h2
    rw [b3, a3, a1, hlen]
    by_cases hp1 : p = L + 2 * n + 0 + 1
    · rw [if_pos hp1, hupp]
      exact ⟨_, rfl, (seed_object_facts self tableau n).2⟩
    · rw [if_neg hp1]
      by_cases hp0 : p = L + 2 * n + 0
      · rw [if_pos hp0, hlow]
        exact ⟨_, rfl, (seed_object_facts self tableau n).1⟩
      · rw [if_neg hp0]
        exact inv.zero p h1 (by omega)

/-- Seeding one more row. -/
theorem SeededUpTo.row {self L : Nat} {tableau : ITableau} {n m : Nat}
    {st : Memory × FactTracker} (inv : SeededUpTo self L tableau n m st) :
    SeededUpTo self L tableau n (m + 1) (FactTracker.seedRow tableau st m) := by
  have hdef : FactTracker.seedRow tableau st m =
      st.2.addEquationFact st.1 m (FactTracker.rowEquation tableau m) := rfl
  rw [hdef]
  have hlen := inv.len
  have hself := inv.self_eq
  have hobj : ownedEquation st.2 (FactTracker.rowEquation tableau m)
      = ownedEquation (FactTracker.new self) (FactTracker.rowEquation tableau m) :=
    ownedEquation_congr _ _ (by rw [hself]; rfl) _
  have hen : st.2._equationFact.stackAt m = [] :=
    Map.stackAt_of_find_none _ _ (by rw [inv.equation]; simp)
  have hderef : ∀ p, (st.2.addEquationFact st.1 m (FactTracker.rowEquation tableau m)).1.deref p
      = if p = L + 2 * n + m
        then some (ownedEquation (FactTracker.new self) (FactTracker.rowEquation tableau m))
        else st.1.deref p := by
    intro p
    rw [FactTracker.addEquationFact_fst, Memory.deref_alloc, hlen, hobj]
  have hsnd := FactTracker.addEquationFact_snd st.2 st.1 m (FactTracker.rowEquation tableau m)
  refine ⟨?_, ?_, ?_, ?_, ?_, ?_, ?_, ?_, ?_, ?_⟩
  · rw [FactTracker.addEquationFact_fst]
    simp only [Memory.alloc, List.length_append, List.length_singleton, hlen]
    omega
  · rw [hsnd]; exact hself
  · intro v; rw [hsnd]; exact inv.lower v
  · intro v; rw [hsnd]; exact inv.upper v
  · intro e
    rw [hsnd]
    simp only [FactTracker.find_pushOn]
    rw [hen, hlen, inv.equation]
    by_cases he : e = m
    · subst he; simp
    · have h1 : e < m + 1 ↔ e < m := by omega
      simp [he, h1]
  · intro v hv
    have h2 : ¬ L + 2 * v = L + 2 * n + m := by omega
    rw [hderef, if_neg h2]
    exact inv.lowerObj v hv
  · intro v hv
    have h2 : ¬ L + 2 * v + 1 = L + 2 * n + m := by omega
    rw [hderef, if_neg h2]
    exact inv.upperObj v hv
  · intro e he
    rw [hderef]
    by_cases hem : e = m
    · subst hem; rw [if_pos rfl]
    · have h2 : ¬ L + 2 * n + e = L + 2 * n + m := by omega
      rw [if_neg h2]
      exact inv.rowObj e (by omega)
  · intro p
    rw [hsnd]
    simp only [Finset.mem_insert, inv.owned, hlen]
    constructor
    · rintro (h | h)
      · have h1 : @Eq Nat p (L + 2 * n + m) := h
        omega
      · omega
    · intro h
      by_cases h1 : p = L + 2 * n + m
      · exact Or.inl h1
      · exact Or.inr (by omega)
  · intro p h1 h2
    rw [hderef]
    by_cases hp : p = L + 2 * n + m
    · rw [if_pos hp]
      exact ⟨_, rfl, row_object_facts self tableau m⟩
    · rw [if_neg hp]
      exact inv.zero p h1 (by omega)

theorem foldl_range_invariant {σ : Type} (P : Nat → σ → Prop) (f : σ → Nat → σ)
    (hstep : ∀ n s, P n s → P (n + 1) (f s n)) (s0 : σ) (h0 : P 0 s0) :
    ∀ N, P N ((List.range N).foldl f s0) := by
  intro N
  induction N with
  | zero => exact h0
  | succ N ih =>
    rw [List.range_succ, List.foldl_append]
    exact hstep N _ ih

/-- The state after seeding an empty tracker. -/
theorem SeededUpTo.final (self : Nat) (mem : Memory) (tableau : ITableau) :
    SeededUpTo self mem.cells.length tableau tableau.getN tableau.getM
      ((FactTracker.new self).initializeFromTableau mem tableau) := by
  unfold FactTracker.initializeFromTableau
  have h1 := foldl_range_invariant
    (fun n st => SeededUpTo self mem.cells.length tableau n 0 st)
    (FactTracker.seedVariable tableau) (fun n s h => h.variable) (mem, FactTracker.new self)
    (SeededUpTo.start self mem tableau) tableau.getN
  exact foldl_range_invariant
    (fun m st => SeededUpTo self mem.cells.length tableau tableau.getN m st)
    (FactTracker.seedRow tableau) (fun m s h => h.row) _ h1 tableau.getM

end SeededState

section SeededFacts

open FactTracker

/-- A queue of objects that are caused by a split at level 0 is consumed
without recording a pair. -/
theorem causingLoop_level_zero (mem : Memory) :
    ∀ (remaining : List Ptr) (fuel : Nat) (seen : Finset Ptr) (result : List (Nat × Nat)),
      (∀ p ∈ remaining, ∃ o, mem.deref p = some o ∧ o.isCausedBySplit = true ∧
        o.getSplitLevelCausing = 0) →
      remaining.length ≤ fuel →
      causingLoop mem fuel seen result remaining = .done result := by
  intro remaining
  induction remaining with
  | nil => intro fuel seen result _ _; exact causingLoop_nil _ _ _ _
  | cons fact rest ih =>
    intro fuel seen result hall hfuel
    obtain ⟨k, rfl⟩ : ∃ k, fuel = k + 1 := ⟨fuel - 1, by simp at hfuel; omega⟩
    have hrest : ∀ p ∈ rest, ∃ o, mem.deref p = some o ∧ o.isCausedBySplit = true ∧
        o.getSplitLevelCausing = 0 := fun p hp => hall p (List.mem_cons_of_mem _ hp)
    have hk : rest.length ≤ k := by simp at hfuel; omega
    rw [causingLoop_cons]
    by_cases hs : fact ∈ seen
    · rw [if_pos hs]; exact ih k seen result hrest hk
    · rw [if_neg hs]
      obtain ⟨o, ho, hsp, hlev⟩ := hall fact (List.mem_cons_self _ _)
      rw [ho]
      simp only [hsp, if_true, hlev, ne_eq, not_true_eq_false, if_false]
      exact ih k _ result hrest hk

theorem Memory.deref_of_le (mem : Memory) (p : Ptr) (h : mem.cells.length ≤ p) :
    mem.deref p = none := by
  have : mem.cells[p]? = none := List.getElem?_eq_none h
  simp [Memory.deref, this]

/-- C11. Seeded facts are axioms: every fact that `initializeFromTableau`
creates in an empty tracker (the owned facts afterwards, objects that did
not exist before) has the causing-split metadata (0, 0, 0), so split level
0, and `getConstraintsAndSplitsCausingFacts` on every list of seeded facts,
the list of all of them included, returns the empty list (for every fuel
that allows one iteration per input fact). -/
theorem seeded_facts_are_axioms (self : Nat) (mem : Memory) (tableau : ITableau) :
    (∀ p : Nat, p ∈ ((FactTracker.new self).initializeFromTableau mem tableau).2._factsLearnedSet ↔
      mem.cells.length ≤ p ∧ p < mem.cells.length + 2 * tableau.getN + tableau.getM) ∧
    (∀ p ∈ ((FactTracker.new self).initializeFromTableau mem tableau).2._factsLearnedSet,
      mem.deref p = none ∧
      ∃ o, ((FactTracker.new self).initializeFromTableau mem tableau).1.deref p = some o ∧
        o.getCausingConstraintID = 0 ∧ o.getCausingSplitID = 0 ∧
        o.getSplitLevelCausing = 0) ∧
    (∀ (facts : List Ptr) (fuel : Nat),
      (∀ p ∈ facts,
        p ∈ ((FactTracker.new self).initializeFromTableau mem tableau).2._factsLearnedSet) →
      facts.length ≤ fuel →
      ((FactTracker.new self).initializeFromTableau mem tableau).2.getConstraintsAndSplitsCausingFacts
        ((FactTracker.new self).initializeFromTableau mem tableau).1 fuel facts = .done []) ∧
    (∀ fuel, 2 * tableau.getN + tableau.getM ≤ fuel →
      ((FactTracker.new self).initializeFromTableau mem tableau).2.getConstraintsAndSplitsCausingFacts
        ((FactTracker.new self).initializeFromTableau mem tableau).1 fuel
        (List.range' mem.cells.length (2 * tableau.getN + tableau.getM)) = .done []) := by
  have inv := SeededUpTo.final self mem tableau
  have hall : ∀ (facts : List Ptr) (fuel : Nat),
      (∀ p ∈ facts,
        p ∈ ((FactTracker.new self).initializeFromTableau mem tableau).2._factsLearnedSet) →
      facts.length ≤ fuel →
      ((FactTracker.new self).initializeFromTableau mem tableau).2.getConstraintsAndSplitsCausingFacts
        ((FactTracker.new self).initializeFromTableau mem tableau).1 fuel facts = .done [] := by
    intro facts fuel hin hfuel
    apply causingLoop_level_zero _ facts fuel ∅ [] _ hfuel
    intro p hp
    obtain ⟨h1, h2⟩ := (inv.owned p).1 (hin p hp)
    obtain ⟨o, ho, hz, hsp, _, _⟩ := inv.zero p h1 h2
    exact ⟨o, ho, hsp, hz.2.2⟩
  refine ⟨inv.owned, ?_, hall, ?_⟩
  · intro p hp
    obtain ⟨h1, h2⟩ := (inv.owned p).1 hp
    obtain ⟨o, ho, hz, _, _, _⟩ := inv.zero p h1 h2
    exact ⟨Memory.deref_of_le mem p h1, o, ho, hz.1, hz.2.1, hz.2.2⟩
  · intro fuel hfuel
    apply hall _ fuel _ (by simpa using hfuel)
    intro p hp
    rw [inv.owned]
    rw [List.mem_range'_1] at hp
    omega

/-- Witness of `seeded_facts_are_axioms`: the five facts seeded from
`smallTableau` into an empty tracker on an empty memory. -/
theorem seeded_facts_are_axioms_witness :
    2 * smallTableau.getN + smallTableau.getM ≤ 5 ∧
    ((FactTracker.new 0).initializeFromTableau emptyMemory
        smallTableau).2.getConstraintsAndSplitsCausingFacts
      ((FactTracker.new 0).initializeFromTableau emptyMemory smallTableau).1 5
      (List.range' emptyMemory.cells.length (2 * smallTableau.getN + smallTableau.getM))
      = .done [] :=
  ⟨by decide, (seeded_facts_are_axioms 0 emptyMemory smallTableau).2.2.2 5 (by decide)⟩

theorem FactTracker.get_of_find (m : Map (Stack Ptr)) (k : Nat) (p : Ptr)
    (h : m.find k = some [p]) :
    (match m.at k with
      | .error e => Except.error e
      | .ok temp => Stack.top temp) = (Except.ok p : Except Failure Ptr) := by
  simp [Map.at, h, Stack.top]

/-- C18. Seeded values mirror the tableau: after `initializeFromTableau` on an
empty tracker, for every variable `v < N` the fact returned by
`getFactAffectingBound(v, LB)` is a lower-bound tightening of `v` with the
value `getLowerBound(v)`, the one returned by `getFactAffectingBound(v, UB)`
is an upper-bound tightening of `v` with the value `getUpperBound(v)`, and
for every row `e < M` the fact returned by `getFactAffectingEquation(e)` is
an equation whose addends are the (coefficient, variable) entries of
`getSparseARow(e)` in the same order and whose scalar is `getbRow(e)`. -/
theorem seeded_values_mirror_tableau (self : Nat) (mem : Memory) (tableau : ITableau) :
    (∀ v, v < tableau.getN → ∃ p tg,
      ((FactTracker.new self).initializeFromTableau mem tableau).2.getFactAffectingBound v .LB
        = .ok p ∧
      ((FactTracker.new self).initializeFromTableau mem tableau).1.deref p
        = some (.tightening tg) ∧
      tg._type = .LB ∧ tg._variable = v ∧ tg._value = tableau.getLowerBound v) ∧
    (∀ v, v < tableau.getN → ∃ p tg,
      ((FactTracker.new self).initializeFromTableau mem tableau).2.getFactAffectingBound v .UB
        = .ok p ∧
      ((FactTracker.new self).initializeFromTableau mem tableau).1.deref p
        = some (.tightening tg) ∧
      tg._type = .UB ∧ tg._variable = v ∧ tg._value = tableau.getUpperBound v) ∧
    (∀ e, e < tableau.getM → ∃ p equ,
      ((FactTracker.new self).initializeFromTableau mem tableau).2.getFactAffectingEquation e
        = .ok p ∧
      ((FactTracker.new self).initializeFromTableau mem tableau).1.deref p
        = some (.equation equ) ∧
      equ._addends = (tableau.getSparseARow e).map (fun x => ⟨x._value, x._index⟩) ∧
      equ._scalar = tableau.getbRow e) := by
  have inv := SeededUpTo.final self mem tableau
  refine ⟨?_, ?_, ?_⟩
  · intro v hv
    have hf := inv.lower v
    rw [if_pos hv] at hf
    refine ⟨_, _, ?_, inv.lowerObj v hv, rfl, rfl, rfl⟩
    unfold FactTracker.getFactAffectingBound
    rw [if_pos rfl]
    exact FactTracker.get_of_find _ _ _ hf
  · intro v hv
    have hf := inv.upper v
    rw [if_pos hv] at hf
    refine ⟨_, _, ?_, inv.upperObj v hv, rfl, rfl, rfl⟩
    unfold FactTracker.getFactAffectingBound
    rw [if_neg (by decide)]
    exact FactTracker.get_of_find _ _ _ hf
  · intro e he
    have hf := inv.equation e
    rw [if_pos he] at hf
    have hobj := inv.rowObj e he
    rw [FactTracker.rowEquation_eq] at hobj
    exact ⟨_, _, FactTracker.get_of_find _ _ _ hf, hobj, rfl, rfl⟩

/-- Witness of `seeded_values_mirror_tableau`: variable 1 and row 0 of
`smallTableau`. -/
theorem seeded_values_mirror_tableau_witness :
    1 < smallTableau.getN ∧ 0 < smallTableau.getM ∧
    (∃ p tg,
      ((FactTracker.new 0).initializeFromTableau emptyMemory
        smallTableau).2.getFactAffectingBound 1 .LB = .ok p ∧
      ((FactTracker.new 0).initializeFromTableau emptyMemory smallTableau).1.deref p
        = some (.tightening tg) ∧
      tg._type = .LB ∧ tg._variable = 1 ∧ tg._value = smallTableau.getLowerBound 1) ∧
    (∃ p equ,
      ((FactTracker.new 0).initializeFromTableau emptyMemory
        smallTableau).2.getFactAffectingEquation 0 = .ok p ∧
      ((FactTracker.new 0).initializeFromTableau emptyMemory smallTableau).1.deref p
        = some (.equation equ) ∧
      equ._addends = (smallTableau.getSparseARow 0).map (fun x => ⟨x._value, x._index⟩) ∧
      equ._scalar = smallTableau.getbRow 0) :=
  ⟨by decide, by decide,
    (seeded_values_mirror_tableau 0 emptyMemory smallTableau).1 1 (by decide),
    (seeded_values_mirror_tableau 0 emptyMemory smallTableau).2.2 0 (by decide)⟩

end SeededFacts

end Marabou
